import Mathlib

/-! BayesianTracker: tracklets and hypothesis generation.

A shallow embedding of `btrack/src/tracklet.cc`, `btrack/src/hypothesis.cc` and
the constants of `btrack/include/defs.h`.

Conventions of the embedding.

* `std::vector` is a `List`; `push_back` appends at the end, `front()` is the
  head and `back()` the last element.  Reading `front()`/`back()` of an empty
  vector, or an element that does not exist, is undefined in the source and
  `none` here.
* The motion model (`MotionModel`) is not part of these sources; it is a
  parameter, `MotionModelOps`, carrying the four operations the tracklet calls.
* The tracklet layer is generic in the scalar type `R` of the coordinates, so
  that it can be run on integers; the hypothesis engine works over `ℝ`, the
  exact-arithmetic reading of `double`/`float`.
-/

namespace BTrack

/-! ## Constants of `defs.h` -/

def MAX_LOST : Nat := 5

def STATE_interphase : Nat := 0
def STATE_prometaphase : Nat := 1
def STATE_metaphase : Nat := 2
def STATE_anaphase : Nat := 3
def STATE_apoptosis : Nat := 4
def STATE_null : Nat := 5

def TYPE_Pfalse : Nat := 0
def TYPE_Pinit : Nat := 1
def TYPE_Pterm : Nat := 2
def TYPE_Plink : Nat := 3
def TYPE_Pdivn : Nat := 4
def TYPE_Papop : Nat := 5
def TYPE_Pmrge : Nat := 6
def TYPE_Pdead : Nat := 666
def TYPE_undef : Nat := 999

/-! ## Observations, predictions, the motion model interface -/

/-- An `Eigen::Vector3d`. -/
structure Vec3 (R : Type) where
  x : R
  y : R
  z : R

/-- Componentwise sum of two 3-vectors. -/
def Vec3.add {R : Type} [Add R] (a b : Vec3 R) : Vec3 R :=
  ⟨a.x + b.x, a.y + b.y, a.z + b.z⟩

/-- Componentwise difference of two 3-vectors. -/
def Vec3.sub {R : Type} [Sub R] (a b : Vec3 R) : Vec3 R :=
  ⟨a.x - b.x, a.y - b.y, a.z - b.z⟩

/-- The coefficients of a 3-vector, as a dynamically sized vector. -/
def Vec3.toList {R : Type} (a : Vec3 R) : List R := [a.x, a.y, a.z]

/-- A `TrackObject`: one detection.  The class is declared in a header that is
not among the sources; the fields are the ones the code reads and writes
(`ID`, `x`, `y`, `z`, `t`, `dummy`, `label`), `t` being an integer frame
number. -/
structure TrackObject (R : Type) where
  ID : Nat
  x : R
  y : R
  z : R
  t : Int
  dummy : Bool
  label : Nat

/-- The method `TrackObject::position()`. -/
def TrackObject.position {R : Type} (o : TrackObject R) : Vec3 R := ⟨o.x, o.y, o.z⟩

/-- A `Prediction`: a mean vector and a covariance matrix of dynamic size. -/
structure Prediction (R : Type) where
  mu : List R
  covar : List (List R)

/-- The Eigen expression `covar.block(0,0,3,3)`: the upper-left 3×3 block. -/
def block33 {R : Type} (covar : List (List R)) : List (List R) :=
  (covar.take 3).map (fun row => row.take 3)

/-- The operations of the opaque `MotionModel` that a tracklet uses, on a
state of type `M`. -/
structure MotionModelOps (R M : Type) where
  setup : M → TrackObject R → M
  update : M → TrackObject R → M
  predict : M → Prediction R
  get_motion_vector : M → Vec3 R

/-! ## `Tracklet` (tracklet.cc) -/

/-- The data members of a `Tracklet` that `tracklet.cc` touches. -/
structure Tracklet (R M : Type) where
  ID : Nat
  track : List (TrackObject R)
  prediction : List (Prediction R)
  kalman : List (Prediction R)
  motion_model : M
  lost : Nat
  remove_flag : Bool

section TrackletOps

variable {R M : Type} [Add R]

/-- Modelled from the spec: `Tracklet::position()` is declared in the missing
header; the spec gives `predict` as "last observation's position plus the
motion vector", so `position()` is the position of `track.back()`. -/
def Tracklet.position (t : Tracklet R M) : Option (Vec3 R) :=
  t.track.getLast?.map TrackObject.position

/-- The method `Tracklet::predict()`. -/
def Tracklet.predict (ops : MotionModelOps R M) (t : Tracklet R M) :
    Option (Prediction R) := do
  let p := ops.predict t.motion_model
  let pos ← t.position
  some { mu := (pos.add (ops.get_motion_vector t.motion_model)).toList,
         covar := block33 p.covar }

/-- The method `Tracklet::append(new_object, update)`. -/
def Tracklet.append (ops : MotionModelOps R M) (t : Tracklet R M)
    (new_object : TrackObject R) (update : Bool) : Option (Tracklet R M) := do
  -- append the new object to the end of the track
  let t1 : Tracklet R M := { t with track := t.track ++ [new_object] }
  -- update the motion model and the prediction
  let t2 : Tracklet R M :=
    if update then { t1 with motion_model := ops.update t1.motion_model new_object } else t1
  -- push back the prediction before the update
  let p ← t2.predict ops
  let t3 : Tracklet R M := { t2 with prediction := t2.prediction ++ [p] }
  -- store the Kalman filter output
  let t4 : Tracklet R M := { t3 with kalman := t3.kalman ++ [ops.predict t3.motion_model] }
  -- if this is a dummy object increment the lost counter
  if new_object.dummy then
    some { t4 with lost := t4.lost + 1 }
  else
    some { t4 with lost := 0 }

/-- Modelled from the spec: the default value of the parameter `update` of
`Tracklet::append` stands in the missing header; the spec writes the signature
`append(obs, update=true)`. -/
def append_update_default : Bool := true

/-- The constructor `Tracklet::Tracklet(new_ID, new_object, max_lost, model)`.
The members start empty and `lost` starts at zero (their in-class
initialisers). -/
def Tracklet.new (ops : MotionModelOps R M) (new_ID : Nat)
    (new_object : TrackObject R) (_max_lost : Nat) (model : M) :
    Option (Tracklet R M) :=
  Tracklet.append ops
    { ID := new_ID, track := [], prediction := [], kalman := [],
      motion_model := ops.setup model new_object, lost := 0, remove_flag := false }
    new_object false

/-- The method `Tracklet::append_dummy()`. -/
def Tracklet.append_dummy (ops : MotionModelOps R M) (t : Tracklet R M) :
    Option (Tracklet R M) :=
  if t.lost ≥ MAX_LOST then some t
  else do
    -- get the predicted new position
    let p ← t.predict ops
    -- make a dummy track object by copying the last observation
    let last ← t.track.getLast?
    let mu0 ← p.mu[0]?
    let mu1 ← p.mu[1]?
    let mu2 ← p.mu[2]?
    let dummy : TrackObject R :=
      { last with dummy := true, x := mu0, y := mu1, z := mu2, t := last.t + 1, ID := 0 }
    -- append the dummy to the track
    t.append ops dummy append_update_default

/-- The loop `while (track.back()->dummy) track.pop_back();` of `trim`, run on
the track listed from the back: the head of the argument is `track.back()`. -/
def trimLoop : List (TrackObject R) → Option (List (TrackObject R))
  | [] => none
  | o :: rest => if o.dummy then trimLoop rest else some (o :: rest)

/-- The method `Tracklet::trim()`: the tracklet afterwards, and the returned
flag. -/
def Tracklet.trim (t : Tracklet R M) : Option (Tracklet R M × Bool) :=
  (trimLoop t.track.reverse).map (fun back => ({ t with track := back.reverse }, true))

/-- A call of one of the three mutating methods of a tracklet. -/
inductive Op (R : Type) where
  | append (new_object : TrackObject R) (update : Bool)
  | append_dummy
  | trim

/-- One method call. -/
def Tracklet.step (ops : MotionModelOps R M) (t : Tracklet R M) :
    Op R → Option (Tracklet R M)
  | Op.append o u => t.append ops o u
  | Op.append_dummy => t.append_dummy ops
  | Op.trim => (t.trim).map Prod.fst

/-- A finite sequence of method calls, left to right. -/
def Tracklet.run (ops : MotionModelOps R M) (t : Tracklet R M) :
    List (Op R) → Option (Tracklet R M)
  | [] => some t
  | op :: rest => (t.step ops op).bind (fun t1 => Tracklet.run ops t1 rest)

end TrackletOps

/-! ### A concrete motion model, for running the tracklet code -/

/-- A motion model without state that predicts no motion. -/
def stillModel : MotionModelOps Int Unit where
  setup := fun m _ => m
  update := fun m _ => m
  predict := fun _ => { mu := [0, 0, 0, 0, 0, 0], covar := [] }
  get_motion_vector := fun _ => ⟨0, 0, 0⟩

/-- A real (non-dummy) interphase observation at the origin, frame 0. -/
def obs0 : TrackObject Int :=
  { ID := 7, x := 0, y := 0, z := 0, t := 0, dummy := false, label := 0 }

/-- A dummy-flagged observation. -/
def obsDummy : TrackObject Int :=
  { ID := 0, x := 0, y := 0, z := 0, t := 1, dummy := true, label := 0 }

/-- The tracklet built by the constructor from `obs0` under `stillModel`. -/
def freshTracklet : Tracklet Int Unit :=
  { ID := 1, track := [obs0], prediction := [{ mu := [0, 0, 0], covar := [] }],
    kalman := [{ mu := [0, 0, 0, 0, 0, 0], covar := [] }], motion_model := (),
    lost := 0, remove_flag := false }

/-- The tracklet `freshTracklet` with its lost counter at `MAX_LOST`. -/
def lostTracklet : Tracklet Int Unit := { freshTracklet with lost := 5 }

/-- Every appended observation of a call sequence is a real one. -/
def OnlyRealAppends {R : Type} (calls : List (Op R)) : Prop :=
  ∀ o u, Op.append o u ∈ calls → o.dummy = false

/-! ## The hypothesis engine (hypothesis.cc)

`double` and `float` are read as exact real numbers; the only infinite value
is `kInfinity` in `dist_from_border`, the top element of `WithTop ℝ`.  The
frame number `t` of an observation is an integer; where the code mixes it with
a `double` or a `float` the arithmetic is that of the reals.  The frame range
is held in `unsigned int`s, so the difference `m_frame_range[1] - t` in the
test of `P_term` is taken modulo `2^32` (`unsigned_sub`).  Every function that
pushes hypotheses onto `m_hypotheses` returns the list of the hypotheses it
pushes, in order. -/

noncomputable section Engine

def DEFAULT_LOW_PROBABILITY : ℝ := 1e-308

def WEIGHT_METAPHASE_ANAPHASE_ANAPHASE : ℝ := 0.01
def WEIGHT_METAPHASE_ANAPHASE : ℝ := 0.1
def WEIGHT_METAPHASE : ℝ := 2.0
def WEIGHT_ANAPHASE_ANAPHASE : ℝ := 1.0
def WEIGHT_ANAPHASE : ℝ := 2.0
def WEIGHT_OTHER : ℝ := 5.0

/-- The constant `kRootTwo`. -/
def kRootTwo : ℝ := Real.sqrt 2.0

/-- The error function `std::erf`, by its power series
`erf x = 2/sqrt(pi) * sum over n of (-1)^n x^(2n+1) / (n! (2n+1))`, which
converges for every `x`. -/
def erf (x : ℝ) : ℝ :=
  2 / Real.sqrt Real.pi *
    tsum (fun n : ℕ => (-1 : ℝ) ^ n * x ^ (2 * n + 1) / ((n.factorial : ℝ) * (2 * n + 1)))

/-- The function `safe_log`. -/
def safe_log (value : ℝ) : ℝ :=
  if value ≤ 0 then Real.log DEFAULT_LOW_PROBABILITY else Real.log value

/-- The coefficient `v[dim]` of a 3-vector. -/
def Vec3.coeff {R : Type} (v : Vec3 R) : Fin 3 → R
  | 0 => v.x
  | 1 => v.y
  | 2 => v.z

/-- The product `d.transpose() * d'` of two 3-vectors. -/
def Vec3.dot (a b : Vec3 ℝ) : ℝ := a.x * b.x + a.y * b.y + a.z * b.z

/-- Eigen's `normalized()`: the vector divided by its norm, and the vector
itself when its norm is zero. -/
def Vec3.normalized (a : Vec3 ℝ) : Vec3 ℝ :=
  if 0 < a.dot a then
    ⟨a.x / Real.sqrt (a.dot a), a.y / Real.sqrt (a.dot a), a.z / Real.sqrt (a.dot a)⟩
  else a

-- the engine records are used through their fields only
set_option genInjectivity false
set_option genSizeOfSpec false
set_option genSizeOf false

/-- The struct `PyHypothesisParams`. -/
structure PyHypothesisParams where
  lambda_time : ℝ
  lambda_dist : ℝ
  lambda_link : ℝ
  lambda_branch : ℝ
  eta : ℝ
  theta_dist : ℝ
  theta_time : ℝ
  dist_thresh : ℝ
  time_thresh : ℝ
  apop_thresh : Nat
  segmentation_miss_rate : ℝ
  apoptosis_rate : ℝ
  relax : Bool
  hypotheses_to_generate : Nat

/-- The imaging volume `volume` of the engine. -/
structure ImagingVolume where
  min_xyz : Vec3 ℝ
  max_xyz : Vec3 ℝ

/-- A `Hypothesis`: its type, the focal tracklet, the linked tracklet and the
two children (null unless set), and the log-probability.  Tracklet pointers
are the tracklets themselves. -/
structure Hypothesis (M : Type) where
  hypothesis : Nat
  trk_ID : Tracklet ℝ M
  trk_link_ID : Option (Tracklet ℝ M)
  trk_child_one_ID : Option (Tracklet ℝ M)
  trk_child_two_ID : Option (Tracklet ℝ M)
  probability : ℝ

/-- The interface of the spatial index `HypercubeBin`, whose implementation is
not among the sources, on an index of type `C`. -/
structure HypercubeOps (M C : Type) where
  create : ℝ → ℝ → C
  add_tracklet : C → Tracklet ℝ M → Option C
  get : C → Tracklet ℝ M → Bool → Option (List (Tracklet ℝ M))

/-- The data members of a `HypothesisEngine`. -/
structure HypothesisEngine (M C : Type) where
  m_frame_range : Nat × Nat
  m_params : PyHypothesisParams
  volume : ImagingVolume
  m_tracks : List (Tracklet ℝ M)
  m_cube : C
  m_hypotheses : List (Hypothesis M)
  m_num_tracks : Nat

variable {M C : Type}

/-- Modelled from the spec: `Tracklet::duration()` is declared in the missing
header; the spec gives it as `last_t - first_t`. -/
def Tracklet.duration (t : Tracklet ℝ M) : Option Int := do
  let first ← t.track.head?
  let last ← t.track.getLast?
  some (last.t - first.t)

/-- The function `link_distance`. -/
def link_distance (a_trk a_trk_lnk : Tracklet ℝ M) : Option ℝ := do
  let back ← a_trk.track.getLast?
  let front ← a_trk_lnk.track.head?
  let d := back.position.sub front.position
  some (Real.sqrt (d.dot d))

/-- The function `link_time`. -/
def link_time (a_trk a_trk_lnk : Tracklet ℝ M) : Option ℝ := do
  let front ← a_trk_lnk.track.head?
  let back ← a_trk.track.getLast?
  some ((front.t - back.t : Int) : ℝ)

/-- The `while` loop of `count_apoptosis`, entered with `counter ≥ 0` and the
running count `n_apoptosis`. -/
def count_apoptosis_loop (track : List (TrackObject ℝ)) : Nat → Nat → Option Nat
  | 0, n_apoptosis => do
    let o ← track[0]?
    if o.label = STATE_apoptosis then some (n_apoptosis + 1) else some n_apoptosis
  | counter + 1, n_apoptosis => do
    let o ← track[counter + 1]?
    if o.label = STATE_apoptosis then count_apoptosis_loop track counter (n_apoptosis + 1)
    else some n_apoptosis

/-- The function `count_apoptosis`; a failed assertion is `none`. -/
def count_apoptosis (a_trk : Tracklet ℝ M) : Option Nat :=
  if a_trk.track.length > 0 then
    count_apoptosis_loop a_trk.track (a_trk.track.length - 1) 0
  else none

/-- The constructor `HypothesisEngine(a_start_frame, a_stop_frame, a_params)`;
the public member `volume` is passed along. -/
def HypothesisEngine.new (cube : HypercubeOps M C) (a_start_frame a_stop_frame : Nat)
    (a_params : PyHypothesisParams) (volume : ImagingVolume) : HypothesisEngine M C :=
  { m_frame_range := (a_start_frame, a_stop_frame), m_params := a_params, volume := volume,
    m_tracks := [], m_cube := cube.create a_params.dist_thresh a_params.time_thresh,
    m_hypotheses := [], m_num_tracks := 0 }

/-- The method `add_track`. -/
def HypothesisEngine.add_track (cube : HypercubeOps M C) (e : HypothesisEngine M C)
    (a_trk : Tracklet ℝ M) : Option (HypothesisEngine M C) := do
  let c ← cube.add_tracklet e.m_cube a_trk
  some { e with m_tracks := e.m_tracks ++ [a_trk], m_cube := c }

/-- A sequence of `add_track` calls. -/
def HypothesisEngine.add_tracks (cube : HypercubeOps M C) (e : HypothesisEngine M C) :
    List (Tracklet ℝ M) → Option (HypothesisEngine M C)
  | [] => some e
  | t :: rest => (e.add_track cube t).bind (fun e1 => e1.add_tracks cube rest)

/-- The method `hypothesis_allowed`. -/
def HypothesisEngine.hypothesis_allowed (e : HypothesisEngine M C)
    (a_hypothesis_type : Nat) : Bool :=
  let bitmask := 2 ^ a_hypothesis_type
  (e.m_params.hypotheses_to_generate &&& bitmask) == bitmask

/-- One round of the loop over `dim` in `dist_from_border`. -/
def border_step (volume : ImagingVolume) (xyz : Vec3 ℝ) (min_dist : WithTop ℝ)
    (dim : Fin 3) : WithTop ℝ :=
  if volume.min_xyz.coeff dim = volume.max_xyz.coeff dim then min_dist
  else
    let min_this_dim : ℝ :=
      min (xyz.coeff dim - volume.min_xyz.coeff dim) (volume.max_xyz.coeff dim - xyz.coeff dim)
    if (min_this_dim : WithTop ℝ) < min_dist then (min_this_dim : WithTop ℝ) else min_dist

/-- The method `dist_from_border`. -/
def HypothesisEngine.dist_from_border (e : HypothesisEngine M C) (a_trk : Tracklet ℝ M)
    (a_start : Bool) : Option (WithTop ℝ) := do
  let o ← if a_start then a_trk.track.head? else a_trk.track.getLast?
  let xyz := o.position
  some ([0, 1, 2].foldl (border_step e.volume xyz) ⊤)

/-- The expression `std::exp(-dist/lambda)` for a border distance `dist`; at
`dist = kInfinity` it is `exp(-∞) = 0`, its value for every positive
`lam`. -/
def exp_neg_div (dist : WithTop ℝ) (lam : ℝ) : ℝ :=
  match dist with
  | none => 0
  | some d => Real.exp (-d / lam)

/-- The method `P_FP`. -/
def HypothesisEngine.P_FP (e : HypothesisEngine M C) (a_trk : Tracklet ℝ M) : Option ℝ := do
  let duration ← a_trk.duration
  let len_track : Nat := (1 + duration).toNat
  some (e.m_params.segmentation_miss_rate ^ len_track)

/-- The method `P_TP`. -/
def HypothesisEngine.P_TP (e : HypothesisEngine M C) (a_trk : Tracklet ℝ M) : Option ℝ := do
  let fp ← e.P_FP a_trk
  some (1.0 - fp)

/-- The method `P_init`. -/
def HypothesisEngine.P_init (e : HypothesisEngine M C) (a_trk : Tracklet ℝ M) : Option ℝ := do
  let dist ← e.dist_from_border a_trk true
  let front ← a_trk.track.head?
  let first : ℝ × Bool :=
    if (front.t : ℝ) < (e.m_frame_range.1 : ℝ) + e.m_params.theta_time then
      (Real.exp (-((front.t : ℝ) - (e.m_frame_range.1 : ℝ) + 1.0) / e.m_params.lambda_time),
        true)
    else (0.0, false)
  let second : ℝ × Bool :=
    if dist < (e.m_params.theta_dist : WithTop ℝ) ∨ e.m_params.relax = true then
      (exp_neg_div dist e.m_params.lambda_dist, true)
    else (0.0, first.2)
  if second.2 = true then some (max first.1 second.1) else some e.m_params.eta

/-- The difference `a - b` of two frame numbers in `unsigned int` arithmetic:
it is taken modulo `2^32`. -/
def unsigned_sub (a b : Int) : Int := (a - b) % 2 ^ 32

/-- The method `P_term`.  The frame range is stored from `unsigned int`
arguments, so the difference `m_frame_range[1] - t` of the test is an
`unsigned int` and wraps around when `t` is beyond the last frame; inside
`exp` the frame range is cast to `float` first and the difference is that of
the reals. -/
def HypothesisEngine.P_term (e : HypothesisEngine M C) (a_trk : Tracklet ℝ M) : Option ℝ := do
  let dist ← e.dist_from_border a_trk false
  let back ← a_trk.track.getLast?
  let first : ℝ × Bool :=
    if ((unsigned_sub (e.m_frame_range.2 : Int) back.t : Int) : ℝ)
        < e.m_params.theta_time then
      (Real.exp (-((e.m_frame_range.2 : ℝ) - (back.t : ℝ)) / e.m_params.lambda_time), true)
    else (0.0, false)
  let second : ℝ × Bool :=
    if dist < (e.m_params.theta_dist : WithTop ℝ) ∨ e.m_params.relax = true then
      (exp_neg_div dist e.m_params.lambda_dist, true)
    else (0.0, first.2)
  if second.2 = true then some (max first.1 second.1) else some e.m_params.eta

/-- The method `P_dead(a_trk, n_apoptosis)`. -/
def HypothesisEngine.P_dead (e : HypothesisEngine M C) (a_trk : Tracklet ℝ M)
    (n_apoptosis : Nat) : Option ℝ := do
  let dist ← e.dist_from_border a_trk false
  let discount : ℝ := 1.0 - exp_neg_div dist e.m_params.lambda_dist
  some ((1.0 - e.m_params.apoptosis_rate ^ n_apoptosis) * discount)

/-- The method `P_dead(a_trk)`. -/
def HypothesisEngine.P_dead_count (e : HypothesisEngine M C) (a_trk : Tracklet ℝ M) :
    Option ℝ := do
  let n_apoptosis ← count_apoptosis a_trk
  e.P_dead a_trk n_apoptosis

/-- The method `P_link(a_trk, a_trk_lnk, d, dt)`, with
`DISALLOW_METAPHASE_ANAPHASE_LINKING` true; a failed assertion is `none`. -/
def HypothesisEngine.P_link (e : HypothesisEngine M C) (a_trk a_trk_lnk : Tracklet ℝ M)
    (d dt : ℝ) : Option ℝ := do
  let back ← a_trk.track.getLast?
  let front ← a_trk_lnk.track.head?
  if back.label = STATE_metaphase ∧ front.label = STATE_anaphase then some e.m_params.eta
  else if dt > 0.0 then some (Real.exp (-(d * dt) / e.m_params.lambda_link))
  else none

/-- The method `P_link(a_trk, a_trk_lnk)`. -/
def HypothesisEngine.P_link_auto (e : HypothesisEngine M C) (a_trk a_trk_lnk : Tracklet ℝ M) :
    Option ℝ := do
  let d ← link_distance a_trk a_trk_lnk
  let dt ← link_time a_trk a_trk_lnk
  e.P_link a_trk a_trk_lnk d dt

/-- The method `P_branch`. -/
def HypothesisEngine.P_branch (e : HypothesisEngine M C)
    (a_trk a_trk_c0 a_trk_c1 : Tracklet ℝ M) : Option ℝ := do
  let front0 ← a_trk_c0.track.head?
  let front1 ← a_trk_c1.track.head?
  let back ← a_trk.track.getLast?
  let d_c0 := front0.position.sub back.position
  let d_c1 := front1.position.sub back.position
  let dot_product : ℝ := d_c0.normalized.dot d_c1.normalized
  let weight ←
    if back.label = STATE_metaphase then
      if front0.label = STATE_anaphase ∧ front1.label = STATE_anaphase then
        some WEIGHT_METAPHASE_ANAPHASE_ANAPHASE
      else if front0.label = STATE_anaphase ∨ front1.label = STATE_anaphase then
        some WEIGHT_METAPHASE_ANAPHASE
      else some WEIGHT_METAPHASE
    else
      if front0.label = STATE_anaphase ∧ front1.label = STATE_anaphase then
        some WEIGHT_ANAPHASE_ANAPHASE
      else if front0.label = STATE_anaphase ∨ front1.label = STATE_anaphase then
        some WEIGHT_ANAPHASE
      else do
        let dead0 ← e.P_dead_count a_trk_c0
        let dead1 ← e.P_dead_count a_trk_c1
        some (WEIGHT_OTHER + 10.0 * dead0 + 10.0 * dead1)
  let delta_g : ℝ := weight * ((1.0 - erf (dot_product / (3.0 * kRootTwo))) / 2.0)
  some (Real.exp (-delta_g / (2.0 * e.m_params.lambda_branch)))

/-- The body of the loop over `j` in `create`, from candidate `j` on: the Link
hypotheses pushed and the tracklets appended to `conflicts`. -/
def HypothesisEngine.link_loop (e : HypothesisEngine M C) (trk : Tracklet ℝ M) :
    List (Tracklet ℝ M) → Option (List (Hypothesis M) × List (Tracklet ℝ M))
  | [] => some ([], [])
  | this_trk :: rest => do
    let d ← link_distance trk this_trk
    let dt ← link_time trk this_trk
    -- if we exceed these continue
    if d ≥ e.m_params.dist_thresh then e.link_loop trk rest
    else if dt ≥ e.m_params.time_thresh ∨ dt < 1 then e.link_loop trk rest
    else do
      let pushed ←
        if e.hypothesis_allowed TYPE_Plink = true then do
          let p_link ← e.P_link trk this_trk d dt
          let tp ← e.P_TP trk
          let tp_lnk ← e.P_TP this_trk
          some [({ hypothesis := TYPE_Plink, trk_ID := trk, trk_link_ID := some this_trk,
                   trk_child_one_ID := none, trk_child_two_ID := none,
                   probability := safe_log p_link + 0.5 * safe_log tp + 0.5 * safe_log tp_lnk }
                 : Hypothesis M)]
        else some []
      let (links, conflicts) ← e.link_loop trk rest
      some (pushed ++ links, this_trk :: conflicts)

/-- The loop over `q` in `create`, for the first child `child_one` and the
conflicts after it. -/
def HypothesisEngine.division_inner (e : HypothesisEngine M C) (trk child_one : Tracklet ℝ M) :
    List (Tracklet ℝ M) → Option (List (Hypothesis M))
  | [] => some []
  | child_two :: rest => do
    let pushed ←
      if e.hypothesis_allowed TYPE_Pdivn = true then do
        let p_branch ← e.P_branch trk child_one child_two
        let tp ← e.P_TP trk
        let tp_one ← e.P_TP child_one
        let tp_two ← e.P_TP child_two
        some [({ hypothesis := TYPE_Pdivn, trk_ID := trk, trk_link_ID := none,
                 trk_child_one_ID := some child_one, trk_child_two_ID := some child_two,
                 probability := safe_log p_branch + 0.5 * safe_log tp + 0.5 * safe_log tp_one
                   + 0.5 * safe_log tp_two } : Hypothesis M)]
      else some []
    let more ← e.division_inner trk child_one rest
    some (pushed ++ more)

/-- The loop over `p` in `create`, from conflict `p` on. -/
def HypothesisEngine.division_outer (e : HypothesisEngine M C) (trk : Tracklet ℝ M) :
    List (Tracklet ℝ M) → Option (List (Hypothesis M))
  | [] => some []
  | child_one :: rest => do
    let pushed ← e.division_inner trk child_one rest
    let more ← e.division_outer trk rest
    some (pushed ++ more)

/-- The body of the loop over the trajectories in `create`, for the test track
`trk`. -/
def HypothesisEngine.create_track (cube : HypercubeOps M C) (e : HypothesisEngine M C)
    (trk : Tracklet ℝ M) : Option (List (Hypothesis M)) := do
  -- false positive hypothesis calculated for everything
  let fp ← e.P_FP trk
  let h_fp : Hypothesis M :=
    { hypothesis := TYPE_Pfalse, trk_ID := trk, trk_link_ID := none, trk_child_one_ID := none,
      trk_child_two_ID := none, probability := safe_log fp }
  -- distance from the frame border
  let d_start ← e.dist_from_border trk true
  let d_stop ← e.dist_from_border trk false
  let front ← trk.track.head?
  let back ← trk.track.getLast?
  -- now calculate the initialisation
  let h_init ←
    (if e.hypothesis_allowed TYPE_Pinit = true then
      if e.m_params.relax = true ∨
          (front.t : ℝ) < (e.m_frame_range.1 : ℝ) + e.m_params.theta_time ∨
          d_start < (e.m_params.theta_dist : WithTop ℝ) then
        (do
          let p_init ← e.P_init trk
          let tp ← e.P_TP trk
          some [({ hypothesis := TYPE_Pinit, trk_ID := trk, trk_link_ID := none,
                   trk_child_one_ID := none, trk_child_two_ID := none,
                   probability := safe_log p_init + 0.5 * safe_log tp } : Hypothesis M)])
      else some []
    else some [])
  -- termination?
  let h_term ←
    (if e.hypothesis_allowed TYPE_Pterm = true then
      if e.m_params.relax = true ∨
          (back.t : ℝ) > (e.m_frame_range.2 : ℝ) - e.m_params.theta_time ∨
          d_stop < (e.m_params.theta_dist : WithTop ℝ) then
        (do
          let p_term ← e.P_term trk
          let tp ← e.P_TP trk
          some [({ hypothesis := TYPE_Pterm, trk_ID := trk, trk_link_ID := none,
                   trk_child_one_ID := none, trk_child_two_ID := none,
                   probability := safe_log p_term + 0.5 * safe_log tp } : Hypothesis M)])
      else some []
    else some [])
  -- apoptosis detection hypothesis
  let n_apoptosis ← count_apoptosis trk
  let h_apoptosis ←
    (if e.hypothesis_allowed TYPE_Papop = true ∧ n_apoptosis > e.m_params.apop_thresh then
      (do
        let p_dead ← e.P_dead trk n_apoptosis
        let tp ← e.P_TP trk
        some [({ hypothesis := TYPE_Papop, trk_ID := trk, trk_link_ID := none,
                 trk_child_one_ID := none, trk_child_two_ID := none,
                 probability := safe_log p_dead + 0.5 * safe_log tp } : Hypothesis M)])
    else some [])
  -- iterate over all of the tracks in the hash cube
  let trks_to_test ← cube.get e.m_cube trk false
  let (links, conflicts) ← e.link_loop trk trks_to_test
  -- if we have conflicts, this may mean divisions have occurred
  let divisions ←
    (if conflicts.length < 2 then some [] else e.division_outer trk conflicts)
  some (h_fp :: (h_init ++ h_term ++ h_apoptosis ++ links ++ divisions))

/-- The loop over the trajectories in `create`, from trajectory `i` on. -/
def HypothesisEngine.create_loop (cube : HypercubeOps M C) (e : HypothesisEngine M C) :
    List (Tracklet ℝ M) → Option (List (Hypothesis M))
  | [] => some []
  | trk :: rest => do
    let pushed ← e.create_track cube trk
    let more ← e.create_loop cube rest
    some (pushed ++ more)

/-- The method `create`. -/
def HypothesisEngine.create (cube : HypercubeOps M C) (e : HypothesisEngine M C) :
    Option (HypothesisEngine M C) :=
  if e.m_tracks.length < 1 then some e
  else do
    let pushed ← e.create_loop cube e.m_tracks
    some { e with m_num_tracks := e.m_tracks.length,
                  m_hypotheses := e.m_hypotheses ++ pushed }

end Engine
/-! ## The spatial index, from its contract

The class `HypercubeBin` is used by `hypothesis.cc` but its implementation is
not among the sources. -/

noncomputable section Cube

variable {M : Type}

-- the engine records are used through their fields only
set_option genInjectivity false
set_option genSizeOfSpec false
set_option genSizeOf false

/-- Modelled from the spec: the key of a bucket of `HypercubeBin`, "a 4-tuple
of integer bin coordinates `(⌊x/dist⌋, ⌊y/dist⌋, ⌊z/dist⌋, ⌊t/time⌋)`". -/
structure HashIndex where
  x : Int
  y : Int
  z : Int
  n : Int

/-- Modelled from the spec: the index `HypercubeBin`, with its two bin sizes
and its buckets, kept as the list of the inserted tracklets with the key of
their bucket, in insertion order. -/
structure HypercubeBin (M : Type) where
  dist_bin : ℝ
  time_bin : ℝ
  entries : List (HashIndex × Tracklet ℝ M)

/-- Modelled from the spec: the bucket of an observation, "keyed by a 4-tuple
of integer bin coordinates `(⌊x/dist⌋, ⌊y/dist⌋, ⌊z/dist⌋, ⌊t/time⌋)` derived
from the configured distance and time thresholds". -/
def HypercubeBin.hash_index (c : HypercubeBin M) (o : TrackObject ℝ) : HashIndex :=
  { x := ⌊o.x / c.dist_bin⌋, y := ⌊o.y / c.dist_bin⌋, z := ⌊o.z / c.dist_bin⌋,
    n := ⌊(o.t : ℝ) / c.time_bin⌋ }

/-- Modelled from the spec: two buckets belong to one "3×3×3×3 neighborhood
(all 81 adjacent buckets inclusive)" when every coordinate differs by at most
one. -/
def HashIndex.adjacent (a b : HashIndex) : Bool :=
  decide (|a.x - b.x| ≤ 1) && decide (|a.y - b.y| ≤ 1) && decide (|a.z - b.z| ≤ 1)
    && decide (|a.n - b.n| ≤ 1)

/-- Modelled from the spec: `new(dist_bin, time_bin)`, "empty index with
specified bin sizes". -/
def HypercubeBin.new (dist_bin time_bin : ℝ) : HypercubeBin M :=
  { dist_bin := dist_bin, time_bin := time_bin, entries := [] }

/-- Modelled from the spec: `add_tracklet(t)`, "insert into the bucket
determined by `t`'s last observation". -/
def HypercubeBin.add_tracklet (c : HypercubeBin M) (t : Tracklet ℝ M) :
    Option (HypercubeBin M) := do
  let last ← t.track.getLast?
  some { c with entries := c.entries ++ [(c.hash_index last, t)] }

/-- Modelled from the spec: `get(t, include_self)`, "the union of contents of
the 3×3×3×3 neighborhood around the bucket derived from `t`'s last
observation; when `include_self=false`, exclude `t` itself".  A tracklet is
told from `t` by its `ID`; the order of the result, which the spec leaves
open, is the insertion order. -/
def HypercubeBin.get (c : HypercubeBin M) (t : Tracklet ℝ M) (include_self : Bool) :
    Option (List (Tracklet ℝ M)) := do
  let last ← t.track.getLast?
  let idx := c.hash_index last
  some ((c.entries.filter
    (fun p => idx.adjacent p.1 && (include_self || decide (p.2.ID ≠ t.ID)))).map Prod.snd)

/-- Modelled from the spec: the three operations of `HypercubeBin`, as the
index of a `HypothesisEngine`. -/
def specCube : HypercubeOps M (HypercubeBin M) :=
  { create := HypercubeBin.new, add_tracklet := HypercubeBin.add_tracklet,
    get := HypercubeBin.get }

end Cube

/-! ## Notions used to state the properties of the engine -/

noncomputable section EngineNotions

variable {M C : Type}

/-- The length of the maximal run of apoptosis-labelled observations that ends
at the last observation of a track: the count `n_apop` as the specification
words it. -/
def trailing_apoptosis (track : List (TrackObject ℝ)) : Nat :=
  (track.reverse.takeWhile (fun o => o.label == STATE_apoptosis)).length

/-- The candidacy test of the loop over `j` of `create`: neither `continue`
is taken for `this_trk`. -/
def HypothesisEngine.accepts (e : HypothesisEngine M C) (trk this_trk : Tracklet ℝ M) : Bool :=
  match link_distance trk this_trk, link_time trk this_trk with
  | some d, some dt =>
    !(decide (d ≥ e.m_params.dist_thresh)) &&
      !(decide (dt ≥ e.m_params.time_thresh ∨ dt < 1))
  | _, _ => false

/-- The link candidacy predicates, spelled out: the Euclidean distance between
the last position of `trk` and the first position of `cand` is below
`dist_thresh`, and the frame difference is at least 1 and below `time_thresh`. -/
def HypothesisEngine.is_candidate (e : HypothesisEngine M C) (trk cand : Tracklet ℝ M) : Prop :=
  ∃ last first, trk.track.getLast? = some last ∧ cand.track.head? = some first ∧
    Real.sqrt ((last.x - first.x) ^ 2 + (last.y - first.y) ^ 2 + (last.z - first.z) ^ 2)
      < e.m_params.dist_thresh ∧
    1 ≤ first.t - last.t ∧ ((first.t - last.t : Int) : ℝ) < e.m_params.time_thresh

/-- The link candidacy predicates with room for the narrowing to `float`:
`create` stores the distance and the frame difference in `float` variables
before it compares them with the thresholds.  The distance is below
`dist_thresh` by more than one part in `2^20`, `dist_thresh` lies between
`2^-100` and `2^100`, and the frame difference, at least 1 and below
`time_thresh`, is at most `2^24`: then the `float` distance is still below
`dist_thresh` and the `float` frame difference is the frame difference. -/
def HypothesisEngine.is_clear_candidate (e : HypothesisEngine M C)
    (trk cand : Tracklet ℝ M) : Prop :=
  ∃ last first, trk.track.getLast? = some last ∧ cand.track.head? = some first ∧
    Real.sqrt ((last.x - first.x) ^ 2 + (last.y - first.y) ^ 2 + (last.z - first.z) ^ 2)
      * (1 + 1 / 2 ^ 20) < e.m_params.dist_thresh ∧
    1 / 2 ^ 100 ≤ e.m_params.dist_thresh ∧ e.m_params.dist_thresh ≤ 2 ^ 100 ∧
    1 ≤ first.t - last.t ∧ ((first.t - last.t : Int) : ℝ) < e.m_params.time_thresh ∧
    first.t - last.t ≤ 2 ^ 24

/-- The pairs `(l[p], l[q])` with `p < q`, in the order of the two nested loops
over `p` and `q`. -/
def ordered_pairs {α : Type} : List α → List (α × α)
  | [] => []
  | a :: l => l.map (fun b => (a, b)) ++ ordered_pairs l

/-- The False-positive hypothesis that `create` pushes for `trk`. -/
def HypothesisEngine.h_fp (e : HypothesisEngine M C) (trk : Tracklet ℝ M) : Hypothesis M :=
  { hypothesis := TYPE_Pfalse, trk_ID := trk, trk_link_ID := none, trk_child_one_ID := none,
    trk_child_two_ID := none, probability := safe_log ((e.P_FP trk).getD 0) }

/-- The Initialization hypothesis that `create` pushes for `trk`. -/
def HypothesisEngine.h_init (e : HypothesisEngine M C) (trk : Tracklet ℝ M) : Hypothesis M :=
  { hypothesis := TYPE_Pinit, trk_ID := trk, trk_link_ID := none, trk_child_one_ID := none,
    trk_child_two_ID := none,
    probability := safe_log ((e.P_init trk).getD 0) + 0.5 * safe_log ((e.P_TP trk).getD 0) }

/-- The Termination hypothesis that `create` pushes for `trk`. -/
def HypothesisEngine.h_term (e : HypothesisEngine M C) (trk : Tracklet ℝ M) : Hypothesis M :=
  { hypothesis := TYPE_Pterm, trk_ID := trk, trk_link_ID := none, trk_child_one_ID := none,
    trk_child_two_ID := none,
    probability := safe_log ((e.P_term trk).getD 0) + 0.5 * safe_log ((e.P_TP trk).getD 0) }

/-- The Apoptosis hypothesis that `create` pushes for `trk`. -/
def HypothesisEngine.h_apoptosis (e : HypothesisEngine M C) (trk : Tracklet ℝ M) :
    Hypothesis M :=
  { hypothesis := TYPE_Papop, trk_ID := trk, trk_link_ID := none, trk_child_one_ID := none,
    trk_child_two_ID := none,
    probability :=
      safe_log ((e.P_dead_count trk).getD 0) + 0.5 * safe_log ((e.P_TP trk).getD 0) }

/-- The Link hypothesis that `create` pushes for `trk` and the candidate
`this_trk`. -/
def HypothesisEngine.h_link (e : HypothesisEngine M C) (trk this_trk : Tracklet ℝ M) :
    Hypothesis M :=
  { hypothesis := TYPE_Plink, trk_ID := trk, trk_link_ID := some this_trk,
    trk_child_one_ID := none, trk_child_two_ID := none,
    probability := safe_log ((e.P_link_auto trk this_trk).getD 0)
      + 0.5 * safe_log ((e.P_TP trk).getD 0) + 0.5 * safe_log ((e.P_TP this_trk).getD 0) }

/-- The Division hypothesis that `create` pushes for `trk` and two children. -/
def HypothesisEngine.h_divn (e : HypothesisEngine M C)
    (trk child_one child_two : Tracklet ℝ M) : Hypothesis M :=
  { hypothesis := TYPE_Pdivn, trk_ID := trk, trk_link_ID := none,
    trk_child_one_ID := some child_one, trk_child_two_ID := some child_two,
    probability := safe_log ((e.P_branch trk child_one child_two).getD 0)
      + 0.5 * safe_log ((e.P_TP trk).getD 0) + 0.5 * safe_log ((e.P_TP child_one).getD 0)
      + 0.5 * safe_log ((e.P_TP child_two).getD 0) }

/-- The test that guards the Initialization hypothesis in `create`. -/
def HypothesisEngine.init_guard (e : HypothesisEngine M C) (trk : Tracklet ℝ M) : Prop :=
  ∃ front d_start, trk.track.head? = some front ∧
    e.dist_from_border trk true = some d_start ∧
    (e.m_params.relax = true ∨
      (front.t : ℝ) < (e.m_frame_range.1 : ℝ) + e.m_params.theta_time ∨
      d_start < (e.m_params.theta_dist : WithTop ℝ))

/-- The test that guards the Termination hypothesis in `create`. -/
def HypothesisEngine.term_guard (e : HypothesisEngine M C) (trk : Tracklet ℝ M) : Prop :=
  ∃ back d_stop, trk.track.getLast? = some back ∧
    e.dist_from_border trk false = some d_stop ∧
    (e.m_params.relax = true ∨
      (back.t : ℝ) > (e.m_frame_range.2 : ℝ) - e.m_params.theta_time ∨
      d_stop < (e.m_params.theta_dist : WithTop ℝ))

open Classical in
/-- The hypotheses that one round of the loop of `create` pushes for the test
track `trk`, when the index returns the candidates `cands`. -/
def HypothesisEngine.track_hypotheses (e : HypothesisEngine M C) (trk : Tracklet ℝ M)
    (cands : List (Tracklet ℝ M)) : List (Hypothesis M) :=
  e.h_fp trk ::
    ((if e.hypothesis_allowed TYPE_Pinit = true ∧ e.init_guard trk then [e.h_init trk] else [])
      ++ (if e.hypothesis_allowed TYPE_Pterm = true ∧ e.term_guard trk then [e.h_term trk]
          else [])
      ++ (if e.hypothesis_allowed TYPE_Papop = true ∧
            trailing_apoptosis trk.track > e.m_params.apop_thresh then [e.h_apoptosis trk]
          else [])
      ++ (if e.hypothesis_allowed TYPE_Plink = true then
            (cands.filter (e.accepts trk)).map (e.h_link trk)
          else [])
      ++ (if e.hypothesis_allowed TYPE_Pdivn = true then
            (ordered_pairs (cands.filter (e.accepts trk))).map
              (fun p => e.h_divn trk p.1 p.2)
          else []))

/-- The tracklets of an engine and the candidates the index returns for them
all hold at least one observation. -/
def HypothesisEngine.WellFormed (cube : HypercubeOps M C) (e : HypothesisEngine M C) : Prop :=
  ∀ trk ∈ e.m_tracks, trk.track ≠ [] ∧
    ∃ cands, cube.get e.m_cube trk false = some cands ∧ ∀ c ∈ cands, c.track ≠ []

/-- The candidates that the index returns for `trk` in `create`. -/
def HypothesisEngine.candidates (cube : HypercubeOps M C) (e : HypothesisEngine M C)
    (trk : Tracklet ℝ M) : List (Tracklet ℝ M) :=
  (cube.get e.m_cube trk false).getD []

/-- The hypotheses that the rounds of the loop of `create` push, round by
round. -/
def HypothesisEngine.rounds (cube : HypercubeOps M C) (e : HypothesisEngine M C) :
    List (List (Hypothesis M)) :=
  e.m_tracks.map (fun trk => e.track_hypotheses trk (e.candidates cube trk))

end EngineNotions
/-! ## Concrete engines, for running the code -/

noncomputable section Demo

/-- Parameters with all thresholds and decay constants at 5 and the six
hypothesis types 0 to 5 enabled. -/
def demoParams : PyHypothesisParams :=
  { lambda_time := 5, lambda_dist := 5, lambda_link := 5, lambda_branch := 50, eta := 1 / 100,
    theta_dist := 5, theta_time := 5, dist_thresh := 5, time_thresh := 5, apop_thresh := 2,
    segmentation_miss_rate := 1 / 10, apoptosis_rate := 1 / 1000, relax := false,
    hypotheses_to_generate := 63 }

/-- The cube from -100 to 100 in every dimension. -/
def demoVolume : ImagingVolume :=
  { min_xyz := ⟨-100, -100, -100⟩, max_xyz := ⟨100, 100, 100⟩ }

/-- A tracklet with the given observations, as the engine sees it. -/
def trackOf (ID : Nat) (track : List (TrackObject ℝ)) : Tracklet ℝ Unit :=
  { ID := ID, track := track, prediction := [], kalman := [], motion_model := (), lost := 0,
    remove_flag := false }

/-- Tracklet A: one interphase observation at (0,0,0) in frame 10. -/
def trackA : Tracklet ℝ Unit :=
  trackOf 1 [{ ID := 1, x := 0, y := 0, z := 0, t := 10, dummy := false, label := 0 }]

/-- Tracklet B: one interphase observation at (1,0,0) in frame 12. -/
def trackB : Tracklet ℝ Unit :=
  trackOf 2 [{ ID := 2, x := 1, y := 0, z := 0, t := 12, dummy := false, label := 0 }]

/-- Tracklet L: it starts at (1,0,0) in frame 12, like B, and ends at the same
place in frame 100. -/
def trackL : Tracklet ℝ Unit :=
  trackOf 3 [{ ID := 3, x := 1, y := 0, z := 0, t := 12, dummy := false, label := 0 },
             { ID := 4, x := 1, y := 0, z := 0, t := 100, dummy := false, label := 0 }]

/-- Tracklet D: three observations at (50,50,50) in frames 20 to 22, all
labelled apoptosis. -/
def trackD : Tracklet ℝ Unit :=
  trackOf 5 [{ ID := 5, x := 50, y := 50, z := 50, t := 20, dummy := false, label := 4 },
             { ID := 6, x := 50, y := 50, z := 50, t := 21, dummy := false, label := 4 },
             { ID := 7, x := 50, y := 50, z := 50, t := 22, dummy := false, label := 4 }]

/-- Tracklet P: a parent, one metaphase observation at (0,0,0) in frame 10. -/
def trackP : Tracklet ℝ Unit :=
  trackOf 10 [{ ID := 10, x := 0, y := 0, z := 0, t := 10, dummy := false, label := 2 }]

/-- Tracklet C0: a child, one anaphase observation at (1,0,0) in frame 11. -/
def trackC0 : Tracklet ℝ Unit :=
  trackOf 11 [{ ID := 11, x := 1, y := 0, z := 0, t := 11, dummy := false, label := 3 }]

/-- Tracklet C1: a child, one anaphase observation at (-1,0,0) in frame 11. -/
def trackC1 : Tracklet ℝ Unit :=
  trackOf 12 [{ ID := 12, x := -1, y := 0, z := 0, t := 11, dummy := false, label := 3 }]

/-- The engine on frames 0 to 200 with `demoParams`, before any track is
added. -/
def emptyEngine : HypothesisEngine Unit (HypercubeBin Unit) :=
  HypothesisEngine.new specCube 0 200 demoParams demoVolume

/-- The engine `emptyEngine` after `add_track` of A and of B. -/
def engineAB : HypothesisEngine Unit (HypercubeBin Unit) :=
  { emptyEngine with
    m_tracks := [trackA, trackB],
    m_cube := { dist_bin := 5, time_bin := 5,
                entries := [(⟨0, 0, 0, 2⟩, trackA), (⟨0, 0, 0, 2⟩, trackB)] } }

/-- The engine `emptyEngine` after `add_track` of A and of L. -/
def engineAL : HypothesisEngine Unit (HypercubeBin Unit) :=
  { emptyEngine with
    m_tracks := [trackA, trackL],
    m_cube := { dist_bin := 5, time_bin := 5,
                entries := [(⟨0, 0, 0, 2⟩, trackA), (⟨0, 0, 0, 20⟩, trackL)] } }

/-- The engine `emptyEngine` after `add_track` of A and of D. -/
def engineAD : HypothesisEngine Unit (HypercubeBin Unit) :=
  { emptyEngine with
    m_tracks := [trackA, trackD],
    m_cube := { dist_bin := 5, time_bin := 5,
                entries := [(⟨0, 0, 0, 2⟩, trackA), (⟨10, 10, 10, 4⟩, trackD)] } }

/-- The engine `emptyEngine` after `add_track` of P, of C0 and of C1. -/
def engineDiv : HypothesisEngine Unit (HypercubeBin Unit) :=
  { emptyEngine with
    m_tracks := [trackP, trackC0, trackC1],
    m_cube := { dist_bin := 5, time_bin := 5,
                entries := [(⟨0, 0, 0, 2⟩, trackP), (⟨0, 0, 0, 2⟩, trackC0),
                            (⟨-1, 0, 0, 2⟩, trackC1)] } }

end Demo

/-! ## Further concrete inputs -/

/-- A motion model whose state counts the observations fed to it by
`update`. -/
def countingModel : MotionModelOps Int Nat where
  setup := fun _ _ => 0
  update := fun m _ => m + 1
  predict := fun _ => { mu := [0, 0, 0, 0, 0, 0], covar := [] }
  get_motion_vector := fun _ => ⟨0, 0, 0⟩

/-- The tracklet built by the constructor from `obs0` under `countingModel`. -/
def countedTracklet : Tracklet Int Nat :=
  { ID := 1, track := [obs0], prediction := [{ mu := [0, 0, 0], covar := [] }],
    kalman := [{ mu := [0, 0, 0, 0, 0, 0], covar := [] }], motion_model := 0,
    lost := 0, remove_flag := false }

/-- The dummy observation that `append_dummy` derives from `obs0` when no
motion is predicted. -/
def dummyOfObs0 : TrackObject Int :=
  { ID := 0, x := 0, y := 0, z := 0, t := 1, dummy := true, label := 0 }

noncomputable section BorderNotions

/-- The distance of the coordinate `dim` of `xyz` to the nearer face of the
volume, `min(x − volume.min, volume.max − x)`, and `+∞` for a dimension that
is degenerate (`min[dim] = max[dim]`). -/
def border_term (volume : ImagingVolume) (xyz : Vec3 ℝ) (dim : Fin 3) : WithTop ℝ :=
  if volume.min_xyz.coeff dim = volume.max_xyz.coeff dim then ⊤
  else ((min (xyz.coeff dim - volume.min_xyz.coeff dim)
    (volume.max_xyz.coeff dim - xyz.coeff dim) : ℝ) : WithTop ℝ)

end BorderNotions

/-- The observation of tracklet A. -/
noncomputable def obsA : TrackObject ℝ :=
  { ID := 1, x := 0, y := 0, z := 0, t := 10, dummy := false, label := 0 }

/-- Tracklet E: one interphase observation at (100,0,0) in frame 10, on a face
of `demoVolume`. -/
noncomputable def trackE : Tracklet ℝ Unit :=
  trackOf 20 [{ ID := 20, x := 100, y := 0, z := 0, t := 10, dummy := false, label := 0 }]

noncomputable section InitNotions

/-- Tracklet S: one interphase observation at (0,0,0) in frame 0, the first
frame of `emptyEngine`. -/
def trackS : Tracklet ℝ Unit :=
  trackOf 21 [{ ID := 21, x := 0, y := 0, z := 0, t := 0, dummy := false, label := 0 }]

/-- Tracklet N: one interphase observation at (0,0,0) in frame 3. -/
def trackN : Tracklet ℝ Unit :=
  trackOf 23 [{ ID := 23, x := 0, y := 0, z := 0, t := 3, dummy := false, label := 0 }]

/-- Tracklet T: one interphase observation at (0,0,0) in frame 200, the last
frame of `emptyEngine`. -/
def trackT : Tracklet ℝ Unit :=
  trackOf 22 [{ ID := 22, x := 0, y := 0, z := 0, t := 200, dummy := false, label := 0 }]

/-- Tracklet U: one interphase observation at (0,0,0) in frame 201, one frame
after the last frame of `emptyEngine`. -/
def trackU : Tracklet ℝ Unit :=
  trackOf 24 [{ ID := 24, x := 0, y := 0, z := 0, t := 201, dummy := false, label := 0 }]

/-- The engine `emptyEngine` with `eta` set to 9/10. -/
def etaEngine : HypothesisEngine Unit (HypercubeBin Unit) :=
  { emptyEngine with m_params := { demoParams with eta := 9 / 10 } }

/-- The engine `emptyEngine` after `add_track` of S. -/
def engineS : HypothesisEngine Unit (HypercubeBin Unit) :=
  { emptyEngine with
    m_tracks := [trackS],
    m_cube := { dist_bin := 5, time_bin := 5, entries := [(⟨0, 0, 0, 0⟩, trackS)] } }

/-- The engine `e` with the parameter `eta` replaced. -/
def HypothesisEngine.with_eta {M C : Type} (e : HypothesisEngine M C) (eta : ℝ) :
    HypothesisEngine M C :=
  { e with m_params := { e.m_params with eta := eta } }

end InitNotions

noncomputable section EtaNotions

/-- Two hypotheses agree on their type and on their tracklets, and agree on
their score unless they are a Link from a tracklet that ends in metaphase to
one that starts in anaphase. -/
def same_up_to_forbidden_link {M : Type} (h h1 : Hypothesis M) : Prop :=
  h1.hypothesis = h.hypothesis ∧ h1.trk_ID = h.trk_ID ∧ h1.trk_link_ID = h.trk_link_ID ∧
  h1.trk_child_one_ID = h.trk_child_one_ID ∧ h1.trk_child_two_ID = h.trk_child_two_ID ∧
  (h1.probability = h.probability ∨
    (h.hypothesis = TYPE_Plink ∧
      ∃ cand back front, h.trk_link_ID = some cand ∧ h.trk_ID.track.getLast? = some back ∧
        cand.track.head? = some front ∧ back.label = STATE_metaphase ∧
        front.label = STATE_anaphase))

end EtaNotions

/-! ## Repeated calls of `create`, and the Merge bit -/

noncomputable section RepeatNotions

/-- Two calls of `create` in a row, with nothing in between. -/
def HypothesisEngine.create_twice {M C : Type} (cube : HypercubeOps M C)
    (e : HypothesisEngine M C) : Option (HypothesisEngine M C) :=
  (e.create cube).bind (fun e1 => e1.create cube)

/-- The engine `engineAB` with the bits 0 to 6 of `hypotheses_to_generate`
set; bit 6 is that of `TYPE_Pmrge`. -/
def engineMerge : HypothesisEngine Unit (HypercubeBin Unit) :=
  { engineAB with m_params := { demoParams with hypotheses_to_generate := 127 } }

end RepeatNotions

/-! The definitions of the model unfold by definitional reduction in what follows. -/

attribute [reducible]
  HypothesisEngine.P_branch HypothesisEngine.create HypothesisEngine.h_divn
  HypothesisEngine.create_track HypothesisEngine.rounds HypothesisEngine.track_hypotheses
  HypothesisEngine.create_twice HypothesisEngine.h_term HypothesisEngine.h_fp
  HypothesisEngine.h_link HypothesisEngine.h_apoptosis HypothesisEngine.P_dead
  HypothesisEngine.accepts HypothesisEngine.h_init HypothesisEngine.P_term
  HypothesisEngine.P_link HypothesisEngine.P_dead_count HypothesisEngine.P_init
  HypothesisEngine.P_link_auto Vec3.normalized kRootTwo link_distance engineAB HypercubeBin.get
  specCube engineAL HypothesisEngine.P_TP border_term obsA count_apoptosis
  HypercubeBin.add_tracklet WEIGHT_ANAPHASE trackB engineDiv HypothesisEngine.dist_from_border
  HypothesisEngine.add_track demoVolume WEIGHT_METAPHASE HypothesisEngine.new trackL emptyEngine
  HypothesisEngine.candidates trailing_apoptosis trackA trackD trackC0 trackC1
  HypercubeBin.hash_index engineS trackP trackOf Tracklet.duration link_time HypercubeBin.new
  engineAD trackS Vec3.dot WEIGHT_METAPHASE_ANAPHASE_ANAPHASE WEIGHT_ANAPHASE_ANAPHASE
  demoParams WEIGHT_OTHER HypothesisEngine.P_FP WEIGHT_METAPHASE_ANAPHASE
  HypothesisEngine.link_loop HypothesisEngine.division_inner HypothesisEngine.division_outer
  HypothesisEngine.create_loop HypothesisEngine.add_tracks count_apoptosis_loop exp_neg_div

end BTrack

/-! ## Properties

Lemmas about the tracklet methods, then about the engine, then the claims. -/

namespace BTrack

section TrackletLemmas

variable {R M : Type} [Add R]

theorem append_spec (ops : MotionModelOps R M) (t : Tracklet R M)
    (o : TrackObject R) (u : Bool) :
    ∃ t1, t.append ops o u = some t1 ∧ t1.track = t.track ++ [o] ∧
      t1.prediction.length = t.prediction.length + 1 ∧
      t1.kalman.length = t.kalman.length + 1 ∧
      t1.lost = (if o.dummy then t.lost + 1 else 0) ∧
      t1.motion_model = (if u then ops.update t.motion_model o else t.motion_model) := by
  cases u <;> cases hd : o.dummy <;>
    simp [Tracklet.append, Tracklet.predict, Tracklet.position, hd]

theorem append_dummy_noop (ops : MotionModelOps R M) (t : Tracklet R M)
    (h : MAX_LOST ≤ t.lost) : t.append_dummy ops = some t := by
  simp [Tracklet.append_dummy, h]

theorem append_dummy_spec (ops : MotionModelOps R M) (t : Tracklet R M)
    (h : t.lost < MAX_LOST) (hne : t.track ≠ []) :
    ∃ t1 d, t.append_dummy ops = some t1 ∧ t1.track = t.track ++ [d] ∧
      d.dummy = true ∧ t1.lost = t.lost + 1 ∧
      t1.prediction.length = t.prediction.length + 1 ∧
      t1.kalman.length = t.kalman.length + 1 := by
  obtain ⟨last, hlast⟩ : ∃ last, t.track.getLast? = some last := by
    cases hl : t.track.getLast? with
    | none => exact absurd (List.getLast?_eq_none_iff.mp hl) hne
    | some a => exact ⟨a, rfl⟩
  have hlt : ¬ t.lost ≥ MAX_LOST := Nat.not_le.mpr h
  let d : TrackObject R :=
    { last with dummy := true, x := (last.position.add (ops.get_motion_vector t.motion_model)).x,
                y := (last.position.add (ops.get_motion_vector t.motion_model)).y,
                z := (last.position.add (ops.get_motion_vector t.motion_model)).z,
                t := last.t + 1, ID := 0 }
  obtain ⟨t1, h1, htr, hp, hk, hl, _⟩ := append_spec ops t d append_update_default
  refine ⟨t1, d, ?_, htr, rfl, ?_, hp, hk⟩
  · simp only [Tracklet.append_dummy, hlt, if_false, Tracklet.predict, Tracklet.position, hlast,
      Option.map_some', Option.bind_eq_bind, Option.some_bind, Vec3.toList]
    simpa using h1
  · simpa [d] using hl

end TrackletLemmas

section TrimLemmas

variable {R M : Type}

theorem trimLoop_spec (l r : List (TrackObject R)) (h : trimLoop l = some r) :
    ∃ ds, l = ds ++ r ∧ (∀ d ∈ ds, d.dummy = true) ∧
      ∃ o rest, r = o :: rest ∧ o.dummy = false := by
  induction l with
  | nil => simp [trimLoop] at h
  | cons a l ih =>
    by_cases ha : a.dummy = true
    · simp only [trimLoop, ha, if_true] at h
      obtain ⟨ds, hds, hall, hr⟩ := ih h
      refine ⟨a :: ds, by simp [hds], ?_, hr⟩
      intro d hd
      rcases List.mem_cons.mp hd with rfl | hd
      · exact ha
      · exact hall d hd
    · simp only [trimLoop, ha] at h
      have hr : r = a :: l := by simpa using h.symm
      exact ⟨[], by simp [hr], by simp, a, l, hr, by simpa using ha⟩

theorem trimLoop_some (l : List (TrackObject R)) (h : ∃ o ∈ l, o.dummy = false) :
    ∃ r, trimLoop l = some r := by
  induction l with
  | nil => simp at h
  | cons a l ih =>
    by_cases ha : a.dummy = true
    · obtain ⟨o, ho, hod⟩ := h
      rcases List.mem_cons.mp ho with rfl | ho
      · simp [ha] at hod
      · simpa [trimLoop, ha] using ih ⟨o, ho, hod⟩
    · exact ⟨a :: l, by simp [trimLoop, ha]⟩

theorem trim_spec (t t1 : Tracklet R M) (b : Bool) (h : t.trim = some (t1, b)) :
    b = true ∧ t1.lost = t.lost ∧ t1.prediction = t.prediction ∧ t1.kalman = t.kalman ∧
      t1.motion_model = t.motion_model ∧
      (∃ ds, t.track = t1.track ++ ds ∧ ∀ d ∈ ds, d.dummy = true) ∧
      ∃ o ∈ t1.track, o.dummy = false := by
  simp only [Tracklet.trim, Option.map_eq_some'] at h
  obtain ⟨back, hback, heq⟩ := h
  obtain ⟨ds, hds, hall, o, rest, hr, hod⟩ := trimLoop_spec _ _ hback
  have h1 : t1 = { t with track := back.reverse } := (Prod.mk.inj heq).1.symm
  have hb : b = true := (Prod.mk.inj heq).2.symm
  subst h1
  refine ⟨hb, rfl, rfl, rfl, rfl, ⟨ds.reverse, ?_, ?_⟩, o, ?_, hod⟩
  · have := congrArg List.reverse hds
    simpa using this
  · intro d hd
    exact hall d (List.mem_reverse.mp hd)
  · simp [hr]

theorem trim_some (t : Tracklet R M) (h : ∃ o ∈ t.track, o.dummy = false) :
    ∃ t1, t.trim = some (t1, true) := by
  obtain ⟨o, ho, hod⟩ := h
  obtain ⟨r, hr⟩ := trimLoop_some t.track.reverse ⟨o, List.mem_reverse.mpr ho, hod⟩
  exact ⟨{ t with track := r.reverse }, by simp [Tracklet.trim, hr]⟩

end TrimLemmas


end BTrack

namespace BTrack
section
variable {R M : Type} [Add R]

theorem run_append_dummy (ops : MotionModelOps R M) (k : Nat) :
    ∀ t : Tracklet R M, t.lost ≤ MAX_LOST → t.track ≠ [] →
      ∃ t1 ds, t.run ops (List.replicate k Op.append_dummy) = some t1 ∧
        t1.lost = min (t.lost + k) MAX_LOST ∧ t1.track = t.track ++ ds ∧
        ds.length = t1.lost - t.lost ∧ (∀ d ∈ ds, d.dummy = true) ∧
        t1.prediction.length = t.prediction.length + ds.length ∧
        t1.kalman.length = t.kalman.length + ds.length := by
  induction k with
  | zero =>
    intro t hl _
    exact ⟨t, [], rfl, by simp [hl], by simp, by simp, by simp, by simp, by simp⟩
  | succ k ih =>
    intro t hl hne
    rcases Nat.lt_or_ge t.lost MAX_LOST with hlt | hge
    · obtain ⟨t1, d, h1, htr, hd, hlost, hp, hk⟩ := append_dummy_spec ops t hlt hne
      have hne1 : t1.track ≠ [] := by simp [htr]
      have hl1 : t1.lost ≤ MAX_LOST := by omega
      obtain ⟨t2, ds, h2, hlost2, htr2, hlen, hall, hp2, hk2⟩ := ih t1 hl1 hne1
      refine ⟨t2, d :: ds, ?_, ?_, ?_, ?_, ?_, ?_, ?_⟩
      · simp [List.replicate_succ, Tracklet.run, Tracklet.step, h1, h2]
      · rw [hlost2, hlost]; congr 1; omega
      · simp [htr2, htr]
      · have : t1.lost ≤ t2.lost := by rw [hlost2]; exact le_min (Nat.le_add_right _ _) hl1
        simp only [List.length_cons, hlen]; omega
      · intro x hx
        rcases List.mem_cons.mp hx with rfl | hx
        · exact hd
        · exact hall x hx
      · simp only [List.length_cons]; omega
      · simp only [List.length_cons]; omega
    · have hnoop := append_dummy_noop ops t hge
      obtain ⟨t2, ds, h2, hlost2, htr2, hlen, hall, hp2, hk2⟩ := ih t hl hne
      refine ⟨t2, ds, ?_, ?_, htr2, hlen, hall, hp2, hk2⟩
      · simp [List.replicate_succ, Tracklet.run, Tracklet.step, hnoop, h2]
      · rw [hlost2]
        have : t.lost = MAX_LOST := le_antisymm hl hge
        simp [this]
end
end BTrack

namespace BTrack

section ReachLemmas

variable {R M : Type} [Add R]

theorem step_lost_le (ops : MotionModelOps R M) (t t1 : Tracklet R M) (op : Op R)
    (hreal : ∀ o u, op = Op.append o u → o.dummy = false)
    (hl : t.lost ≤ MAX_LOST) (h : t.step ops op = some t1) : t1.lost ≤ MAX_LOST := by
  cases op with
  | append o u =>
    obtain ⟨t2, h2, _, _, _, hlost, _⟩ := append_spec ops t o u
    have : t1 = t2 := by
      simp only [Tracklet.step, h2] at h
      exact (Option.some.inj h).symm
    subst this
    simp [hlost, hreal o u rfl]
  | append_dummy =>
    simp only [Tracklet.step] at h
    rcases Nat.lt_or_ge t.lost MAX_LOST with hlt | hge
    · by_cases hne : t.track = []
      · simp [Tracklet.append_dummy, Nat.not_le.mpr hlt, Tracklet.predict, Tracklet.position,
          hne] at h
      · obtain ⟨t2, d, h2, _, _, hlost, _, _⟩ := append_dummy_spec ops t hlt hne
        rw [h2] at h
        have : t1 = t2 := (Option.some.inj h).symm
        subst this
        omega
    · rw [append_dummy_noop ops t hge] at h
      have : t1 = t := (Option.some.inj h).symm
      subst this
      exact hl
  | trim =>
    simp only [Tracklet.step, Option.map_eq_some'] at h
    obtain ⟨⟨t2, b⟩, h2, heq⟩ := h
    have : t2 = t1 := heq
    subst this
    rw [(trim_spec t t2 b h2).2.1]
    exact hl

theorem step_total (ops : MotionModelOps R M) (t : Tracklet R M) (op : Op R)
    (hr : ∃ o ∈ t.track, o.dummy = false) :
    ∃ t1, t.step ops op = some t1 ∧ ∃ o ∈ t1.track, o.dummy = false := by
  obtain ⟨o, ho, hod⟩ := hr
  have hne : t.track ≠ [] := List.ne_nil_of_mem ho
  cases op with
  | append a u =>
    obtain ⟨t2, h2, htr, _⟩ := append_spec ops t a u
    exact ⟨t2, h2, o, by simp [htr, ho], hod⟩
  | append_dummy =>
    rcases Nat.lt_or_ge t.lost MAX_LOST with hlt | hge
    · obtain ⟨t2, d, h2, htr, _⟩ := append_dummy_spec ops t hlt hne
      exact ⟨t2, h2, o, by simp [htr, ho], hod⟩
    · exact ⟨t, append_dummy_noop ops t hge, o, ho, hod⟩
  | trim =>
    obtain ⟨t2, h2⟩ := trim_some t ⟨o, ho, hod⟩
    exact ⟨t2, by simp [Tracklet.step, h2], (trim_spec t t2 true h2).2.2.2.2.2.2⟩

theorem run_lost_le (ops : MotionModelOps R M) (calls : List (Op R)) :
    ∀ t t1 : Tracklet R M, OnlyRealAppends calls → t.lost ≤ MAX_LOST →
      t.run ops calls = some t1 → t1.lost ≤ MAX_LOST := by
  induction calls with
  | nil =>
    intro t t1 _ hl h
    have : t1 = t := by simpa [Tracklet.run] using h.symm
    subst this
    exact hl
  | cons op rest ih =>
    intro t t1 hreal hl h
    simp only [Tracklet.run, Option.bind_eq_some] at h
    obtain ⟨t2, h2, h3⟩ := h
    have hl2 : t2.lost ≤ MAX_LOST :=
      step_lost_le ops t t2 op (fun o u e => hreal o u (by simp [e])) hl h2
    exact ih t2 t1 (fun o u hm => hreal o u (List.mem_cons_of_mem _ hm)) hl2 h3

theorem run_total (ops : MotionModelOps R M) (calls : List (Op R)) :
    ∀ t : Tracklet R M, (∃ o ∈ t.track, o.dummy = false) → ∃ t1, t.run ops calls = some t1 := by
  induction calls with
  | nil => intro t _; exact ⟨t, rfl⟩
  | cons op rest ih =>
    intro t hr
    obtain ⟨t2, h2, hr2⟩ := step_total ops t op hr
    obtain ⟨t3, h3⟩ := ih t2 hr2
    exact ⟨t3, by simp [Tracklet.run, h2, h3]⟩

end ReachLemmas

end BTrack

namespace BTrack

noncomputable section EngineLemmas

variable {M C : Type}

theorem exists_head_of_ne_nil {α : Type} {l : List α} (h : l ≠ []) : ∃ a, l.head? = some a := by
  cases l with
  | nil => exact absurd rfl h
  | cons a l => exact ⟨a, rfl⟩

theorem exists_getLast_of_ne_nil {α : Type} {l : List α} (h : l ≠ []) :
    ∃ a, l.getLast? = some a := by
  cases hl : l.getLast? with
  | none => exact absurd (List.getLast?_eq_none_iff.mp hl) h
  | some a => exact ⟨a, rfl⟩

theorem exists_ite_some {α : Type} (c : Prop) [Decidable c] (a b : α) :
    ∃ p, (if c then some a else some b) = some p := by
  split <;> exact ⟨_, rfl⟩

theorem dist_from_border_some (e : HypothesisEngine M C) (trk : Tracklet ℝ M) (s : Bool)
    (h : trk.track ≠ []) : ∃ d, e.dist_from_border trk s = some d := by
  obtain ⟨f, hf⟩ := exists_head_of_ne_nil h
  obtain ⟨b, hb⟩ := exists_getLast_of_ne_nil h
  cases s <;> simp [HypothesisEngine.dist_from_border, hf, hb]

theorem trailing_apoptosis_append (l : List (TrackObject ℝ)) (o : TrackObject ℝ) :
    trailing_apoptosis (l ++ [o]) =
      if o.label = STATE_apoptosis then trailing_apoptosis l + 1 else 0 := by
  by_cases h : o.label = STATE_apoptosis <;>
    simp [trailing_apoptosis, List.takeWhile_cons, h]

theorem count_apoptosis_loop_eq (track : List (TrackObject ℝ)) (counter : Nat) :
    ∀ n, counter < track.length →
      count_apoptosis_loop track counter n
        = some (n + trailing_apoptosis (track.take (counter + 1))) := by
  induction counter with
  | zero =>
    intro n hlt
    obtain ⟨o, ho⟩ : ∃ o, track[0]? = some o := ⟨track[0], List.getElem?_eq_getElem hlt⟩
    have htake : track.take 1 = [] ++ [o] := by
      rw [List.take_succ, ho]; simp
    rw [htake, trailing_apoptosis_append]
    by_cases h : o.label = STATE_apoptosis <;>
      simp [count_apoptosis_loop, ho, h, trailing_apoptosis]
  | succ c ih =>
    intro n hlt
    obtain ⟨o, ho⟩ : ∃ o, track[c + 1]? = some o :=
      ⟨track[c + 1], List.getElem?_eq_getElem hlt⟩
    have htake : track.take (c + 1 + 1) = track.take (c + 1) ++ [o] := by
      rw [List.take_succ, ho]; simp
    rw [htake, trailing_apoptosis_append]
    by_cases h : o.label = STATE_apoptosis
    · simp only [count_apoptosis_loop, ho, h, if_true, Option.bind_eq_bind, Option.some_bind]
      rw [ih (n + 1) (Nat.lt_of_succ_lt hlt)]
      congr 1; omega
    · simp [count_apoptosis_loop, ho, h]

theorem count_apoptosis_eq (trk : Tracklet ℝ M) (h : trk.track ≠ []) :
    count_apoptosis trk = some (trailing_apoptosis trk.track) := by
  have hpos : 0 < trk.track.length := List.length_pos.mpr h
  have hlt : trk.track.length - 1 < trk.track.length := by omega
  have hone : trk.track.length - 1 + 1 = trk.track.length := by omega
  simp only [count_apoptosis, gt_iff_lt, hpos, if_true]
  rw [count_apoptosis_loop_eq trk.track _ 0 hlt, hone, List.take_length]
  simp

open Classical in
theorem P_total (e : HypothesisEngine M C) (trk : Tracklet ℝ M) (h : trk.track ≠ []) :
    (∃ p, e.P_FP trk = some p) ∧ (∃ p, e.P_TP trk = some p) ∧
    (∃ p, e.P_init trk = some p) ∧ (∃ p, e.P_term trk = some p) ∧
    (∀ n, ∃ p, e.P_dead trk n = some p) ∧ (∃ p, e.P_dead_count trk = some p) := by
  obtain ⟨f, hf⟩ := exists_head_of_ne_nil h
  obtain ⟨b, hb⟩ := exists_getLast_of_ne_nil h
  obtain ⟨d0, hd0⟩ := dist_from_border_some e trk true h
  obtain ⟨d1, hd1⟩ := dist_from_border_some e trk false h
  have hfp : ∃ p, e.P_FP trk = some p := by
    simp [HypothesisEngine.P_FP, Tracklet.duration, hf, hb]
  have hdead : ∀ n, ∃ p, e.P_dead trk n = some p := by
    intro n
    simp [HypothesisEngine.P_dead, hd1]
  refine ⟨hfp, ?_, ?_, ?_, hdead, ?_⟩
  · obtain ⟨p, hp⟩ := hfp
    simp [HypothesisEngine.P_TP, hp]
  · simp only [HypothesisEngine.P_init, hf, hd0, Option.bind_eq_bind, Option.some_bind]
    exact exists_ite_some _ _ _
  · simp only [HypothesisEngine.P_term, hb, hd1, Option.bind_eq_bind, Option.some_bind]
    exact exists_ite_some _ _ _
  · obtain ⟨p, hp⟩ := hdead (trailing_apoptosis trk.track)
    exact ⟨p, by simp [HypothesisEngine.P_dead_count, count_apoptosis_eq trk h, hp]⟩

end EngineLemmas

end BTrack

namespace BTrack

noncomputable section EngineLoopLemmas

variable {M C : Type}

theorem link_distance_eq (trk c : Tracklet ℝ M) (last first : TrackObject ℝ)
    (hl : trk.track.getLast? = some last) (hf : c.track.head? = some first) :
    link_distance trk c = some (Real.sqrt
      ((last.x - first.x) ^ 2 + (last.y - first.y) ^ 2 + (last.z - first.z) ^ 2)) := by
  simp [link_distance, hl, hf, Vec3.dot, Vec3.sub, TrackObject.position, sq]

theorem link_time_eq (trk c : Tracklet ℝ M) (last first : TrackObject ℝ)
    (hl : trk.track.getLast? = some last) (hf : c.track.head? = some first) :
    link_time trk c = some ((first.t - last.t : Int) : ℝ) := by
  simp [link_time, hl, hf]

theorem accepts_iff (e : HypothesisEngine M C) (trk c : Tracklet ℝ M) :
    e.accepts trk c = true ↔ e.is_candidate trk c := by
  constructor
  · intro h
    cases hl : trk.track.getLast? with
    | none => simp [HypothesisEngine.accepts, link_distance, hl] at h
    | some last =>
      cases hf : c.track.head? with
      | none => simp [HypothesisEngine.accepts, link_distance, hl, hf] at h
      | some first =>
        simp only [HypothesisEngine.accepts, link_distance_eq trk c last first hl hf,
          link_time_eq trk c last first hl hf, Bool.and_eq_true, Bool.not_eq_true',
          decide_eq_false_iff_not, not_le, not_or, not_lt] at h
        refine ⟨last, first, hl, hf, h.1, ?_, h.2.1⟩
        have := h.2.2
        exact_mod_cast this
  · rintro ⟨last, first, hl, hf, hd, ht1, ht2⟩
    have ht1r : (1 : ℝ) ≤ ((first.t - last.t : Int) : ℝ) := by exact_mod_cast ht1
    simp only [HypothesisEngine.accepts, link_distance_eq trk c last first hl hf,
      link_time_eq trk c last first hl hf, Bool.and_eq_true, Bool.not_eq_true',
      decide_eq_false_iff_not, not_le, not_or, not_lt]
    exact ⟨hd, ht2, ht1r⟩

theorem link_loop_eq (e : HypothesisEngine M C) (trk : Tracklet ℝ M)
    (htrk : trk.track ≠ []) (cands : List (Tracklet ℝ M)) (hc : ∀ c ∈ cands, c.track ≠ []) :
    e.link_loop trk cands =
      some (if e.hypothesis_allowed TYPE_Plink = true then
              (cands.filter (e.accepts trk)).map (e.h_link trk)
            else [],
            cands.filter (e.accepts trk)) := by
  induction cands with
  | nil => simp [HypothesisEngine.link_loop]
  | cons c rest ih =>
    have hlinks := ih (fun x hx => hc x (List.mem_cons_of_mem _ hx))
    have hcne : c.track ≠ [] := hc c (List.mem_cons_self _ _)
    obtain ⟨last, hl⟩ := exists_getLast_of_ne_nil htrk
    obtain ⟨first, hf⟩ := exists_head_of_ne_nil hcne
    have hd := link_distance_eq trk c last first hl hf
    have ht := link_time_eq trk c last first hl hf
    by_cases h1 : Real.sqrt
        ((last.x - first.x) ^ 2 + (last.y - first.y) ^ 2 + (last.z - first.z) ^ 2)
        ≥ e.m_params.dist_thresh
    · have hacc : e.accepts trk c = false := by
        simp [HypothesisEngine.accepts, hd, ht, h1]
      simp only [HypothesisEngine.link_loop, hd, ht, Option.bind_eq_bind, Option.some_bind,
        h1, if_true, hlinks, List.filter_cons, hacc]
      simp
    · by_cases h2 : ((first.t - last.t : Int) : ℝ) ≥ e.m_params.time_thresh ∨
          ((first.t - last.t : Int) : ℝ) < 1
      · have hacc : e.accepts trk c = false := by
          simp only [HypothesisEngine.accepts, hd, ht, Bool.and_eq_false_iff,
            Bool.not_eq_false', decide_eq_true_eq]
          exact Or.inr h2
        simp only [HypothesisEngine.link_loop, hd, ht, Option.bind_eq_bind, Option.some_bind,
          h1, if_false, h2, if_true, hlinks, List.filter_cons, hacc]
        simp
      · have hacc : e.accepts trk c = true := by
          simp only [HypothesisEngine.accepts, hd, ht, Bool.and_eq_true, Bool.not_eq_true',
            decide_eq_false_iff_not]
          exact ⟨h1, h2⟩
        have hdt : (1 : ℝ) ≤ ((first.t - last.t : Int) : ℝ) := by
          have := not_or.mp h2
          exact not_lt.mp this.2
        have hpos : ((first.t - last.t : Int) : ℝ) > 0.0 := by
          have h00 : (0.0 : ℝ) = 0 := by norm_num
          rw [h00]
          linarith
        obtain ⟨pl, hpl⟩ : ∃ pl, e.P_link trk c
            (Real.sqrt ((last.x - first.x) ^ 2 + (last.y - first.y) ^ 2
              + (last.z - first.z) ^ 2))
            ((first.t - last.t : Int) : ℝ) = some pl := by
          simp only [HypothesisEngine.P_link, hf, hl, Option.bind_eq_bind,
            Option.some_bind, hpos, if_true]
          split <;> exact ⟨_, rfl⟩
        have hauto : e.P_link_auto trk c = some pl := by
          simp only [HypothesisEngine.P_link_auto, hd, ht, Option.bind_eq_bind, Option.some_bind, hpl]
        obtain ⟨tp, htp⟩ := (P_total e trk htrk).2.1
        obtain ⟨tpl, htpl⟩ := (P_total e c hcne).2.1
        by_cases hallow : e.hypothesis_allowed TYPE_Plink = true
        · simp only [HypothesisEngine.link_loop, hd, ht, Option.bind_eq_bind,
            Option.some_bind, h1, if_false, h2, hallow, if_true, hpl, htp, htpl, hlinks,
            List.filter_cons, hacc, List.singleton_append, List.map_cons,
            HypothesisEngine.h_link, hauto, Option.getD_some]
        · simp only [HypothesisEngine.link_loop, hd, ht, Option.bind_eq_bind,
            Option.some_bind, h1, if_false, h2, hallow, hlinks,
            List.filter_cons, hacc, List.nil_append, if_true]
          simp

theorem division_inner_eq (e : HypothesisEngine M C) (trk c1 : Tracklet ℝ M)
    (htrk : trk.track ≠ []) (hc1 : c1.track ≠ []) (rest : List (Tracklet ℝ M))
    (hc : ∀ c ∈ rest, c.track ≠ []) :
    e.division_inner trk c1 rest =
      some (if e.hypothesis_allowed TYPE_Pdivn = true then
              rest.map (fun c2 => e.h_divn trk c1 c2)
            else []) := by
  induction rest with
  | nil => simp [HypothesisEngine.division_inner]
  | cons c2 rest ih =>
    have hrest := ih (fun x hx => hc x (List.mem_cons_of_mem _ hx))
    have hc2 : c2.track ≠ [] := hc c2 (List.mem_cons_self _ _)
    obtain ⟨pb, hpb⟩ : ∃ pb, e.P_branch trk c1 c2 = some pb := by
      obtain ⟨f0, hf0⟩ := exists_head_of_ne_nil hc1
      obtain ⟨f1, hf1⟩ := exists_head_of_ne_nil hc2
      obtain ⟨b, hb⟩ := exists_getLast_of_ne_nil htrk
      obtain ⟨p0, hp0⟩ := (P_total e c1 hc1).2.2.2.2.2
      obtain ⟨p1, hp1⟩ := (P_total e c2 hc2).2.2.2.2.2
      simp only [HypothesisEngine.P_branch, hf0, hf1, hb, hp0, hp1, Option.bind_eq_bind,
        Option.some_bind]
      split_ifs <;> exact ⟨_, rfl⟩
    obtain ⟨tp, htp⟩ := (P_total e trk htrk).2.1
    obtain ⟨tp1, htp1⟩ := (P_total e c1 hc1).2.1
    obtain ⟨tp2, htp2⟩ := (P_total e c2 hc2).2.1
    by_cases hallow : e.hypothesis_allowed TYPE_Pdivn = true
    · simp only [HypothesisEngine.division_inner, hallow, if_true, hpb, htp, htp1, htp2, hrest,
        Option.bind_eq_bind, Option.some_bind, List.singleton_append, List.map_cons,
        HypothesisEngine.h_divn, Option.getD_some]
    · simp only [HypothesisEngine.division_inner, hallow, hrest,
        Option.bind_eq_bind, Option.some_bind, List.nil_append]
      simp

theorem division_outer_eq (e : HypothesisEngine M C) (trk : Tracklet ℝ M)
    (htrk : trk.track ≠ []) (conflicts : List (Tracklet ℝ M))
    (hc : ∀ c ∈ conflicts, c.track ≠ []) :
    e.division_outer trk conflicts =
      some (if e.hypothesis_allowed TYPE_Pdivn = true then
              (ordered_pairs conflicts).map (fun p => e.h_divn trk p.1 p.2)
            else []) := by
  induction conflicts with
  | nil => simp [HypothesisEngine.division_outer, ordered_pairs]
  | cons c1 rest ih =>
    have hrest := ih (fun x hx => hc x (List.mem_cons_of_mem _ hx))
    have hc1 : c1.track ≠ [] := hc c1 (List.mem_cons_self _ _)
    have hin := division_inner_eq e trk c1 htrk hc1 rest
      (fun x hx => hc x (List.mem_cons_of_mem _ hx))
    by_cases hallow : e.hypothesis_allowed TYPE_Pdivn = true
    · simp [HypothesisEngine.division_outer, hin, hrest, hallow, ordered_pairs,
        List.map_append, Function.comp_def]
    · simp [HypothesisEngine.division_outer, hin, hrest, hallow]

theorem ordered_pairs_short {α : Type} (l : List α) (h : l.length < 2) :
    ordered_pairs l = [] := by
  match l, h with
  | [], _ => rfl
  | [a], _ => rfl

end EngineLoopLemmas

end BTrack

namespace BTrack

noncomputable section EngineCreateLemmas

variable {M C : Type}

theorem init_guard_iff (e : HypothesisEngine M C) (trk : Tracklet ℝ M)
    (front : TrackObject ℝ) (d_start : WithTop ℝ) (hf : trk.track.head? = some front)
    (hd : e.dist_from_border trk true = some d_start) :
    e.init_guard trk ↔
      (e.m_params.relax = true ∨
        (front.t : ℝ) < (e.m_frame_range.1 : ℝ) + e.m_params.theta_time ∨
        d_start < (e.m_params.theta_dist : WithTop ℝ)) := by
  constructor
  · rintro ⟨f, d, hf1, hd1, h⟩
    rw [hf] at hf1; rw [hd] at hd1
    cases hf1; cases hd1
    exact h
  · intro h
    exact ⟨front, d_start, hf, hd, h⟩

theorem term_guard_iff (e : HypothesisEngine M C) (trk : Tracklet ℝ M)
    (back : TrackObject ℝ) (d_stop : WithTop ℝ) (hb : trk.track.getLast? = some back)
    (hd : e.dist_from_border trk false = some d_stop) :
    e.term_guard trk ↔
      (e.m_params.relax = true ∨
        (back.t : ℝ) > (e.m_frame_range.2 : ℝ) - e.m_params.theta_time ∨
        d_stop < (e.m_params.theta_dist : WithTop ℝ)) := by
  constructor
  · rintro ⟨f, d, hf1, hd1, h⟩
    rw [hb] at hf1; rw [hd] at hd1
    cases hf1; cases hd1
    exact h
  · intro h
    exact ⟨back, d_stop, hb, hd, h⟩

open Classical in
theorem create_track_eq (cube : HypercubeOps M C) (e : HypothesisEngine M C)
    (trk : Tracklet ℝ M) (cands : List (Tracklet ℝ M)) (htrk : trk.track ≠ [])
    (hget : cube.get e.m_cube trk false = some cands) (hc : ∀ c ∈ cands, c.track ≠ []) :
    e.create_track cube trk = some (e.track_hypotheses trk cands) := by
  obtain ⟨front, hf⟩ := exists_head_of_ne_nil htrk
  obtain ⟨back, hb⟩ := exists_getLast_of_ne_nil htrk
  obtain ⟨fp, hfp⟩ := (P_total e trk htrk).1
  obtain ⟨tp, htp⟩ := (P_total e trk htrk).2.1
  obtain ⟨d_start, hds⟩ := dist_from_border_some e trk true htrk
  obtain ⟨d_stop, hdp⟩ := dist_from_border_some e trk false htrk
  obtain ⟨pi, hpi⟩ := (P_total e trk htrk).2.2.1
  obtain ⟨pt, hpt⟩ := (P_total e trk htrk).2.2.2.1
  obtain ⟨pd, hpd⟩ := (P_total e trk htrk).2.2.2.2.1 (trailing_apoptosis trk.track)
  have hcount := count_apoptosis_eq trk htrk
  have hpdc : e.P_dead_count trk = some pd := by
    simp only [HypothesisEngine.P_dead_count, hcount, Option.bind_eq_bind, Option.some_bind, hpd]
  have hconf : ∀ c ∈ cands.filter (e.accepts trk), c.track ≠ [] :=
    fun c hcm => hc c (List.mem_of_mem_filter hcm)
  have hlink := link_loop_eq e trk htrk cands hc
  have hdiv := division_outer_eq e trk htrk (cands.filter (e.accepts trk)) hconf
  have hig := init_guard_iff e trk front d_start hf hds
  have htg := term_guard_iff e trk back d_stop hb hdp
  have hinit : (if e.hypothesis_allowed TYPE_Pinit = true then
        if e.m_params.relax = true ∨
            (front.t : ℝ) < (e.m_frame_range.1 : ℝ) + e.m_params.theta_time ∨
            d_start < (e.m_params.theta_dist : WithTop ℝ) then
          (do
            let p_init ← e.P_init trk
            let tp ← e.P_TP trk
            some [({ hypothesis := TYPE_Pinit, trk_ID := trk, trk_link_ID := none,
                     trk_child_one_ID := none, trk_child_two_ID := none,
                     probability := safe_log p_init + 0.5 * safe_log tp } : Hypothesis M)])
        else some []
      else some []) =
      some (if e.hypothesis_allowed TYPE_Pinit = true ∧ e.init_guard trk then [e.h_init trk]
            else []) := by
    rw [hig]
    by_cases ha : e.hypothesis_allowed TYPE_Pinit = true <;>
      by_cases hg : (e.m_params.relax = true ∨
            (front.t : ℝ) < (e.m_frame_range.1 : ℝ) + e.m_params.theta_time ∨
            d_start < (e.m_params.theta_dist : WithTop ℝ)) <;>
      simp [ha, hg, HypothesisEngine.h_init, hpi, htp]
  have hterm : (if e.hypothesis_allowed TYPE_Pterm = true then
        if e.m_params.relax = true ∨
            (back.t : ℝ) > (e.m_frame_range.2 : ℝ) - e.m_params.theta_time ∨
            d_stop < (e.m_params.theta_dist : WithTop ℝ) then
          (do
            let p_term ← e.P_term trk
            let tp ← e.P_TP trk
            some [({ hypothesis := TYPE_Pterm, trk_ID := trk, trk_link_ID := none,
                     trk_child_one_ID := none, trk_child_two_ID := none,
                     probability := safe_log p_term + 0.5 * safe_log tp } : Hypothesis M)])
        else some []
      else some []) =
      some (if e.hypothesis_allowed TYPE_Pterm = true ∧ e.term_guard trk then [e.h_term trk]
            else []) := by
    rw [htg]
    by_cases ha : e.hypothesis_allowed TYPE_Pterm = true <;>
      by_cases hg : (e.m_params.relax = true ∨
            (back.t : ℝ) > (e.m_frame_range.2 : ℝ) - e.m_params.theta_time ∨
            d_stop < (e.m_params.theta_dist : WithTop ℝ)) <;>
      simp [ha, hg, HypothesisEngine.h_term, hpt, htp]
  have hapop : (if e.hypothesis_allowed TYPE_Papop = true ∧
          trailing_apoptosis trk.track > e.m_params.apop_thresh then
        (do
          let p_dead ← e.P_dead trk (trailing_apoptosis trk.track)
          let tp ← e.P_TP trk
          some [({ hypothesis := TYPE_Papop, trk_ID := trk, trk_link_ID := none,
                   trk_child_one_ID := none, trk_child_two_ID := none,
                   probability := safe_log p_dead + 0.5 * safe_log tp } : Hypothesis M)])
      else some []) =
      some (if e.hypothesis_allowed TYPE_Papop = true ∧
              trailing_apoptosis trk.track > e.m_params.apop_thresh then [e.h_apoptosis trk]
            else []) := by
    by_cases ha : e.hypothesis_allowed TYPE_Papop = true ∧
        trailing_apoptosis trk.track > e.m_params.apop_thresh <;>
      simp [ha, HypothesisEngine.h_apoptosis, hpdc, hpd, htp]
  have hdivs : (if (cands.filter (e.accepts trk)).length < 2 then some []
      else e.division_outer trk (cands.filter (e.accepts trk))) =
      some (if e.hypothesis_allowed TYPE_Pdivn = true then
              (ordered_pairs (cands.filter (e.accepts trk))).map
                (fun p => e.h_divn trk p.1 p.2)
            else []) := by
    by_cases hlen : (cands.filter (e.accepts trk)).length < 2
    · simp [hlen, ordered_pairs_short _ hlen]
    · simp [hlen, hdiv]
  simp only [Option.bind_eq_bind] at hinit hterm hapop
  simp only [HypothesisEngine.create_track, hfp, hds, hdp, hf, hb, hcount,
    hget, hlink, Option.bind_eq_bind, Option.some_bind, hinit, hterm, hapop, hdivs,
    HypothesisEngine.track_hypotheses, HypothesisEngine.h_fp, Option.getD_some]

theorem create_loop_eq (cube : HypercubeOps M C) (e : HypothesisEngine M C)
    (tracks : List (Tracklet ℝ M)) (cands : Tracklet ℝ M → List (Tracklet ℝ M))
    (h : ∀ trk ∈ tracks, trk.track ≠ [] ∧ cube.get e.m_cube trk false = some (cands trk) ∧
      ∀ c ∈ cands trk, c.track ≠ []) :
    e.create_loop cube tracks
      = some ((tracks.map (fun trk => e.track_hypotheses trk (cands trk))).flatten) := by
  induction tracks with
  | nil => simp [HypothesisEngine.create_loop]
  | cons trk rest ih =>
    obtain ⟨htrk, hget, hc⟩ := h trk (List.mem_cons_self _ _)
    have hrest := ih (fun t ht => h t (List.mem_cons_of_mem _ ht))
    simp [HypothesisEngine.create_loop, create_track_eq cube e trk (cands trk) htrk hget hc,
      hrest]

end EngineCreateLemmas

end BTrack

namespace BTrack

noncomputable section EngineCreate

variable {M C : Type}

theorem create_eq (cube : HypercubeOps M C) (e : HypothesisEngine M C)
    (hwf : e.WellFormed cube) :
    ∃ e1, e.create cube = some e1 ∧
      e1.m_hypotheses = e.m_hypotheses ++ (e.rounds cube).flatten ∧
      e1.m_tracks = e.m_tracks ∧ e1.m_cube = e.m_cube ∧ e1.m_params = e.m_params ∧
      e1.volume = e.volume ∧ e1.m_frame_range = e.m_frame_range := by
  have hloop : e.create_loop cube e.m_tracks = some (e.rounds cube).flatten := by
    apply create_loop_eq cube e e.m_tracks (e.candidates cube)
    intro trk htrk
    obtain ⟨hne, cands, hget, hc⟩ := hwf trk htrk
    have hcands : e.candidates cube trk = cands := by
      simp [HypothesisEngine.candidates, hget]
    rw [hcands]
    exact ⟨hne, hget, hc⟩
  by_cases hlen : e.m_tracks.length < 1
  · have hnil : e.m_tracks = [] := List.length_eq_zero.mp (by omega)
    refine ⟨e, by simp [HypothesisEngine.create, hlen], ?_, rfl, rfl, rfl, rfl, rfl⟩
    simp [HypothesisEngine.rounds, hnil]
  · exact ⟨{ e with m_num_tracks := e.m_tracks.length,
                    m_hypotheses := e.m_hypotheses ++ (e.rounds cube).flatten },
      by simp [HypothesisEngine.create, hlen, hloop], rfl, rfl, rfl, rfl, rfl, rfl⟩

open Classical in
theorem mem_track_hypotheses (e : HypothesisEngine M C) (trk : Tracklet ℝ M)
    (cands : List (Tracklet ℝ M)) (h : Hypothesis M) :
    h ∈ e.track_hypotheses trk cands ↔
      h = e.h_fp trk ∨
      (e.hypothesis_allowed TYPE_Pinit = true ∧ e.init_guard trk ∧ h = e.h_init trk) ∨
      (e.hypothesis_allowed TYPE_Pterm = true ∧ e.term_guard trk ∧ h = e.h_term trk) ∨
      (e.hypothesis_allowed TYPE_Papop = true ∧
        trailing_apoptosis trk.track > e.m_params.apop_thresh ∧ h = e.h_apoptosis trk) ∨
      (e.hypothesis_allowed TYPE_Plink = true ∧
        ∃ c ∈ cands, e.accepts trk c = true ∧ h = e.h_link trk c) ∨
      (e.hypothesis_allowed TYPE_Pdivn = true ∧
        ∃ p ∈ ordered_pairs (cands.filter (e.accepts trk)), h = e.h_divn trk p.1 p.2) := by
  simp only [HypothesisEngine.track_hypotheses, List.mem_cons, List.mem_append]
  constructor
  · rintro (h1 | ((((h2 | h3) | h4) | h5) | h6))
    · exact Or.inl h1
    · split_ifs at h2 with hc
      · exact Or.inr (Or.inl ⟨hc.1, hc.2, by simpa using h2⟩)
      · simp at h2
    · split_ifs at h3 with hc
      · exact Or.inr (Or.inr (Or.inl ⟨hc.1, hc.2, by simpa using h3⟩))
      · simp at h3
    · split_ifs at h4 with hc
      · exact Or.inr (Or.inr (Or.inr (Or.inl ⟨hc.1, hc.2, by simpa using h4⟩)))
      · simp at h4
    · split_ifs at h5 with hc
      · obtain ⟨c, hcm, hceq⟩ := List.mem_map.mp h5
        have := List.mem_filter.mp hcm
        exact Or.inr (Or.inr (Or.inr (Or.inr (Or.inl ⟨hc, c, this.1, this.2, hceq.symm⟩))))
      · simp at h5
    · split_ifs at h6 with hc
      · obtain ⟨p, hpm, hpeq⟩ := List.mem_map.mp h6
        exact Or.inr (Or.inr (Or.inr (Or.inr (Or.inr ⟨hc, p, hpm, hpeq.symm⟩))))
      · simp at h6
  · rintro (h1 | ⟨ha, hg, h2⟩ | ⟨ha, hg, h3⟩ | ⟨ha, hg, h4⟩ | ⟨ha, c, hcm, hacc, h5⟩ |
      ⟨ha, p, hpm, h6⟩)
    · exact Or.inl h1
    · exact Or.inr (Or.inl (Or.inl (Or.inl (Or.inl (by simp [ha, hg, h2])))))
    · exact Or.inr (Or.inl (Or.inl (Or.inl (Or.inr (by simp [ha, hg, h3])))))
    · exact Or.inr (Or.inl (Or.inl (Or.inr (by simp [ha, hg, h4]))))
    · refine Or.inr (Or.inl (Or.inr ?_))
      rw [if_pos ha]
      exact List.mem_map.mpr ⟨c, List.mem_filter.mpr ⟨hcm, hacc⟩, h5.symm⟩
    · refine Or.inr (Or.inr ?_)
      rw [if_pos ha]
      exact List.mem_map.mpr ⟨p, hpm, h6.symm⟩

theorem mem_rounds_flatten (cube : HypercubeOps M C) (e : HypothesisEngine M C)
    (h : Hypothesis M) :
    h ∈ (e.rounds cube).flatten ↔
      ∃ trk ∈ e.m_tracks, h ∈ e.track_hypotheses trk (e.candidates cube trk) := by
  simp [HypothesisEngine.rounds, List.mem_flatten]

end EngineCreate

end BTrack

namespace BTrack

noncomputable section CubeLemmas

variable {M : Type}

theorem floor_div_five (a : ℝ) (k : Int) (h1 : (k : ℝ) * 5 ≤ a) (h2 : a < ((k : ℝ) + 1) * 5) :
    ⌊a / 5⌋ = k := by
  rw [Int.floor_eq_iff]
  constructor
  · rw [le_div_iff₀ (by norm_num)]; exact h1
  · rw [div_lt_iff₀ (by norm_num)]; exact h2

theorem add_tracks_demo :
    emptyEngine.add_tracks specCube [trackA, trackB] = some engineAB ∧
    emptyEngine.add_tracks specCube [trackA, trackL] = some engineAL ∧
    emptyEngine.add_tracks specCube [trackA, trackD] = some engineAD ∧
    emptyEngine.add_tracks specCube [trackP, trackC0, trackC1] = some engineDiv ∧
    emptyEngine.add_tracks specCube [trackS] = some engineS := by
  have h0 : ⌊(0 : ℝ) / 5⌋ = 0 := floor_div_five 0 0 (by norm_num) (by norm_num)
  have h1 : ⌊(1 : ℝ) / 5⌋ = 0 := floor_div_five 1 0 (by norm_num) (by norm_num)
  have hm1 : ⌊(-1 : ℝ) / 5⌋ = -1 := floor_div_five (-1) (-1) (by norm_num) (by norm_num)
  have h10 : ⌊(10 : ℝ) / 5⌋ = 2 := floor_div_five 10 2 (by norm_num) (by norm_num)
  have h11 : ⌊(11 : ℝ) / 5⌋ = 2 := floor_div_five 11 2 (by norm_num) (by norm_num)
  have h12 : ⌊(12 : ℝ) / 5⌋ = 2 := floor_div_five 12 2 (by norm_num) (by norm_num)
  have h22 : ⌊(22 : ℝ) / 5⌋ = 4 := floor_div_five 22 4 (by norm_num) (by norm_num)
  have h50 : ⌊(50 : ℝ) / 5⌋ = 10 := floor_div_five 50 10 (by norm_num) (by norm_num)
  have h100 : ⌊(100 : ℝ) / 5⌋ = 20 := floor_div_five 100 20 (by norm_num) (by norm_num)
  refine ⟨?_, ?_, ?_, ?_, ?_⟩
  · simp [HypothesisEngine.add_tracks, HypothesisEngine.add_track, specCube, emptyEngine,
      HypothesisEngine.new, HypercubeBin.new, HypercubeBin.add_tracklet,
      HypercubeBin.hash_index, trackA, trackB, trackOf, engineAB, demoParams, h0, h1, h10, h12]
    norm_num
  · simp [HypothesisEngine.add_tracks, HypothesisEngine.add_track, specCube, emptyEngine,
      HypothesisEngine.new, HypercubeBin.new, HypercubeBin.add_tracklet,
      HypercubeBin.hash_index, trackA, trackL, trackOf, engineAL, demoParams, h0, h1, h10,
      h100]
    norm_num
  · simp [HypothesisEngine.add_tracks, HypothesisEngine.add_track, specCube, emptyEngine,
      HypothesisEngine.new, HypercubeBin.new, HypercubeBin.add_tracklet,
      HypercubeBin.hash_index, trackA, trackD, trackOf, engineAD, demoParams, h0, h10, h22,
      h50]
  · simp only [HypothesisEngine.add_tracks, HypothesisEngine.add_track, specCube, emptyEngine,
      HypothesisEngine.new, HypercubeBin.new, HypercubeBin.add_tracklet,
      HypercubeBin.hash_index, trackP, trackC0, trackC1, trackOf, engineDiv, demoParams,
      List.getLast?_singleton, Option.bind_eq_bind, Option.some_bind, Int.cast_ofNat, h0, h1,
      hm1, h10, h11, List.nil_append, List.cons_append]
  · simp [HypothesisEngine.add_tracks, HypothesisEngine.add_track, specCube, emptyEngine,
      HypothesisEngine.new, HypercubeBin.new, HypercubeBin.add_tracklet,
      HypercubeBin.hash_index, trackS, trackOf, engineS, demoParams, h0]

theorem get_subset_entries (c : HypercubeBin M) (t : Tracklet ℝ M) (s : Bool)
    (cands : List (Tracklet ℝ M)) (h : c.get t s = some cands) :
    ∀ x ∈ cands, ∃ p ∈ c.entries, p.2 = x := by
  intro x hx
  cases hl : t.track.getLast? with
  | none => simp [HypercubeBin.get, hl] at h
  | some last =>
    simp only [HypercubeBin.get, hl, Option.bind_eq_bind, Option.some_bind,
      Option.some.injEq] at h
    rw [← h] at hx
    obtain ⟨p, hp, hpx⟩ := List.mem_map.mp hx
    exact ⟨p, (List.mem_filter.mp hp).1, hpx⟩

theorem wellFormed_spec (e : HypothesisEngine M (HypercubeBin M))
    (ht : ∀ t ∈ e.m_tracks, t.track ≠ []) (hc : ∀ p ∈ e.m_cube.entries, p.2.track ≠ []) :
    e.WellFormed specCube := by
  intro trk htrk
  refine ⟨ht trk htrk, ?_⟩
  obtain ⟨last, hl⟩ := exists_getLast_of_ne_nil (ht trk htrk)
  have hget : ∃ cands, HypercubeBin.get e.m_cube trk false = some cands := by
    simp [HypercubeBin.get, hl]
  obtain ⟨cands, hcands⟩ := hget
  refine ⟨cands, hcands, ?_⟩
  intro x hx
  obtain ⟨p, hp, rfl⟩ := get_subset_entries e.m_cube trk false cands hcands x hx
  exact hc p hp

theorem demo_wellFormed :
    engineAB.WellFormed specCube ∧ engineAL.WellFormed specCube ∧
    engineAD.WellFormed specCube ∧ engineDiv.WellFormed specCube ∧
    engineS.WellFormed specCube := by
  refine ⟨?_, ?_, ?_, ?_, ?_⟩
  · apply wellFormed_spec <;> simp [engineAB, trackA, trackB, trackOf]
  · apply wellFormed_spec <;> simp [engineAL, trackA, trackL, trackOf]
  · apply wellFormed_spec <;> simp [engineAD, trackA, trackD, trackOf]
  · apply wellFormed_spec <;> simp [engineDiv, trackP, trackC0, trackC1, trackOf]
  · apply wellFormed_spec <;> simp [engineS, trackS, trackOf]

end CubeLemmas

end BTrack

namespace BTrack

noncomputable section EngineFilterLemmas

variable {M C : Type}

theorem filter_ite_singleton_neg {α : Type} (p : α → Bool) (c : Prop) [Decidable c] (a : α)
    (hp : p a = false) : (if c then [a] else []).filter p = [] := by
  split <;> simp [hp]

theorem filter_ite_map_neg {α β : Type} (p : α → Bool) (c : Prop) [Decidable c] (f : β → α)
    (l : List β) (hp : ∀ b, p (f b) = false) :
    (if c then l.map f else []).filter p = [] := by
  split
  · rw [List.filter_eq_nil_iff]
    intro a ha
    obtain ⟨b, _, rfl⟩ := List.mem_map.mp ha
    simp [hp b]
  · rfl

open Classical in
theorem filter_false_pos_track (e : HypothesisEngine M C) (trk : Tracklet ℝ M)
    (cands : List (Tracklet ℝ M)) :
    (e.track_hypotheses trk cands).filter (fun h => h.hypothesis == TYPE_Pfalse)
      = [e.h_fp trk] := by
  have key : ∀ p : Hypothesis M → Bool, p (e.h_fp trk) = true → p (e.h_init trk) = false →
      p (e.h_term trk) = false → p (e.h_apoptosis trk) = false →
      (∀ c, p (e.h_link trk c) = false) →
      (∀ q : Tracklet ℝ M × Tracklet ℝ M, p (e.h_divn trk q.1 q.2) = false) →
      (e.track_hypotheses trk cands).filter p = [e.h_fp trk] := by
    intro p h0 h1 h2 h3 h4 h5
    unfold HypothesisEngine.track_hypotheses
    rw [List.filter_cons_of_pos h0, List.filter_append, List.filter_append,
      List.filter_append, List.filter_append, filter_ite_singleton_neg p _ _ h1,
      filter_ite_singleton_neg p _ _ h2, filter_ite_singleton_neg p _ _ h3,
      filter_ite_map_neg p _ _ _ h4,
      filter_ite_map_neg p _ (fun q : Tracklet ℝ M × Tracklet ℝ M => e.h_divn trk q.1 q.2) _
        h5]
    rfl
  exact key (fun h => h.hypothesis == TYPE_Pfalse)
    (by show (TYPE_Pfalse == TYPE_Pfalse) = true; decide)
    (by show (TYPE_Pinit == TYPE_Pfalse) = false; decide)
    (by show (TYPE_Pterm == TYPE_Pfalse) = false; decide)
    (by show (TYPE_Papop == TYPE_Pfalse) = false; decide)
    (by intro c; show (TYPE_Plink == TYPE_Pfalse) = false; decide)
    (by intro q; show (TYPE_Pdivn == TYPE_Pfalse) = false; decide)

theorem filter_flatten {α : Type} (p : α → Bool) (ls : List (List α)) :
    ls.flatten.filter p = (ls.map (List.filter p)).flatten := by
  induction ls with
  | nil => rfl
  | cons l ls ih => simp [List.filter_append, ih]

theorem and_two_pow_cases (m k : Nat) : m &&& 2 ^ k = 2 ^ k ∨ m &&& 2 ^ k = 0 := by
  cases hb : m.testBit k with
  | true =>
    left
    apply Nat.eq_of_testBit_eq
    intro i
    by_cases hki : k = i
    · subst hki; simp [Nat.testBit_and, hb]
    · simp [Nat.testBit_and, Nat.testBit_two_pow, hki]
  | false =>
    right
    apply Nat.eq_of_testBit_eq
    intro i
    by_cases hki : k = i
    · subst hki; simp [Nat.testBit_and, hb]
    · simp [Nat.testBit_and, Nat.testBit_two_pow, hki]

theorem hypothesis_allowed_iff (e : HypothesisEngine M C) (k : Nat) :
    e.hypothesis_allowed k = true ↔ e.m_params.hypotheses_to_generate &&& (1 <<< k) ≠ 0 := by
  have hpos : (2 : Nat) ^ k ≠ 0 := by positivity
  simp only [HypothesisEngine.hypothesis_allowed, Nat.one_shiftLeft, beq_iff_eq]
  rcases and_two_pow_cases e.m_params.hypotheses_to_generate k with h | h
  · rw [h]; simp
  · rw [h]; simp only [ne_eq, not_true_eq_false, iff_false]; exact fun h0 => hpos h0.symm

end EngineFilterLemmas

end BTrack

namespace BTrack

noncomputable section ApoptosisRun

theorem trailing_apoptosis_spec (l : List (TrackObject ℝ)) :
    trailing_apoptosis l ≤ l.length ∧
    (∀ i o, l.length - trailing_apoptosis l ≤ i → l[i]? = some o →
      o.label = STATE_apoptosis) ∧
    (∀ o, trailing_apoptosis l < l.length →
      l[l.length - trailing_apoptosis l - 1]? = some o → o.label ≠ STATE_apoptosis) := by
  induction l using List.reverseRecOn with
  | nil => simp [trailing_apoptosis]
  | append_singleton l a ih =>
    obtain ⟨ih1, ih2, ih3⟩ := ih
    rw [trailing_apoptosis_append]
    by_cases ha : a.label = STATE_apoptosis
    · simp only [ha, if_true, List.length_append, List.length_singleton]
      refine ⟨by omega, ?_, ?_⟩
      · intro i o hi ho
        rcases Nat.lt_or_ge i l.length with hlt | hge
        · rw [List.getElem?_append_left hlt] at ho
          exact ih2 i o (by omega) ho
        · rw [List.getElem?_append_right hge] at ho
          have hi0 : i - l.length = 0 ∨ 0 < i - l.length := Nat.eq_zero_or_pos _
          rcases hi0 with h0 | h0
          · rw [h0] at ho
            simp only [List.getElem?_cons_zero, Option.some.injEq] at ho
            rw [← ho]; exact ha
          · have : [a][i - l.length]? = none := by
              apply List.getElem?_eq_none
              simp only [List.length_singleton]; omega
            rw [this] at ho
            exact absurd ho (by simp)
      · intro o hlt ho
        have hlt1 : trailing_apoptosis l < l.length := by omega
        have hidx : l.length + 1 - (trailing_apoptosis l + 1) - 1
            = l.length - trailing_apoptosis l - 1 := by omega
        rw [hidx, List.getElem?_append_left (by omega)] at ho
        exact ih3 o hlt1 ho
    · simp only [ha, if_false, List.length_append, List.length_singleton, Nat.sub_zero]
      refine ⟨by omega, ?_, ?_⟩
      · intro i o hi ho
        have : (l ++ [a])[i]? = none := by
          apply List.getElem?_eq_none
          simp only [List.length_append, List.length_singleton]; omega
        rw [this] at ho
        exact absurd ho (by simp)
      · intro o _ ho
        have hidx : l.length + 1 - 1 = l.length := by omega
        rw [hidx, List.getElem?_append_right (le_refl _)] at ho
        simp only [Nat.sub_self, List.getElem?_cons_zero, Option.some.injEq] at ho
        rw [← ho]; exact ha

end ApoptosisRun

end BTrack

namespace BTrack

noncomputable section CubeCoverage

variable {M : Type}

theorem hash_index_congr (c1 c2 : HypercubeBin M) (o : TrackObject ℝ)
    (hd : c1.dist_bin = c2.dist_bin) (ht : c1.time_bin = c2.time_bin) :
    c1.hash_index o = c2.hash_index o := by
  simp [HypercubeBin.hash_index, hd, ht]

theorem add_track_spec (e0 e : HypothesisEngine M (HypercubeBin M)) (t : Tracklet ℝ M)
    (h : e0.add_track specCube t = some e) :
    e.m_tracks = e0.m_tracks ++ [t] ∧ e.m_cube.dist_bin = e0.m_cube.dist_bin ∧
      e.m_cube.time_bin = e0.m_cube.time_bin ∧ e.m_params = e0.m_params ∧
      e.m_hypotheses = e0.m_hypotheses ∧
      ∃ last, t.track.getLast? = some last ∧
        e.m_cube.entries = e0.m_cube.entries ++ [(e0.m_cube.hash_index last, t)] := by
  cases hl : t.track.getLast? with
  | none =>
    simp [HypothesisEngine.add_track, specCube, HypercubeBin.add_tracklet, hl] at h
  | some last =>
    simp only [HypothesisEngine.add_track, specCube, HypercubeBin.add_tracklet, hl,
      Option.bind_eq_bind, Option.some_bind, Option.some.injEq] at h
    subst h
    exact ⟨rfl, rfl, rfl, rfl, rfl, last, rfl, rfl⟩

theorem add_tracks_spec (tracks : List (Tracklet ℝ M)) :
    ∀ e0 e : HypothesisEngine M (HypercubeBin M), e0.add_tracks specCube tracks = some e →
      e.m_tracks = e0.m_tracks ++ tracks ∧ e.m_cube.dist_bin = e0.m_cube.dist_bin ∧
      e.m_cube.time_bin = e0.m_cube.time_bin ∧ e.m_params = e0.m_params ∧
      e.m_hypotheses = e0.m_hypotheses ∧
      (∀ t ∈ tracks, ∃ last, t.track.getLast? = some last ∧
        (e.m_cube.hash_index last, t) ∈ e.m_cube.entries) ∧
      (∀ p ∈ e.m_cube.entries, p ∈ e0.m_cube.entries ∨ p.2 ∈ tracks) := by
  induction tracks with
  | nil =>
    intro e0 e h
    simp only [HypothesisEngine.add_tracks, Option.some.injEq] at h
    subst h
    exact ⟨by simp, rfl, rfl, rfl, rfl, by simp, fun p hp => Or.inl hp⟩
  | cons t rest ih =>
    intro e0 e h
    simp only [HypothesisEngine.add_tracks, Option.bind_eq_some] at h
    obtain ⟨e1, h1, h2⟩ := h
    obtain ⟨a1, a2, a3, a4, a5, last, hl, a6⟩ := add_track_spec e0 e1 t h1
    obtain ⟨b1, b2, b3, b4, b5, b6, b7⟩ := ih e1 e h2
    refine ⟨by simp [b1, a1], by rw [b2, a2], by rw [b3, a3], by rw [b4, a4], by rw [b5, a5],
      ?_, ?_⟩
    · intro x hx
      rcases List.mem_cons.mp hx with rfl | hx
      · refine ⟨last, hl, ?_⟩
        rcases b7 with _
        have hmem1 : (e0.m_cube.hash_index last, x) ∈ e1.m_cube.entries := by
          rw [a6]; simp
        have hidx : e.m_cube.hash_index last = e0.m_cube.hash_index last :=
          hash_index_congr _ _ _ (by rw [b2, a2]) (by rw [b3, a3])
        rw [hidx]
        -- entries only grow
        have hgrow : ∀ (r : List (Tracklet ℝ M)) (u v : HypothesisEngine M (HypercubeBin M)),
            u.add_tracks specCube r = some v → ∀ p ∈ u.m_cube.entries,
              p ∈ v.m_cube.entries := by
          intro r
          induction r with
          | nil =>
            intro u v huv p hp
            simp only [HypothesisEngine.add_tracks, Option.some.injEq] at huv
            subst huv; exact hp
          | cons s r ihr =>
            intro u v huv p hp
            simp only [HypothesisEngine.add_tracks, Option.bind_eq_some] at huv
            obtain ⟨w, hw1, hw2⟩ := huv
            obtain ⟨_, _, _, _, _, _, _, hw6⟩ := add_track_spec u w s hw1
            exact ihr w v hw2 p (by rw [hw6]; exact List.mem_append_left _ hp)
        exact hgrow rest e1 e h2 _ hmem1
      · exact b6 x hx
    · intro p hp
      rcases b7 p hp with hp1 | hp1
      · rw [a6] at hp1
        rcases List.mem_append.mp hp1 with hp0 | hp0
        · exact Or.inl hp0
        · right
          simp only [List.mem_singleton] at hp0
          rw [hp0]
          exact List.mem_cons_self _ _
      · exact Or.inr (List.mem_cons_of_mem _ hp1)

theorem mem_get_of_entry (c : HypercubeBin M) (trk cand : Tracklet ℝ M)
    (tl : TrackObject ℝ) (idx : HashIndex) (htl : trk.track.getLast? = some tl)
    (hentry : (idx, cand) ∈ c.entries) (hadj : (c.hash_index tl).adjacent idx = true)
    (hne : cand.ID ≠ trk.ID) :
    ∃ cands, c.get trk false = some cands ∧ cand ∈ cands := by
  refine ⟨(c.entries.filter (fun p => (c.hash_index tl).adjacent p.1 &&
      (false || decide (p.2.ID ≠ trk.ID)))).map Prod.snd,
    by simp only [HypercubeBin.get, htl, Option.bind_eq_bind, Option.some_bind], ?_⟩
  refine List.mem_map.mpr ⟨(idx, cand), List.mem_filter.mpr ⟨hentry, ?_⟩, rfl⟩
  simp [hadj, hne]

theorem floor_div_adjacent (a b D : ℝ) (hD : 0 < D) (h : |a - b| < D) :
    |⌊a / D⌋ - ⌊b / D⌋| ≤ 1 := by
  have h1 : a / D - b / D < 1 := by
    rw [← sub_div, div_lt_one hD]
    exact lt_of_le_of_lt (le_abs_self _) h
  have h2 : b / D - a / D < 1 := by
    rw [← sub_div, div_lt_one hD]
    have hba : b - a ≤ |a - b| := by
      rw [abs_sub_comm]; exact le_abs_self _
    exact lt_of_le_of_lt hba h
  have fa := Int.floor_le (a / D)
  have fb := Int.floor_le (b / D)
  have ga := Int.lt_floor_add_one (a / D)
  have gb := Int.lt_floor_add_one (b / D)
  rw [abs_le]
  constructor
  · have : ((⌊b / D⌋ : Int) : ℝ) - ⌊a / D⌋ < 2 := by linarith
    have : ⌊b / D⌋ - ⌊a / D⌋ < 2 := by exact_mod_cast this
    omega
  · have : ((⌊a / D⌋ : Int) : ℝ) - ⌊b / D⌋ < 2 := by linarith
    have : ⌊a / D⌋ - ⌊b / D⌋ < 2 := by exact_mod_cast this
    omega

theorem candidate_adjacent (c : HypercubeBin M) (last first : TrackObject ℝ)
    (hd : Real.sqrt ((last.x - first.x) ^ 2 + (last.y - first.y) ^ 2 + (last.z - first.z) ^ 2)
      < c.dist_bin)
    (h1 : 1 ≤ first.t - last.t) (h2 : ((first.t - last.t : Int) : ℝ) < c.time_bin) :
    (c.hash_index last).adjacent (c.hash_index first) = true := by
  have hD : 0 < c.dist_bin := lt_of_le_of_lt (Real.sqrt_nonneg _) hd
  have h1r : (1 : ℝ) ≤ ((first.t - last.t : Int) : ℝ) := by exact_mod_cast h1
  have hT : 0 < c.time_bin := by linarith
  have hl : ∀ a b c : ℝ, |a| ≤ Real.sqrt (a ^ 2 + b ^ 2 + c ^ 2) :=
    fun a b c => Real.abs_le_sqrt (by nlinarith [sq_nonneg b, sq_nonneg c])
  have hm : ∀ a b c : ℝ, |b| ≤ Real.sqrt (a ^ 2 + b ^ 2 + c ^ 2) :=
    fun a b c => Real.abs_le_sqrt (by nlinarith [sq_nonneg a, sq_nonneg c])
  have hr : ∀ a b c : ℝ, |c| ≤ Real.sqrt (a ^ 2 + b ^ 2 + c ^ 2) :=
    fun a b c => Real.abs_le_sqrt (by nlinarith [sq_nonneg a, sq_nonneg b])
  have hx := floor_div_adjacent last.x first.x c.dist_bin hD
    (lt_of_le_of_lt (hl _ _ _) hd)
  have hy := floor_div_adjacent last.y first.y c.dist_bin hD
    (lt_of_le_of_lt (hm _ _ _) hd)
  have hz := floor_div_adjacent last.z first.z c.dist_bin hD
    (lt_of_le_of_lt (hr _ _ _) hd)
  have ht : |(last.t : ℝ) - (first.t : ℝ)| < c.time_bin := by
    have hcast : ((first.t - last.t : Int) : ℝ) = (first.t : ℝ) - (last.t : ℝ) := by
      push_cast; ring
    rw [abs_sub_comm, abs_of_nonneg (by linarith)]
    linarith
  have hn := floor_div_adjacent (last.t : ℝ) (first.t : ℝ) c.time_bin hT ht
  simp [HashIndex.adjacent, HypercubeBin.hash_index, hx, hy, hz, hn]

end CubeCoverage

end BTrack

namespace BTrack

/-! ## The claims about tracklets -/

section TrackletClaims

variable {R M : Type} [Add R]

/-- C1, the code at the failing input: a tracklet is built from the real
observation `obs0`, one dummy is appended and the tracklet is trimmed.  `trim`
pops the dummy from `track` only, so `track` has length 1 while `prediction`
and `kalman` keep length 2. -/
theorem trim_breaks_length_invariant :
    ((Tracklet.new stillModel 1 obs0 MAX_LOST ()).bind
        (fun t => t.run stillModel [Op.append_dummy, Op.trim])).map
      (fun t => (t.track.length, t.prediction.length, t.kalman.length)) = some (1, 2, 2) := by
  decide

/-- C8 as stated fails: six calls of `append_dummy` from `lost = 0` leave the
lost counter at 5, not at `min 6 (MAX_LOST + 1) = 6`. -/
theorem lost_after_six_dummies :
    freshTracklet.lost = 0 ∧
    ∃ t1, freshTracklet.run stillModel (List.replicate 6 Op.append_dummy) = some t1 ∧
      t1.lost = 5 ∧ t1.lost ≠ min 6 (MAX_LOST + 1) :=
  ⟨rfl, _, rfl, by decide, by decide⟩

/-- C8, amended: starting from a tracklet with `lost = 0`, `k` calls of
`append_dummy` with no other call in between return, and leave the lost
counter at `min k MAX_LOST`. -/
theorem lost_after_dummies (ops : MotionModelOps R M) (t : Tracklet R M) (k : Nat)
    (h0 : t.lost = 0) (hne : t.track ≠ []) :
    ∃ t1, t.run ops (List.replicate k Op.append_dummy) = some t1 ∧
      t1.lost = min k MAX_LOST := by
  obtain ⟨t1, ds, h1, hlost, _⟩ := run_append_dummy ops k t (by simp [h0]) hne
  exact ⟨t1, h1, by simpa [h0] using hlost⟩

theorem lost_after_dummies_witness :
    freshTracklet.lost = 0 ∧ freshTracklet.track ≠ [] ∧
    ∃ t1, freshTracklet.run stillModel (List.replicate 9 Op.append_dummy) = some t1 ∧
      t1.lost = min 9 MAX_LOST :=
  ⟨rfl, List.cons_ne_nil _ _,
    lost_after_dummies stillModel freshTracklet 9 rfl (List.cons_ne_nil _ _)⟩

/-- C9: `append_dummy` returns the tracklet unchanged (track, prediction,
kalman, lost counter and motion model) whenever `lost ≥ MAX_LOST`; hence `k`
consecutive calls starting from `lost = 0` append exactly `min k MAX_LOST`
observations, all of them dummies and never more than `MAX_LOST`. -/
theorem append_dummy_noop_when_lost (ops : MotionModelOps R M) (t : Tracklet R M)
    (h : MAX_LOST ≤ t.lost) :
    t.append_dummy ops = some t ∧
    ∀ (s : Tracklet R M) (k : Nat), s.lost = 0 → s.track ≠ [] →
      ∃ s1 ds, s.run ops (List.replicate k Op.append_dummy) = some s1 ∧
        s1.track = s.track ++ ds ∧ ds.length = min k MAX_LOST ∧
        ds.length ≤ MAX_LOST ∧ ∀ d ∈ ds, d.dummy = true := by
  refine ⟨append_dummy_noop ops t h, ?_⟩
  intro s k h0 hne
  obtain ⟨s1, ds, h1, hlost, htr, hlen, hall, _⟩ := run_append_dummy ops k s (by simp [h0]) hne
  have hlen1 : ds.length = min k MAX_LOST := by
    rw [hlen, hlost, h0]; simp
  exact ⟨s1, ds, h1, htr, hlen1, by rw [hlen1]; exact min_le_right _ _, hall⟩

theorem append_dummy_noop_when_lost_witness :
    MAX_LOST ≤ lostTracklet.lost ∧
    lostTracklet.append_dummy stillModel = some lostTracklet ∧
    ∃ s1 ds, freshTracklet.run stillModel (List.replicate 7 Op.append_dummy) = some s1 ∧
      s1.track = freshTracklet.track ++ ds ∧ ds.length = min 7 MAX_LOST ∧
      ds.length ≤ MAX_LOST ∧ ∀ d ∈ ds, d.dummy = true :=
  ⟨by decide, (append_dummy_noop_when_lost stillModel lostTracklet (by decide)).1,
    (append_dummy_noop_when_lost stillModel lostTracklet (by decide)).2 freshTracklet 7 rfl
      (List.cons_ne_nil _ _)⟩

/-- C10 as stated fails: `append` increments the lost counter on every
dummy-flagged observation without any bound, so after construction and seven
calls of `append` with a dummy-flagged observation the counter is 7, above
`MAX_LOST + 1 = 6`. -/
theorem lost_unbounded_by_dummy_appends :
    ∃ t1, (Tracklet.new stillModel 1 obs0 MAX_LOST ()).bind
        (fun t => t.run stillModel (List.replicate 7 (Op.append obsDummy true))) = some t1 ∧
      t1.lost = 7 ∧ ¬ t1.lost ≤ MAX_LOST + 1 :=
  ⟨_, rfl, by decide, by decide⟩

/-- C10, amended: when `append` is only called with real observations (dummies
enter through `append_dummy` alone), every state reached from the constructor
by `append`, `append_dummy` and `trim` has `lost ≤ MAX_LOST`, so also
`lost ≤ MAX_LOST + 1`; such a run returns whenever the first observation is
real; and `append` sets `lost` to 0 on a real observation and increments it on
a dummy-flagged one. -/
theorem lost_bounded (ops : MotionModelOps R M) (new_ID : Nat) (first : TrackObject R)
    (max_lost : Nat) (model : M) (calls : List (Op R))
    (hreal : ∀ o u, Op.append o u ∈ calls → o.dummy = false) :
    (first.dummy = false →
      ∃ t, (Tracklet.new ops new_ID first max_lost model).bind
        (fun t0 => t0.run ops calls) = some t) ∧
    (∀ t, (Tracklet.new ops new_ID first max_lost model).bind
        (fun t0 => t0.run ops calls) = some t → t.lost ≤ MAX_LOST ∧ t.lost ≤ MAX_LOST + 1) ∧
    (∀ (s : Tracklet R M) (o : TrackObject R) (u : Bool),
      ∃ s1, s.append ops o u = some s1 ∧ s1.lost = if o.dummy then s.lost + 1 else 0) := by
  obtain ⟨t0, h0, htr, _, _, hlost, _⟩ := append_spec ops
    { ID := new_ID, track := [], prediction := [], kalman := [],
      motion_model := ops.setup model first, lost := 0, remove_flag := false } first false
  have hnew : Tracklet.new ops new_ID first max_lost model = some t0 := h0
  refine ⟨?_, ?_, ?_⟩
  · intro hf
    obtain ⟨t, ht⟩ := run_total ops calls t0 ⟨first, by simp [htr], hf⟩
    exact ⟨t, by simp [hnew, ht]⟩
  · intro t ht
    simp only [hnew, Option.some_bind] at ht
    have hl0 : t0.lost ≤ MAX_LOST := by
      rw [hlost]; split <;> simp [MAX_LOST]
    have := run_lost_le ops calls t0 t hreal hl0 ht
    exact ⟨this, Nat.le_succ_of_le this⟩
  · intro s o u
    obtain ⟨s1, h1, _, _, _, hl, _⟩ := append_spec ops s o u
    exact ⟨s1, h1, hl⟩

theorem lost_bounded_witness :
    (∀ o u, Op.append o u ∈ [Op.append_dummy, Op.append obs0 true, Op.append_dummy, Op.trim] →
      o.dummy = false) ∧
    (obs0.dummy = false →
      ∃ t, (Tracklet.new stillModel 1 obs0 MAX_LOST ()).bind
        (fun t0 => t0.run stillModel
          [Op.append_dummy, Op.append obs0 true, Op.append_dummy, Op.trim]) = some t) ∧
    (∀ t, (Tracklet.new stillModel 1 obs0 MAX_LOST ()).bind
        (fun t0 => t0.run stillModel
          [Op.append_dummy, Op.append obs0 true, Op.append_dummy, Op.trim]) = some t →
        t.lost ≤ MAX_LOST ∧ t.lost ≤ MAX_LOST + 1) ∧
    (∀ (s : Tracklet Int Unit) (o : TrackObject Int) (u : Bool),
      ∃ s1, s.append stillModel o u = some s1 ∧ s1.lost = if o.dummy then s.lost + 1 else 0) :=
  have hreal : ∀ o u,
      Op.append o u ∈ [Op.append_dummy, Op.append obs0 true, Op.append_dummy, Op.trim] →
      o.dummy = false := by
    intro o u h
    simp at h
    rw [h.1]; rfl
  ⟨hreal, lost_bounded stillModel 1 obs0 MAX_LOST ()
    [Op.append_dummy, Op.append obs0 true, Op.append_dummy, Op.trim] hreal⟩

end TrackletClaims

end BTrack

namespace BTrack

noncomputable section EngineClaims

variable {M C : Type}

/-- C2: every Link hypothesis that `create` pushes, from a focal tracklet to a
candidate, has the Euclidean distance between the focal tracklet's last
position and the candidate's first position below `dist_thresh`, and the frame
difference `dt` between the candidate's first and the focal tracklet's last
observation with `1 ≤ dt < time_thresh`. -/
theorem link_hypotheses_within_thresholds (cube : HypercubeOps M C)
    (e : HypothesisEngine M C) (hwf : e.WellFormed cube) :
    ∃ e1 pushed, e.create cube = some e1 ∧ e1.m_hypotheses = e.m_hypotheses ++ pushed ∧
      ∀ h ∈ pushed, h.hypothesis = TYPE_Plink →
        ∃ cand last first, h.trk_link_ID = some cand ∧
          h.trk_ID.track.getLast? = some last ∧ cand.track.head? = some first ∧
          Real.sqrt ((last.x - first.x) ^ 2 + (last.y - first.y) ^ 2 + (last.z - first.z) ^ 2)
            < e.m_params.dist_thresh ∧
          1 ≤ first.t - last.t ∧ ((first.t - last.t : Int) : ℝ) < e.m_params.time_thresh := by
  obtain ⟨e1, hcreate, hhyp, _⟩ := create_eq cube e hwf
  refine ⟨e1, (e.rounds cube).flatten, hcreate, hhyp, ?_⟩
  intro h hmem htype
  obtain ⟨trk, _, hin⟩ := (mem_rounds_flatten cube e h).mp hmem
  rcases (mem_track_hypotheses e trk _ h).mp hin with h1 | ⟨_, _, h1⟩ | ⟨_, _, h1⟩ |
    ⟨_, _, h1⟩ | ⟨_, c, _, hacc, h1⟩ | ⟨_, p, _, h1⟩
  · rw [h1] at htype; exact absurd (show TYPE_Pfalse = _ from htype) (by decide)
  · rw [h1] at htype; exact absurd (show TYPE_Pinit = _ from htype) (by decide)
  · rw [h1] at htype; exact absurd (show TYPE_Pterm = _ from htype) (by decide)
  · rw [h1] at htype; exact absurd (show TYPE_Papop = _ from htype) (by decide)
  · obtain ⟨last, first, hl, hf, hd, ht1, ht2⟩ := (accepts_iff e trk c).mp hacc
    subst h1
    exact ⟨c, last, first, rfl, hl, hf, hd, ht1, ht2⟩
  · rw [h1] at htype; exact absurd (show TYPE_Pdivn = _ from htype) (by decide)

theorem link_hypotheses_within_thresholds_witness :
    engineAB.WellFormed specCube ∧
    ∃ e1 pushed, engineAB.create specCube = some e1 ∧
      e1.m_hypotheses = engineAB.m_hypotheses ++ pushed ∧
      ∀ h ∈ pushed, h.hypothesis = TYPE_Plink →
        ∃ cand last first, h.trk_link_ID = some cand ∧
          h.trk_ID.track.getLast? = some last ∧ cand.track.head? = some first ∧
          Real.sqrt ((last.x - first.x) ^ 2 + (last.y - first.y) ^ 2 + (last.z - first.z) ^ 2)
            < engineAB.m_params.dist_thresh ∧
          1 ≤ first.t - last.t ∧
          ((first.t - last.t : Int) : ℝ) < engineAB.m_params.time_thresh :=
  ⟨demo_wellFormed.1,
    link_hypotheses_within_thresholds specCube engineAB demo_wellFormed.1⟩

/-- C5: for every value of `hypotheses_to_generate`, `create` pushes exactly
one False-positive hypothesis per tracklet, in the order of the tracklets, and
a hypothesis of any other type `K` only when `hypothesis_allowed K` holds, that
is when `(hypotheses_to_generate & (1 << K)) != 0`. -/
theorem false_positive_unconditional (cube : HypercubeOps M C) (e : HypothesisEngine M C)
    (hwf : e.WellFormed cube) :
    ∃ e1 pushed, e.create cube = some e1 ∧ e1.m_hypotheses = e.m_hypotheses ++ pushed ∧
      (pushed.filter (fun h => h.hypothesis == TYPE_Pfalse)).map (fun h => h.trk_ID)
        = e.m_tracks ∧
      ∀ h ∈ pushed, h.hypothesis ≠ TYPE_Pfalse →
        e.hypothesis_allowed h.hypothesis = true ∧
        e.m_params.hypotheses_to_generate &&& (1 <<< h.hypothesis) ≠ 0 := by
  obtain ⟨e1, hcreate, hhyp, _⟩ := create_eq cube e hwf
  refine ⟨e1, (e.rounds cube).flatten, hcreate, hhyp, ?_, ?_⟩
  · rw [filter_flatten]
    unfold HypothesisEngine.rounds
    rw [List.map_map]
    have hround : (List.filter (fun h : Hypothesis M => h.hypothesis == TYPE_Pfalse) ∘
        fun trk => e.track_hypotheses trk (e.candidates cube trk))
        = fun trk => [e.h_fp trk] := by
      funext trk
      exact filter_false_pos_track e trk _
    rw [hround]
    generalize e.m_tracks = l
    induction l with
    | nil => rfl
    | cons a l ih =>
      simp only [List.map_cons, List.flatten_cons, List.singleton_append]
      exact congrArg (List.cons a) ih
  · intro h hmem htype
    obtain ⟨trk, _, hin⟩ := (mem_rounds_flatten cube e h).mp hmem
    have hall : e.hypothesis_allowed h.hypothesis = true := by
      rcases (mem_track_hypotheses e trk _ h).mp hin with h1 | ⟨ha, _, h1⟩ | ⟨ha, _, h1⟩ |
        ⟨ha, _, h1⟩ | ⟨ha, c, _, _, h1⟩ | ⟨ha, p, hp, h1⟩
      · rw [h1] at htype; exact absurd rfl htype
      · rw [h1]; exact ha
      · rw [h1]; exact ha
      · rw [h1]; exact ha
      · rw [h1]; exact ha
      · rw [h1]; exact ha
    exact ⟨hall, (hypothesis_allowed_iff e h.hypothesis).mp hall⟩

theorem false_positive_unconditional_witness :
    engineAB.WellFormed specCube ∧
    ∃ e1 pushed, engineAB.create specCube = some e1 ∧
      e1.m_hypotheses = engineAB.m_hypotheses ++ pushed ∧
      (pushed.filter (fun h => h.hypothesis == TYPE_Pfalse)).map (fun h => h.trk_ID)
        = engineAB.m_tracks ∧
      ∀ h ∈ pushed, h.hypothesis ≠ TYPE_Pfalse →
        engineAB.hypothesis_allowed h.hypothesis = true ∧
        engineAB.m_params.hypotheses_to_generate &&& (1 <<< h.hypothesis) ≠ 0 :=
  ⟨demo_wellFormed.1, false_positive_unconditional specCube engineAB demo_wellFormed.1⟩

/-- C6: with Apoptosis enabled, `count_apoptosis` returns for every tracklet
the length `n_apop` of the maximal run of apoptosis-labelled observations that
ends at the last observation (the last `n_apop` observations are labelled
apoptosis and the one before them, if any, is not), and `create` pushes an
Apoptosis hypothesis for the tracklet if and only if `n_apop > apop_thresh`. -/
theorem apoptosis_hypothesis_iff (cube : HypercubeOps M C) (e : HypothesisEngine M C)
    (hwf : e.WellFormed cube) (hallow : e.hypothesis_allowed TYPE_Papop = true) :
    ∃ e1 pushed, e.create cube = some e1 ∧ e1.m_hypotheses = e.m_hypotheses ++ pushed ∧
      ∀ trk ∈ e.m_tracks, ∃ n_apop, count_apoptosis trk = some n_apop ∧
        n_apop = trailing_apoptosis trk.track ∧
        n_apop ≤ trk.track.length ∧
        (∀ i o, trk.track.length - n_apop ≤ i → trk.track[i]? = some o →
          o.label = STATE_apoptosis) ∧
        (∀ o, n_apop < trk.track.length →
          trk.track[trk.track.length - n_apop - 1]? = some o → o.label ≠ STATE_apoptosis) ∧
        ((∃ h ∈ pushed, h.hypothesis = TYPE_Papop ∧ h.trk_ID = trk) ↔
          n_apop > e.m_params.apop_thresh) := by
  obtain ⟨e1, hcreate, hhyp, _⟩ := create_eq cube e hwf
  refine ⟨e1, (e.rounds cube).flatten, hcreate, hhyp, ?_⟩
  intro trk htrk
  obtain ⟨s1, s2, s3⟩ := trailing_apoptosis_spec trk.track
  refine ⟨trailing_apoptosis trk.track, count_apoptosis_eq trk (hwf trk htrk).1, rfl, s1, s2,
    s3, ?_⟩
  constructor
  · rintro ⟨h, hmem, htype, hfocal⟩
    obtain ⟨trk1, _, hin⟩ := (mem_rounds_flatten cube e h).mp hmem
    rcases (mem_track_hypotheses e trk1 _ h).mp hin with h1 | ⟨_, _, h1⟩ | ⟨_, _, h1⟩ |
      ⟨_, hn, h1⟩ | ⟨_, c, _, _, h1⟩ | ⟨_, p, _, h1⟩
    · rw [h1] at htype; exact absurd (show TYPE_Pfalse = _ from htype) (by decide)
    · rw [h1] at htype; exact absurd (show TYPE_Pinit = _ from htype) (by decide)
    · rw [h1] at htype; exact absurd (show TYPE_Pterm = _ from htype) (by decide)
    · have : trk1 = trk := by rw [h1] at hfocal; exact hfocal
      rw [this] at hn
      exact hn
    · rw [h1] at htype; exact absurd (show TYPE_Plink = _ from htype) (by decide)
    · rw [h1] at htype; exact absurd (show TYPE_Pdivn = _ from htype) (by decide)
  · intro hn
    refine ⟨e.h_apoptosis trk, ?_, rfl, rfl⟩
    refine (mem_rounds_flatten cube e _).mpr ⟨trk, htrk, ?_⟩
    exact (mem_track_hypotheses e trk _ _).mpr
      (Or.inr (Or.inr (Or.inr (Or.inl ⟨hallow, hn, rfl⟩))))

theorem apoptosis_hypothesis_iff_witness :
    engineAD.WellFormed specCube ∧ engineAD.hypothesis_allowed TYPE_Papop = true ∧
    ∃ e1 pushed, engineAD.create specCube = some e1 ∧
      e1.m_hypotheses = engineAD.m_hypotheses ++ pushed ∧
      ∀ trk ∈ engineAD.m_tracks, ∃ n_apop, count_apoptosis trk = some n_apop ∧
        n_apop = trailing_apoptosis trk.track ∧
        n_apop ≤ trk.track.length ∧
        (∀ i o, trk.track.length - n_apop ≤ i → trk.track[i]? = some o →
          o.label = STATE_apoptosis) ∧
        (∀ o, n_apop < trk.track.length →
          trk.track[trk.track.length - n_apop - 1]? = some o → o.label ≠ STATE_apoptosis) ∧
        ((∃ h ∈ pushed, h.hypothesis = TYPE_Papop ∧ h.trk_ID = trk) ↔
          n_apop > engineAD.m_params.apop_thresh) :=
  ⟨demo_wellFormed.2.2.1, by decide,
    apoptosis_hypothesis_iff specCube engineAD demo_wellFormed.2.2.1 (by decide)⟩

end EngineClaims

end BTrack

namespace BTrack

noncomputable section IndexClaims

/-- C3 as stated fails on the index of the specification: tracklet L starts
one unit and two frames after the end of tracklet A, within both thresholds,
but it is indexed by its last observation, in frame 100, whose bucket is not
among the 81 buckets around the last observation of A; `create` pushes no Link
hypothesis at all. -/
theorem link_candidate_missed :
    emptyEngine.add_tracks specCube [trackA, trackL] = some engineAL ∧
    engineAL.m_cube.dist_bin = engineAL.m_params.dist_thresh ∧
    engineAL.m_cube.time_bin = engineAL.m_params.time_thresh ∧
    engineAL.hypothesis_allowed TYPE_Plink = true ∧ trackA.ID ≠ trackL.ID ∧
    engineAL.is_candidate trackA trackL ∧
    ∃ e1, engineAL.create specCube = some e1 ∧
      ∀ h ∈ e1.m_hypotheses, h.hypothesis ≠ TYPE_Plink := by
  have h0 : ⌊(0 : ℝ) / 5⌋ = 0 := floor_div_five 0 0 (by norm_num) (by norm_num)
  have h1 : ⌊(1 : ℝ) / 5⌋ = 0 := floor_div_five 1 0 (by norm_num) (by norm_num)
  have h10 : ⌊(10 : ℝ) / 5⌋ = 2 := floor_div_five 10 2 (by norm_num) (by norm_num)
  have h100 : ⌊(100 : ℝ) / 5⌋ = 20 := floor_div_five 100 20 (by norm_num) (by norm_num)
  have hcA : engineAL.candidates specCube trackA = [] := by
    simp [HypothesisEngine.candidates, specCube, HypercubeBin.get, engineAL, trackA, trackL,
      trackOf, HypercubeBin.hash_index, HashIndex.adjacent, h0, h10]
  have hcL : engineAL.candidates specCube trackL = [] := by
    simp [HypothesisEngine.candidates, specCube, HypercubeBin.get, engineAL, trackA, trackL,
      trackOf, HypercubeBin.hash_index, HashIndex.adjacent, h0, h1, h100]
  refine ⟨add_tracks_demo.2.1, rfl, rfl, by decide, by decide, ?_, ?_⟩
  · refine ⟨{ ID := 1, x := 0, y := 0, z := 0, t := 10, dummy := false, label := 0 },
      { ID := 3, x := 1, y := 0, z := 0, t := 12, dummy := false, label := 0 }, rfl, rfl,
      ?_, by decide, ?_⟩
    · have : Real.sqrt (((0 : ℝ) - 1) ^ 2 + (0 - 0) ^ 2 + (0 - 0) ^ 2) = 1 := by
        rw [show ((0 : ℝ) - 1) ^ 2 + (0 - 0) ^ 2 + (0 - 0) ^ 2 = 1 by norm_num]
        exact Real.sqrt_one
      rw [this]
      show (1 : ℝ) < 5
      norm_num
    · show (((12 : Int) - 10 : Int) : ℝ) < 5
      norm_num
  · obtain ⟨e1, hcreate, hhyp, _⟩ := create_eq specCube engineAL demo_wellFormed.2.1
    refine ⟨e1, hcreate, ?_⟩
    intro h hmem htype
    rw [hhyp] at hmem
    have hmem1 : h ∈ (engineAL.rounds specCube).flatten := by
      rcases List.mem_append.mp hmem with hm | hm
      · exact absurd hm (List.not_mem_nil h)
      · exact hm
    obtain ⟨trk, htrk, hin⟩ := (mem_rounds_flatten specCube engineAL h).mp hmem1
    have hnil : engineAL.candidates specCube trk = [] := by
      have : trk = trackA ∨ trk = trackL := by
        simpa [engineAL] using htrk
      rcases this with rfl | rfl
      · exact hcA
      · exact hcL
    rw [hnil] at hin
    rcases (mem_track_hypotheses engineAL trk _ h).mp hin with h1 | ⟨_, _, h1⟩ | ⟨_, _, h1⟩ |
      ⟨_, _, h1⟩ | ⟨_, c, hc, _, _⟩ | ⟨_, p, _, h1⟩
    · rw [h1] at htype; exact absurd (show TYPE_Pfalse = _ from htype) (by decide)
    · rw [h1] at htype; exact absurd (show TYPE_Pinit = _ from htype) (by decide)
    · rw [h1] at htype; exact absurd (show TYPE_Pterm = _ from htype) (by decide)
    · rw [h1] at htype; exact absurd (show TYPE_Papop = _ from htype) (by decide)
    · exact absurd hc (List.not_mem_nil c)
    · rw [h1] at htype; exact absurd (show TYPE_Pdivn = _ from htype) (by decide)

/-- C3, amended: on an engine whose index (the `HypercubeBin` of the
specification, with bin sizes `dist_thresh` and `time_thresh`) was filled by
`add_track`, with Link enabled, for two added tracklets `trk` and `cand` with
different IDs such that `cand` starts within `dist_thresh` of the end of `trk`,
by more than one part in `2^20` (the code compares the distance narrowed to
`float`), with `2^-100 ≤ dist_thresh ≤ 2^100`, `1 ≤ dt < time_thresh` and
`dt ≤ 2^24`, `create` pushes a Link hypothesis from `trk` to `cand` provided
the last observation of `cand`, by which it is indexed, lies in the bucket of
its first observation (as for a tracklet of one observation) or, more
generally, in one of the 81 buckets around the last observation of `trk`. -/
theorem link_candidate_found {M : Type} (a_start a_stop : Nat) (params : PyHypothesisParams)
    (volume : ImagingVolume) (tracks : List (Tracklet ℝ M))
    (e : HypothesisEngine M (HypercubeBin M))
    (hbuild : (HypothesisEngine.new specCube a_start a_stop params volume).add_tracks
      specCube tracks = some e)
    (hallow : e.hypothesis_allowed TYPE_Plink = true)
    (trk cand : Tracklet ℝ M) (htrk : trk ∈ tracks) (hcand : cand ∈ tracks)
    (hne : trk.ID ≠ cand.ID) (hc : e.is_clear_candidate trk cand)
    (hbucket :
      (∀ first last, cand.track.head? = some first → cand.track.getLast? = some last →
        e.m_cube.hash_index last = e.m_cube.hash_index first) ∨
      (∀ tl cl, trk.track.getLast? = some tl → cand.track.getLast? = some cl →
        (e.m_cube.hash_index tl).adjacent (e.m_cube.hash_index cl) = true)) :
    ∃ e1 pushed, e.create specCube = some e1 ∧ e1.m_hypotheses = e.m_hypotheses ++ pushed ∧
      ∃ h ∈ pushed, h.hypothesis = TYPE_Plink ∧ h.trk_ID = trk ∧
        h.trk_link_ID = some cand := by
  obtain ⟨b1, b2, b3, b4, _, b6, b7⟩ := add_tracks_spec tracks _ e hbuild
  have htracks : e.m_tracks = tracks := by
    rw [b1]; simp [HypothesisEngine.new]
  have hne_of : ∀ t ∈ tracks, t.track ≠ [] := by
    intro t ht
    obtain ⟨last, hl, _⟩ := b6 t ht
    intro hnil
    rw [hnil] at hl
    simp at hl
  have hwf : e.WellFormed specCube := by
    apply wellFormed_spec
    · intro t ht; rw [htracks] at ht; exact hne_of t ht
    · intro p hp
      rcases b7 p hp with hp0 | hp0
      · simp [HypothesisEngine.new, specCube, HypercubeBin.new] at hp0
      · exact hne_of p.2 hp0
  have hdist : e.m_cube.dist_bin = e.m_params.dist_thresh := by
    rw [b2, b4]; try rfl
  have htime : e.m_cube.time_bin = e.m_params.time_thresh := by
    rw [b3, b4]; try rfl
  obtain ⟨e1, hcreate, hhyp, _⟩ := create_eq specCube e hwf
  refine ⟨e1, (e.rounds specCube).flatten, hcreate, hhyp, e.h_link trk cand, ?_, rfl, rfl, rfl⟩
  obtain ⟨tl, first, htl, hfirst, hdm, _, _, ht1, ht2, _⟩ := hc
  have hd : Real.sqrt ((tl.x - first.x) ^ 2 + (tl.y - first.y) ^ 2 + (tl.z - first.z) ^ 2)
      < e.m_params.dist_thresh := by
    have h0 := Real.sqrt_nonneg
      ((tl.x - first.x) ^ 2 + (tl.y - first.y) ^ 2 + (tl.z - first.z) ^ 2)
    have h1 : Real.sqrt ((tl.x - first.x) ^ 2 + (tl.y - first.y) ^ 2 + (tl.z - first.z) ^ 2)
        ≤ Real.sqrt ((tl.x - first.x) ^ 2 + (tl.y - first.y) ^ 2 + (tl.z - first.z) ^ 2)
          * (1 + 1 / 2 ^ 20) :=
      le_mul_of_one_le_right h0 (by norm_num)
    exact lt_of_le_of_lt h1 hdm
  obtain ⟨cl, hcl, hentry⟩ := b6 cand hcand
  have hadj : (e.m_cube.hash_index tl).adjacent (e.m_cube.hash_index cl) = true := by
    rcases hbucket with hb | hb
    · rw [hb first cl hfirst hcl]
      exact candidate_adjacent e.m_cube tl first (by rw [hdist]; exact hd) ht1
        (by rw [htime]; exact ht2)
    · exact hb tl cl htl hcl
  obtain ⟨cands, hget, hmem⟩ := mem_get_of_entry e.m_cube trk cand tl _ htl hentry hadj
    (fun h => hne h.symm)
  have hcands : e.candidates specCube trk = cands := by
    simp only [HypothesisEngine.candidates, specCube, hget, Option.getD_some]
  refine (mem_rounds_flatten specCube e _).mpr ⟨trk, by rw [htracks]; exact htrk, ?_⟩
  rw [hcands]
  refine (mem_track_hypotheses e trk cands _).mpr
    (Or.inr (Or.inr (Or.inr (Or.inr (Or.inl ⟨hallow, cand, hmem, ?_, rfl⟩)))))
  exact (accepts_iff e trk cand).mpr ⟨tl, first, htl, hfirst, hd, ht1, ht2⟩

theorem engineAB_clear_candidate : engineAB.is_clear_candidate trackA trackB := by
  refine ⟨{ ID := 1, x := 0, y := 0, z := 0, t := 10, dummy := false, label := 0 },
    { ID := 2, x := 1, y := 0, z := 0, t := 12, dummy := false, label := 0 }, rfl, rfl,
    ?_, ?_, ?_, by decide, ?_, by decide⟩
  · have : Real.sqrt (((0 : ℝ) - 1) ^ 2 + (0 - 0) ^ 2 + (0 - 0) ^ 2) = 1 := by
      rw [show ((0 : ℝ) - 1) ^ 2 + (0 - 0) ^ 2 + (0 - 0) ^ 2 = 1 by norm_num]
      exact Real.sqrt_one
    rw [this]
    show (1 : ℝ) * (1 + 1 / 2 ^ 20) < 5
    norm_num
  · show (1 : ℝ) / 2 ^ 100 ≤ 5
    norm_num
  · show (5 : ℝ) ≤ 2 ^ 100
    norm_num
  · show (((12 : Int) - 10 : Int) : ℝ) < 5
    norm_num

theorem trackB_one_bucket (first last : TrackObject ℝ) (hf : trackB.track.head? = some first)
    (hl : trackB.track.getLast? = some last) :
    engineAB.m_cube.hash_index last = engineAB.m_cube.hash_index first := by
  have h1 : first = last := by
    simp only [trackB, trackOf, List.head?_cons, List.getLast?_singleton,
      Option.some.injEq] at hf hl
    rw [← hf, ← hl]
  rw [h1]

theorem link_candidate_found_witness :
    (HypothesisEngine.new specCube 0 200 demoParams demoVolume).add_tracks specCube
      [trackA, trackB] = some engineAB ∧
    engineAB.hypothesis_allowed TYPE_Plink = true ∧ trackA.ID ≠ trackB.ID ∧
    engineAB.is_clear_candidate trackA trackB ∧
    ∃ e1 pushed, engineAB.create specCube = some e1 ∧
      e1.m_hypotheses = engineAB.m_hypotheses ++ pushed ∧
      ∃ h ∈ pushed, h.hypothesis = TYPE_Plink ∧ h.trk_ID = trackA ∧
        h.trk_link_ID = some trackB :=
  ⟨add_tracks_demo.1, by decide, by decide, engineAB_clear_candidate,
    link_candidate_found 0 200 demoParams demoVolume [trackA, trackB] engineAB
      add_tracks_demo.1
      (by decide) trackA trackB (List.mem_cons_self _ _)
      (List.mem_cons_of_mem _ (List.mem_cons_self _ _)) (by decide) engineAB_clear_candidate
      (Or.inl trackB_one_bucket)⟩

end IndexClaims

end BTrack

namespace BTrack

noncomputable section SafeLogClaims

theorem low_probability_pos : 0 < DEFAULT_LOW_PROBABILITY := by
  unfold DEFAULT_LOW_PROBABILITY
  norm_num

/-- C7 as stated fails: the positive number `1e-309` lies below `1e-308`, so
`safe_log` returns its logarithm, which is not `log (max 1e-309 1e-308)` and is
below `log 1e-308`. -/
theorem safe_log_below_floor :
    safe_log 1e-309 ≠ Real.log (max 1e-309 DEFAULT_LOW_PROBABILITY) ∧
    safe_log 1e-309 < Real.log DEFAULT_LOW_PROBABILITY := by
  have hpos : (0 : ℝ) < 1e-309 := by norm_num
  have hlt : (1e-309 : ℝ) < DEFAULT_LOW_PROBABILITY := by
    unfold DEFAULT_LOW_PROBABILITY
    norm_num
  have hval : safe_log 1e-309 = Real.log 1e-309 := by
    unfold safe_log
    rw [if_neg (not_le.mpr hpos)]
  have hlog : Real.log 1e-309 < Real.log DEFAULT_LOW_PROBABILITY := Real.log_lt_log hpos hlt
  refine ⟨?_, by rw [hval]; exact hlog⟩
  rw [hval, max_eq_right (le_of_lt hlt)]
  exact ne_of_lt hlog

/-- C7, amended: for every real `x` with `x ≤ 0` or `x ≥ 1e-308`,
`safe_log x = log (max x 1e-308)` and so `safe_log x ≥ log 1e-308`; for
`0 < x < 1e-308` the value is `log x`, below `log 1e-308`. -/
theorem safe_log_clamps (x : ℝ) (hx : x ≤ 0 ∨ DEFAULT_LOW_PROBABILITY ≤ x) :
    safe_log x = Real.log (max x DEFAULT_LOW_PROBABILITY) ∧
    Real.log DEFAULT_LOW_PROBABILITY ≤ safe_log x ∧
    ∀ y : ℝ, 0 < y → y < DEFAULT_LOW_PROBABILITY →
      safe_log y = Real.log y ∧ safe_log y < Real.log DEFAULT_LOW_PROBABILITY := by
  have hpos := low_probability_pos
  refine ⟨?_, ?_, ?_⟩
  · rcases hx with h | h
    · unfold safe_log
      rw [if_pos h, max_eq_right (le_trans h (le_of_lt hpos))]
    · unfold safe_log
      rw [if_neg (not_le.mpr (lt_of_lt_of_le hpos h)), max_eq_left h]
  · rcases hx with h | h
    · unfold safe_log
      rw [if_pos h]
    · unfold safe_log
      rw [if_neg (not_le.mpr (lt_of_lt_of_le hpos h))]
      exact Real.log_le_log hpos h
  · intro y hy hlt
    have hval : safe_log y = Real.log y := by
      unfold safe_log
      rw [if_neg (not_le.mpr hy)]
    exact ⟨hval, by rw [hval]; exact Real.log_lt_log hy hlt⟩

theorem safe_log_clamps_witness :
    ((0 : ℝ) ≤ 0 ∨ DEFAULT_LOW_PROBABILITY ≤ 0) ∧
    safe_log 0 = Real.log (max 0 DEFAULT_LOW_PROBABILITY) ∧
    Real.log DEFAULT_LOW_PROBABILITY ≤ safe_log 0 ∧
    ∀ y : ℝ, 0 < y → y < DEFAULT_LOW_PROBABILITY →
      safe_log y = Real.log y ∧ safe_log y < Real.log DEFAULT_LOW_PROBABILITY :=
  ⟨Or.inl (le_refl 0), safe_log_clamps 0 (Or.inl (le_refl 0))⟩

end SafeLogClaims

end BTrack

namespace BTrack

section DummyClaims

variable {R M : Type} [Add R]

/-- C11 as stated fails: `append_dummy` calls `append(dummy)` with the default
`update = true`, so the dummy observation is fed to the motion model.  Under a
model that counts its updates the state goes from 0 to 1, while
`append(d, false)` leaves it at 0. -/
theorem append_dummy_updates_model :
    countedTracklet.lost < MAX_LOST ∧ countedTracklet.motion_model = 0 ∧
    ∃ t1 t2, countedTracklet.append_dummy countingModel = some t1 ∧
      countedTracklet.append countingModel dummyOfObs0 false = some t2 ∧
      t1.track = countedTracklet.track ++ [dummyOfObs0] ∧
      t2.track = countedTracklet.track ++ [dummyOfObs0] ∧
      t1.motion_model = 1 ∧ t2.motion_model = 0 :=
  ⟨by decide, rfl, _, _, rfl, rfl, rfl, rfl, rfl, rfl⟩

/-- C11, amended: for every tracklet with `lost < MAX_LOST`, `append_dummy` has
exactly the effect of `append(d, update = true)`, where `d` is a copy of the
last observation (same label) with position `predict().mu`, `t = last.t + 1`,
`ID = 0` and `dummy = true`; the dummy observation is fed to the motion model,
whose state afterwards is `update` of the state before. -/
theorem append_dummy_is_append (ops : MotionModelOps R M) (t : Tracklet R M)
    (h : t.lost < MAX_LOST) (hne : t.track ≠ []) :
    ∃ last p mu0 mu1 mu2 d t1, t.track.getLast? = some last ∧ t.predict ops = some p ∧
      p.mu = [mu0, mu1, mu2] ∧
      d = { last with dummy := true, x := mu0, y := mu1, z := mu2, t := last.t + 1, ID := 0 } ∧
      d.label = last.label ∧
      t.append_dummy ops = t.append ops d true ∧ t.append_dummy ops = some t1 ∧
      t1.track = t.track ++ [d] ∧ t1.lost = t.lost + 1 ∧
      t1.motion_model = ops.update t.motion_model d := by
  obtain ⟨last, hlast⟩ : ∃ last, t.track.getLast? = some last := by
    cases hl : t.track.getLast? with
    | none => exact absurd (List.getLast?_eq_none_iff.mp hl) hne
    | some a => exact ⟨a, rfl⟩
  have hlt : ¬ t.lost ≥ MAX_LOST := Nat.not_le.mpr h
  let v := last.position.add (ops.get_motion_vector t.motion_model)
  let d : TrackObject R :=
    { last with dummy := true, x := v.x, y := v.y, z := v.z, t := last.t + 1, ID := 0 }
  obtain ⟨t1, h1, htr, _, _, hl, hm⟩ := append_spec ops t d true
  have heq : t.append_dummy ops = t.append ops d true := by
    simp only [Tracklet.append_dummy, hlt, if_false, Tracklet.predict, Tracklet.position, hlast,
      Option.map_some', Option.bind_eq_bind, Option.some_bind, Vec3.toList,
      append_update_default]
    rfl
  refine ⟨last, { mu := v.toList, covar := block33 (ops.predict t.motion_model).covar },
    v.x, v.y, v.z, d, t1, hlast, ?_, rfl, rfl, rfl, heq, ?_, htr, ?_, ?_⟩
  · simp [Tracklet.predict, Tracklet.position, hlast, v]
  · rw [heq]; exact h1
  · simpa [d] using hl
  · simpa using hm

theorem append_dummy_is_append_witness :
    countedTracklet.lost < MAX_LOST ∧ countedTracklet.track ≠ [] ∧
    ∃ last p mu0 mu1 mu2 d t1, countedTracklet.track.getLast? = some last ∧
      countedTracklet.predict countingModel = some p ∧
      p.mu = [mu0, mu1, mu2] ∧
      d = { last with dummy := true, x := mu0, y := mu1, z := mu2, t := last.t + 1, ID := 0 } ∧
      d.label = last.label ∧
      countedTracklet.append_dummy countingModel = countedTracklet.append countingModel d true ∧
      countedTracklet.append_dummy countingModel = some t1 ∧
      t1.track = countedTracklet.track ++ [d] ∧ t1.lost = countedTracklet.lost + 1 ∧
      t1.motion_model = countingModel.update countedTracklet.motion_model d :=
  ⟨by decide, List.cons_ne_nil _ _,
    append_dummy_is_append countingModel countedTracklet (by decide) (List.cons_ne_nil _ _)⟩

end DummyClaims

end BTrack

namespace BTrack

noncomputable section BorderClaims

variable {M C : Type}

theorem border_step_eq (volume : ImagingVolume) (xyz : Vec3 ℝ) (m : WithTop ℝ) (dim : Fin 3) :
    border_step volume xyz m dim = min (border_term volume xyz dim) m := by
  unfold border_step border_term
  by_cases hdeg : volume.min_xyz.coeff dim = volume.max_xyz.coeff dim
  · simp [hdeg]
  · simp only [hdeg, if_false]
    by_cases hlt : ((min (xyz.coeff dim - volume.min_xyz.coeff dim)
        (volume.max_xyz.coeff dim - xyz.coeff dim) : ℝ) : WithTop ℝ) < m
    · rw [if_pos hlt, min_eq_left (le_of_lt hlt)]
    · rw [if_neg hlt, min_eq_right (not_lt.mp hlt)]

theorem dist_from_border_eq (e : HypothesisEngine M C) (trk : Tracklet ℝ M) (a_start : Bool)
    (o : TrackObject ℝ)
    (ho : (if a_start then trk.track.head? else trk.track.getLast?) = some o) :
    e.dist_from_border trk a_start =
      some (min (border_term e.volume o.position 2)
        (min (border_term e.volume o.position 1) (border_term e.volume o.position 0))) := by
  cases a_start <;>
    simp only [Bool.false_eq_true, if_true, if_false] at ho <;>
    simp [HypothesisEngine.dist_from_border, ho, List.foldl, border_step_eq]

/-- C19: `dist_from_border` returns the minimum, over the dimensions with
`volume.min[d] ≠ volume.max[d]`, of `min(x[d] − volume.min[d], volume.max[d] − x[d])`,
where `x` is the position of the first (`a_start`) or the last observation: it
is below the value of every such dimension and equal to one of them; it is
`+∞` when all three dimensions are degenerate; and it is `≥ 0` whenever `x` lies
inside the volume. -/
theorem dist_from_border_is_min (e : HypothesisEngine M C) (trk : Tracklet ℝ M)
    (a_start : Bool) (o : TrackObject ℝ)
    (ho : (if a_start then trk.track.head? else trk.track.getLast?) = some o) :
    ∃ D, e.dist_from_border trk a_start = some D ∧
      (∀ dim : Fin 3, e.volume.min_xyz.coeff dim ≠ e.volume.max_xyz.coeff dim →
        D ≤ ((min (o.position.coeff dim - e.volume.min_xyz.coeff dim)
          (e.volume.max_xyz.coeff dim - o.position.coeff dim) : ℝ) : WithTop ℝ)) ∧
      ((∃ dim : Fin 3, e.volume.min_xyz.coeff dim ≠ e.volume.max_xyz.coeff dim ∧
          D = ((min (o.position.coeff dim - e.volume.min_xyz.coeff dim)
            (e.volume.max_xyz.coeff dim - o.position.coeff dim) : ℝ) : WithTop ℝ)) ∨
        ((∀ dim : Fin 3, e.volume.min_xyz.coeff dim = e.volume.max_xyz.coeff dim) ∧ D = ⊤)) ∧
      ((∀ dim : Fin 3, e.volume.min_xyz.coeff dim = e.volume.max_xyz.coeff dim) → D = ⊤) ∧
      ((∀ dim : Fin 3, e.volume.min_xyz.coeff dim ≤ o.position.coeff dim ∧
          o.position.coeff dim ≤ e.volume.max_xyz.coeff dim) → 0 ≤ D) := by
  refine ⟨_, dist_from_border_eq e trk a_start o ho, ?_, ?_, ?_, ?_⟩
  · intro dim hnd
    have hterm : border_term e.volume o.position dim =
        ((min (o.position.coeff dim - e.volume.min_xyz.coeff dim)
          (e.volume.max_xyz.coeff dim - o.position.coeff dim) : ℝ) : WithTop ℝ) := by
      simp [border_term, hnd]
    rw [← hterm]
    fin_cases dim
    · exact le_trans (min_le_right _ _) (min_le_right _ _)
    · exact le_trans (min_le_right _ _) (min_le_left _ _)
    · exact min_le_left _ _
  · have hchoice : ∃ dim : Fin 3,
        min (border_term e.volume o.position 2)
          (min (border_term e.volume o.position 1) (border_term e.volume o.position 0))
          = border_term e.volume o.position dim := by
      rcases min_choice (border_term e.volume o.position 2)
        (min (border_term e.volume o.position 1) (border_term e.volume o.position 0))
        with h | h
      · exact ⟨2, h⟩
      · rcases min_choice (border_term e.volume o.position 1)
          (border_term e.volume o.position 0) with h1 | h1
        · exact ⟨1, by rw [h, h1]⟩
        · exact ⟨0, by rw [h, h1]⟩
    obtain ⟨dim, hdim⟩ := hchoice
    by_cases hall : ∀ d : Fin 3, e.volume.min_xyz.coeff d = e.volume.max_xyz.coeff d
    · right
      refine ⟨hall, ?_⟩
      simp [border_term, hall]
    · left
      by_cases hnd : e.volume.min_xyz.coeff dim = e.volume.max_xyz.coeff dim
      · exfalso
        have htop : min (border_term e.volume o.position 2)
            (min (border_term e.volume o.position 1) (border_term e.volume o.position 0))
            = ⊤ := by
          rw [hdim]; simp [border_term, hnd]
        obtain ⟨j, hj⟩ := not_forall.mp hall
        have hle : min (border_term e.volume o.position 2)
            (min (border_term e.volume o.position 1) (border_term e.volume o.position 0))
            ≤ border_term e.volume o.position j := by
          fin_cases j
          · exact le_trans (min_le_right _ _) (min_le_right _ _)
          · exact le_trans (min_le_right _ _) (min_le_left _ _)
          · exact min_le_left _ _
        rw [htop] at hle
        have hjt : border_term e.volume o.position j < ⊤ := by
          simp only [border_term, hj, if_false]
          exact WithTop.coe_lt_top _
        exact absurd hle (not_le.mpr hjt)
      · refine ⟨dim, hnd, ?_⟩
        rw [hdim]
        simp [border_term, hnd]
  · intro hall
    simp [border_term, hall]
  · intro hin
    have hterm : ∀ dim : Fin 3, (0 : WithTop ℝ) ≤ border_term e.volume o.position dim := by
      intro dim
      unfold border_term
      split
      · exact le_top
      · have h1 := (hin dim).1
        have h2 := (hin dim).2
        have : (0 : ℝ) ≤ min (o.position.coeff dim - e.volume.min_xyz.coeff dim)
            (e.volume.max_xyz.coeff dim - o.position.coeff dim) :=
          le_min (by linarith) (by linarith)
        exact_mod_cast this
    exact le_min (hterm 2) (le_min (hterm 1) (hterm 0))

theorem dist_from_border_is_min_witness :
    (if true then trackA.track.head? else trackA.track.getLast?) = some obsA ∧
    ∃ D, emptyEngine.dist_from_border trackA true = some D ∧
      (∀ dim : Fin 3,
        emptyEngine.volume.min_xyz.coeff dim ≠ emptyEngine.volume.max_xyz.coeff dim →
        D ≤ ((min (obsA.position.coeff dim - emptyEngine.volume.min_xyz.coeff dim)
          (emptyEngine.volume.max_xyz.coeff dim - obsA.position.coeff dim) : ℝ)
          : WithTop ℝ)) ∧
      ((∃ dim : Fin 3,
          emptyEngine.volume.min_xyz.coeff dim ≠ emptyEngine.volume.max_xyz.coeff dim ∧
          D = ((min (obsA.position.coeff dim - emptyEngine.volume.min_xyz.coeff dim)
            (emptyEngine.volume.max_xyz.coeff dim - obsA.position.coeff dim) : ℝ)
            : WithTop ℝ)) ∨
        ((∀ dim : Fin 3,
          emptyEngine.volume.min_xyz.coeff dim = emptyEngine.volume.max_xyz.coeff dim) ∧
          D = ⊤)) ∧
      ((∀ dim : Fin 3,
          emptyEngine.volume.min_xyz.coeff dim = emptyEngine.volume.max_xyz.coeff dim) →
        D = ⊤) ∧
      ((∀ dim : Fin 3,
          emptyEngine.volume.min_xyz.coeff dim ≤ obsA.position.coeff dim ∧
          obsA.position.coeff dim ≤ emptyEngine.volume.max_xyz.coeff dim) → 0 ≤ D) :=
  ⟨rfl, dist_from_border_is_min emptyEngine trackA true obsA rfl⟩

end BorderClaims

end BTrack

namespace BTrack

noncomputable section LinkClaims

variable {M C : Type}

theorem P_link_forbidden (e : HypothesisEngine M C) (trk cand : Tracklet ℝ M)
    (back front : TrackObject ℝ) (hb : trk.track.getLast? = some back)
    (hf : cand.track.head? = some front)
    (hlab : back.label = STATE_metaphase ∧ front.label = STATE_anaphase) (d dt : ℝ) :
    e.P_link trk cand d dt = some e.m_params.eta := by
  simp only [HypothesisEngine.P_link, hb, hf, Option.bind_eq_bind, Option.some_bind, hlab,
    and_self, if_true]

theorem P_link_plain (e : HypothesisEngine M C) (trk cand : Tracklet ℝ M)
    (back front : TrackObject ℝ) (hb : trk.track.getLast? = some back)
    (hf : cand.track.head? = some front)
    (hlab : ¬ (back.label = STATE_metaphase ∧ front.label = STATE_anaphase)) (d dt : ℝ)
    (hdt : dt > 0) :
    e.P_link trk cand d dt = some (Real.exp (-(d * dt) / e.m_params.lambda_link)) := by
  have hpos : dt > 0.0 := by norm_num; exact hdt
  simp only [HypothesisEngine.P_link, hb, hf, Option.bind_eq_bind, Option.some_bind, hlab,
    if_false, hpos, if_true]

/-- C12: `P_link(trk, cand, d, dt)` returns exactly `eta` whenever the last
label of `trk` is metaphase and the first label of `cand` is anaphase, for
every `d` and `dt`; for every other label pair and `dt > 0` it returns
`exp(-(d*dt)/lambda_link)`, so `exp(-2/lambda_link)` at `d = 1`, `dt = 2`. -/
theorem P_link_value (e : HypothesisEngine M C) (trk cand : Tracklet ℝ M)
    (back front : TrackObject ℝ) (hb : trk.track.getLast? = some back)
    (hf : cand.track.head? = some front) :
    (back.label = STATE_metaphase ∧ front.label = STATE_anaphase →
      ∀ d dt : ℝ, e.P_link trk cand d dt = some e.m_params.eta) ∧
    (¬ (back.label = STATE_metaphase ∧ front.label = STATE_anaphase) →
      (∀ d dt : ℝ, dt > 0 →
        e.P_link trk cand d dt = some (Real.exp (-(d * dt) / e.m_params.lambda_link))) ∧
      e.P_link trk cand 1 2 = some (Real.exp (-2 / e.m_params.lambda_link))) := by
  refine ⟨fun hlab d dt => P_link_forbidden e trk cand back front hb hf hlab d dt, ?_⟩
  intro hlab
  refine ⟨fun d dt hdt => P_link_plain e trk cand back front hb hf hlab d dt hdt, ?_⟩
  rw [P_link_plain e trk cand back front hb hf hlab 1 2 (by norm_num)]
  norm_num

theorem P_link_value_witness :
    trackA.track.getLast? = some obsA ∧
    trackB.track.head?
      = some { ID := 2, x := 1, y := 0, z := 0, t := 12, dummy := false, label := 0 } ∧
    (obsA.label = STATE_metaphase ∧ (0 : Nat) = STATE_anaphase →
      ∀ d dt : ℝ, engineAB.P_link trackA trackB d dt = some engineAB.m_params.eta) ∧
    (¬ (obsA.label = STATE_metaphase ∧ (0 : Nat) = STATE_anaphase) →
      (∀ d dt : ℝ, dt > 0 →
        engineAB.P_link trackA trackB d dt
          = some (Real.exp (-(d * dt) / engineAB.m_params.lambda_link))) ∧
      engineAB.P_link trackA trackB 1 2
        = some (Real.exp (-2 / engineAB.m_params.lambda_link))) :=
  ⟨rfl, rfl, P_link_value engineAB trackA trackB obsA _ rfl rfl⟩

/-- C13 as stated fails: at distance `d = 0` the link probability of a
non-forbidden pair is `exp 0 = 1` for every `dt`, so increasing `dt` from 1 to
2 does not decrease it. -/
theorem P_link_flat_at_zero_distance :
    ¬ (obsA.label = STATE_metaphase) ∧ 0 < engineAB.m_params.lambda_link ∧
    ∃ p p1, engineAB.P_link trackA trackB 0 1 = some p ∧
      engineAB.P_link trackA trackB 0 2 = some p1 ∧ p = 1 ∧ p1 = 1 ∧ ¬ p1 < p := by
  have h : ∀ dt : ℝ, dt > 0 → engineAB.P_link trackA trackB 0 dt
      = some (Real.exp (-(0 * dt) / engineAB.m_params.lambda_link)) :=
    fun dt hdt => P_link_plain engineAB trackA trackB obsA _ rfl rfl
      (by intro hx; exact absurd hx.1 (by decide)) 0 dt hdt
  refine ⟨by decide, ?_, 1, 1, ?_, ?_, rfl, rfl, lt_irrefl 1⟩
  · show (0 : ℝ) < 5
    norm_num
  · rw [h 1 (by norm_num)]; simp
  · rw [h 2 (by norm_num)]; simp

/-- C13, amended: for a non-forbidden pair and `lambda_link > 0`, with
everything else fixed, `P_link` does not increase when `d` increases (for
every `dt > 0`) nor when `dt` increases (for every `d ≥ 0`); at `d = 0` it is
1 for every `dt > 0`, so the decrease is not strict. -/
theorem P_link_non_increasing (e : HypothesisEngine M C) (trk cand : Tracklet ℝ M)
    (back front : TrackObject ℝ) (hb : trk.track.getLast? = some back)
    (hf : cand.track.head? = some front)
    (hlab : ¬ (back.label = STATE_metaphase ∧ front.label = STATE_anaphase))
    (hlam : 0 < e.m_params.lambda_link) :
    (∀ d d1 dt : ℝ, 0 < dt → d ≤ d1 →
      ∃ p p1, e.P_link trk cand d dt = some p ∧ e.P_link trk cand d1 dt = some p1 ∧ p1 ≤ p) ∧
    (∀ d dt dt1 : ℝ, 0 ≤ d → 0 < dt → dt ≤ dt1 →
      ∃ p p1, e.P_link trk cand d dt = some p ∧ e.P_link trk cand d dt1 = some p1 ∧ p1 ≤ p) ∧
    (∀ dt : ℝ, 0 < dt → e.P_link trk cand 0 dt = some 1) := by
  have h := P_link_plain e trk cand back front hb hf hlab
  refine ⟨?_, ?_, ?_⟩
  · intro d d1 dt hdt hd
    refine ⟨_, _, h d dt hdt, h d1 dt hdt, ?_⟩
    apply Real.exp_le_exp.mpr
    apply div_le_div_of_nonneg_right _ (le_of_lt hlam)
    have : d * dt ≤ d1 * dt := mul_le_mul_of_nonneg_right hd (le_of_lt hdt)
    linarith
  · intro d dt dt1 hd hdt hle
    refine ⟨_, _, h d dt hdt, h d dt1 (lt_of_lt_of_le hdt hle), ?_⟩
    apply Real.exp_le_exp.mpr
    apply div_le_div_of_nonneg_right _ (le_of_lt hlam)
    have : d * dt ≤ d * dt1 := mul_le_mul_of_nonneg_left hle hd
    linarith
  · intro dt hdt
    rw [h 0 dt hdt]
    simp

theorem P_link_non_increasing_witness :
    trackA.track.getLast? = some obsA ∧
    ¬ (obsA.label = STATE_metaphase ∧ (0 : Nat) = STATE_anaphase) ∧
    0 < engineAB.m_params.lambda_link ∧
    (∀ d d1 dt : ℝ, 0 < dt → d ≤ d1 →
      ∃ p p1, engineAB.P_link trackA trackB d dt = some p ∧
        engineAB.P_link trackA trackB d1 dt = some p1 ∧ p1 ≤ p) ∧
    (∀ d dt dt1 : ℝ, 0 ≤ d → 0 < dt → dt ≤ dt1 →
      ∃ p p1, engineAB.P_link trackA trackB d dt = some p ∧
        engineAB.P_link trackA trackB d dt1 = some p1 ∧ p1 ≤ p) ∧
    (∀ dt : ℝ, 0 < dt → engineAB.P_link trackA trackB 0 dt = some 1) :=
  have hlab : ¬ (obsA.label = STATE_metaphase ∧ (0 : Nat) = STATE_anaphase) :=
    fun hx => absurd hx.1 (by decide)
  have hlam : (0 : ℝ) < engineAB.m_params.lambda_link := by
    show (0 : ℝ) < 5
    norm_num
  ⟨rfl, hlab, hlam,
    P_link_non_increasing engineAB trackA trackB obsA _ rfl rfl hlab hlam⟩

end LinkClaims

end BTrack

namespace BTrack

noncomputable section DeadClaims

variable {M C : Type}

theorem P_dead_eq (e : HypothesisEngine M C) (trk : Tracklet ℝ M) (dist : WithTop ℝ)
    (hd : e.dist_from_border trk false = some dist) (n : Nat) :
    e.P_dead trk n = some ((1 - e.m_params.apoptosis_rate ^ n)
      * (1 - exp_neg_div dist e.m_params.lambda_dist)) := by
  simp only [HypothesisEngine.P_dead, hd, Option.bind_eq_bind, Option.some_bind]
  norm_num

theorem exp_neg_div_bounds (dist : WithTop ℝ) (lam : ℝ) :
    0 ≤ exp_neg_div dist lam ∧
    (0 < lam → 0 ≤ dist → exp_neg_div dist lam ≤ 1) ∧
    (∀ d1 : WithTop ℝ, 0 < lam → d1 ≤ dist → exp_neg_div dist lam ≤ exp_neg_div d1 lam) := by
  have hnn : ∀ d : WithTop ℝ, 0 ≤ exp_neg_div d lam := by
    intro d
    cases d with
    | top => exact le_refl 0
    | coe x => exact le_of_lt (Real.exp_pos _)
  refine ⟨hnn dist, ?_, ?_⟩
  · intro hlam hd
    cases dist with
    | top => simp [exp_neg_div]
    | coe d =>
      have hd0 : 0 ≤ d := by exact_mod_cast hd
      show Real.exp (-d / lam) ≤ 1
      have hneg : -d / lam ≤ 0 :=
        div_nonpos_of_nonpos_of_nonneg (by linarith) (le_of_lt hlam)
      calc Real.exp (-d / lam) ≤ Real.exp 0 := Real.exp_le_exp.mpr hneg
        _ = 1 := Real.exp_zero
  · intro d1 hlam h
    cases dist with
    | top => exact hnn d1
    | coe x =>
      cases d1 with
      | top => simp at h
      | coe x1 =>
        have hx : x1 ≤ x := by exact_mod_cast h
        show Real.exp (-x / lam) ≤ Real.exp (-x1 / lam)
        apply Real.exp_le_exp.mpr
        apply div_le_div_of_nonneg_right _ (le_of_lt hlam)
        linarith

theorem trackE_on_border : emptyEngine.dist_from_border trackE false = some 0 := by
  rw [dist_from_border_eq emptyEngine trackE false
    { ID := 20, x := 100, y := 0, z := 0, t := 10, dummy := false, label := 0 } rfl]
  have h0 : border_term emptyEngine.volume
      (TrackObject.position
        { ID := 20, x := 100, y := 0, z := 0, t := 10, dummy := false, label := 0 }) 0
      = ((0 : ℝ) : WithTop ℝ) := by
    simp [border_term, emptyEngine, HypothesisEngine.new, demoVolume, Vec3.coeff,
      TrackObject.position]
    norm_num
  have h1 : border_term emptyEngine.volume
      (TrackObject.position
        { ID := 20, x := 100, y := 0, z := 0, t := 10, dummy := false, label := 0 }) 1
      = ((100 : ℝ) : WithTop ℝ) := by
    simp [border_term, emptyEngine, HypothesisEngine.new, demoVolume, Vec3.coeff,
      TrackObject.position]
    norm_num
  have h2 : border_term emptyEngine.volume
      (TrackObject.position
        { ID := 20, x := 100, y := 0, z := 0, t := 10, dummy := false, label := 0 }) 2
      = ((100 : ℝ) : WithTop ℝ) := by
    simp [border_term, emptyEngine, HypothesisEngine.new, demoVolume, Vec3.coeff,
      TrackObject.position]
    norm_num
  rw [h0, h1, h2]
  have hle : ((0 : ℝ) : WithTop ℝ) ≤ ((100 : ℝ) : WithTop ℝ) := by
    exact_mod_cast (by norm_num : (0 : ℝ) ≤ 100)
  rw [min_eq_right hle, min_eq_right hle]
  rfl

/-- C14 as stated fails: tracklet E ends on a face of the volume, its border
distance is 0, the discount `1 − exp(−0/lambda_dist)` is 0, and `P_dead` is 0
for one as for two trailing apoptosis labels. -/
theorem P_dead_flat_on_border :
    0 < emptyEngine.m_params.apoptosis_rate ∧ emptyEngine.m_params.apoptosis_rate < 1 ∧
    0 < emptyEngine.m_params.lambda_dist ∧
    ∃ p p1, emptyEngine.P_dead trackE 1 = some p ∧ emptyEngine.P_dead trackE 2 = some p1 ∧
      p = 0 ∧ p1 = 0 ∧ ¬ p < p1 := by
  have hexp : exp_neg_div 0 emptyEngine.m_params.lambda_dist = 1 := by
    show Real.exp (-0 / emptyEngine.m_params.lambda_dist) = 1
    simp
  refine ⟨?_, ?_, ?_, 0, 0, ?_, ?_, rfl, rfl, lt_irrefl 0⟩
  · show (0 : ℝ) < 1 / 1000
    norm_num
  · show (1 / 1000 : ℝ) < 1
    norm_num
  · show (0 : ℝ) < 5
    norm_num
  · rw [P_dead_eq emptyEngine trackE 0 trackE_on_border 1, hexp]; simp
  · rw [P_dead_eq emptyEngine trackE 0 trackE_on_border 2, hexp]; simp

/-- C14, amended: for `0 < apoptosis_rate < 1` and counts `n ≤ n'`,
`1 − apoptosis_rate^n ≤ 1 − apoptosis_rate^n'`; and for `lambda_dist > 0`
`P_dead(trk, n) ≤ P_dead(trk, n')` whenever the last observation of the
tracklet is inside the volume or on its border (`d_stop ≥ 0`): `P_dead` does
not decrease with the count.  On the border (`d_stop = 0`) it is 0 for every
count, so the increase is not strict. -/
theorem P_dead_non_decreasing (e : HypothesisEngine M C) (trk : Tracklet ℝ M)
    (dist : WithTop ℝ) (hd : e.dist_from_border trk false = some dist)
    (hr0 : 0 < e.m_params.apoptosis_rate) (hr1 : e.m_params.apoptosis_rate < 1)
    (hlam : 0 < e.m_params.lambda_dist) (n n1 : Nat) (hn : n ≤ n1) :
    1 - e.m_params.apoptosis_rate ^ n ≤ 1 - e.m_params.apoptosis_rate ^ n1 ∧
    (0 ≤ dist → ∃ p p1, e.P_dead trk n = some p ∧ e.P_dead trk n1 = some p1 ∧ p ≤ p1) ∧
    (dist = 0 → e.P_dead trk n = some 0) := by
  have hpow : e.m_params.apoptosis_rate ^ n1 ≤ e.m_params.apoptosis_rate ^ n :=
    pow_le_pow_of_le_one (le_of_lt hr0) (le_of_lt hr1) hn
  have h1 : 1 - e.m_params.apoptosis_rate ^ n ≤ 1 - e.m_params.apoptosis_rate ^ n1 := by
    linarith
  refine ⟨h1, ?_, ?_⟩
  · intro hpos
    have hdisc : 0 ≤ 1 - exp_neg_div dist e.m_params.lambda_dist := by
      have := (exp_neg_div_bounds dist e.m_params.lambda_dist).2.1 hlam hpos
      linarith
    exact ⟨_, _, P_dead_eq e trk dist hd n, P_dead_eq e trk dist hd n1,
      mul_le_mul_of_nonneg_right h1 hdisc⟩
  · intro h0
    have hexp : exp_neg_div 0 e.m_params.lambda_dist = 1 := by
      show Real.exp (-0 / e.m_params.lambda_dist) = 1
      simp
    rw [P_dead_eq e trk dist hd n, h0, hexp]
    simp

theorem trackA_inside : emptyEngine.dist_from_border trackA false = some 100 := by
  rw [dist_from_border_eq emptyEngine trackA false obsA rfl]
  have h : ∀ dim : Fin 3, border_term emptyEngine.volume obsA.position dim
      = ((100 : ℝ) : WithTop ℝ) := by
    intro dim
    fin_cases dim <;>
      simp [border_term, emptyEngine, HypothesisEngine.new, demoVolume, Vec3.coeff,
        TrackObject.position, obsA] <;> norm_num
  rw [h 0, h 1, h 2, min_self, min_self]
  rfl

theorem P_dead_non_decreasing_witness :
    emptyEngine.dist_from_border trackA false = some 100 ∧
    0 < emptyEngine.m_params.apoptosis_rate ∧ emptyEngine.m_params.apoptosis_rate < 1 ∧
    0 < emptyEngine.m_params.lambda_dist ∧ 1 ≤ 3 ∧
    1 - emptyEngine.m_params.apoptosis_rate ^ 1 ≤ 1 - emptyEngine.m_params.apoptosis_rate ^ 3 ∧
    ((0 : WithTop ℝ) ≤ 100 →
      ∃ p p1, emptyEngine.P_dead trackA 1 = some p ∧ emptyEngine.P_dead trackA 3 = some p1 ∧
        p ≤ p1) ∧
    ((100 : WithTop ℝ) = 0 → emptyEngine.P_dead trackA 1 = some 0) :=
  have hr0 : (0 : ℝ) < emptyEngine.m_params.apoptosis_rate := by
    show (0 : ℝ) < 1 / 1000
    norm_num
  have hr1 : emptyEngine.m_params.apoptosis_rate < 1 := by
    show (1 / 1000 : ℝ) < 1
    norm_num
  have hlam : (0 : ℝ) < emptyEngine.m_params.lambda_dist := by
    show (0 : ℝ) < 5
    norm_num
  ⟨trackA_inside, hr0, hr1, hlam, by decide,
    P_dead_non_decreasing emptyEngine trackA 100 trackA_inside hr0 hr1 hlam 1 3
      (by decide)⟩

end DeadClaims

end BTrack

namespace BTrack

noncomputable section InitTermLemmas

variable {M C : Type}

theorem P_init_eq (e : HypothesisEngine M C) (trk : Tracklet ℝ M) (front : TrackObject ℝ)
    (dist : WithTop ℝ) (hf : trk.track.head? = some front)
    (hd : e.dist_from_border trk true = some dist) :
    e.P_init trk = some
      (if (front.t : ℝ) < (e.m_frame_range.1 : ℝ) + e.m_params.theta_time ∨
          (dist < (e.m_params.theta_dist : WithTop ℝ) ∨ e.m_params.relax = true) then
        max (if (front.t : ℝ) < (e.m_frame_range.1 : ℝ) + e.m_params.theta_time then
              Real.exp (-((front.t : ℝ) - (e.m_frame_range.1 : ℝ) + 1) / e.m_params.lambda_time)
            else 0)
          (if dist < (e.m_params.theta_dist : WithTop ℝ) ∨ e.m_params.relax = true then
              exp_neg_div dist e.m_params.lambda_dist
            else 0)
      else e.m_params.eta) := by
  simp only [HypothesisEngine.P_init, hf, hd, Option.bind_eq_bind, Option.some_bind]
  by_cases c1 : (front.t : ℝ) < (e.m_frame_range.1 : ℝ) + e.m_params.theta_time <;>
    by_cases c2 : (dist < (e.m_params.theta_dist : WithTop ℝ) ∨ e.m_params.relax = true) <;>
    simp [c1, c2] <;> norm_num

theorem P_term_eq (e : HypothesisEngine M C) (trk : Tracklet ℝ M) (back : TrackObject ℝ)
    (dist : WithTop ℝ) (hb : trk.track.getLast? = some back)
    (hd : e.dist_from_border trk false = some dist) :
    e.P_term trk = some
      (if ((unsigned_sub (e.m_frame_range.2 : Int) back.t : Int) : ℝ)
            < e.m_params.theta_time ∨
          (dist < (e.m_params.theta_dist : WithTop ℝ) ∨ e.m_params.relax = true) then
        max (if ((unsigned_sub (e.m_frame_range.2 : Int) back.t : Int) : ℝ)
                < e.m_params.theta_time then
              Real.exp (-((e.m_frame_range.2 : ℝ) - (back.t : ℝ)) / e.m_params.lambda_time)
            else 0)
          (if dist < (e.m_params.theta_dist : WithTop ℝ) ∨ e.m_params.relax = true then
              exp_neg_div dist e.m_params.lambda_dist
            else 0)
      else e.m_params.eta) := by
  simp only [HypothesisEngine.P_term, hb, hd, Option.bind_eq_bind, Option.some_bind]
  by_cases c1 : ((unsigned_sub (e.m_frame_range.2 : Int) back.t : Int) : ℝ)
      < e.m_params.theta_time <;>
    by_cases c2 : (dist < (e.m_params.theta_dist : WithTop ℝ) ∨ e.m_params.relax = true) <;>
    simp [c1, c2] <;> norm_num

theorem dist_origin_demoVolume (e : HypothesisEngine M C) (hv : e.volume = demoVolume)
    (trk : Tracklet ℝ M) (a_start : Bool) (o : TrackObject ℝ)
    (ho : (if a_start then trk.track.head? else trk.track.getLast?) = some o)
    (hx : o.x = 0) (hy : o.y = 0) (hz : o.z = 0) :
    e.dist_from_border trk a_start = some 100 := by
  rw [dist_from_border_eq e trk a_start o ho]
  have h : ∀ dim : Fin 3, border_term e.volume o.position dim = ((100 : ℝ) : WithTop ℝ) := by
    intro dim
    fin_cases dim <;>
      simp [border_term, hv, demoVolume, Vec3.coeff, TrackObject.position, hx, hy, hz] <;>
      norm_num
  rw [h 0, h 1, h 2, min_self, min_self]
  rfl

theorem exp_neg_fifth_lt : Real.exp (-(1 : ℝ) / 5) < 9 / 10 := by
  have h1 : (1 : ℝ) / 5 + 1 ≤ Real.exp (1 / 5) := Real.add_one_le_exp _
  have h2 : Real.exp (-(1 : ℝ) / 5) = (Real.exp (1 / 5))⁻¹ := by
    rw [← Real.exp_neg]; congr 1; ring
  rw [h2]
  have hpos : (0 : ℝ) < Real.exp (1 / 5) := Real.exp_pos _
  rw [inv_lt_comm₀ hpos (by norm_num)]
  have : ((9 : ℝ) / 10)⁻¹ < 1 / 5 + 1 := by norm_num
  linarith

end InitTermLemmas

end BTrack

namespace BTrack

noncomputable section InitClaims

variable {M C : Type}

/-- C15 as stated fails: with `eta = 9/10`, tracklet A starts in frame 10,
outside the first `theta_time = 5` frames and 100 units from the border, so
`P_init` falls back to `eta = 9/10`; tracklet S starts at the same place in
frame 0, closer to `start = 0`, and gets `exp(-1/5)`, which is smaller. -/
theorem P_init_drops_below_eta :
    0 < etaEngine.m_params.lambda_time ∧ 0 < etaEngine.m_params.lambda_dist ∧
    0 < etaEngine.m_params.eta ∧ etaEngine.m_params.eta < 1 ∧
    etaEngine.dist_from_border trackA true = some 100 ∧
    etaEngine.dist_from_border trackS true = some 100 ∧
    ∃ p p1, etaEngine.P_init trackA = some p ∧ etaEngine.P_init trackS = some p1 ∧
      p = 9 / 10 ∧ p1 = Real.exp (-1 / 5) ∧ p1 < p := by
  have hdA : etaEngine.dist_from_border trackA true = some 100 :=
    dist_origin_demoVolume etaEngine rfl trackA true obsA rfl rfl rfl rfl
  have hdS : etaEngine.dist_from_border trackS true = some 100 :=
    dist_origin_demoVolume etaEngine rfl trackS true
      { ID := 21, x := 0, y := 0, z := 0, t := 0, dummy := false, label := 0 } rfl rfl rfl rfl
  have hfar : ¬ ((100 : WithTop ℝ) < ((5 : ℝ) : WithTop ℝ)) := by
    have : ((5 : ℝ) : WithTop ℝ) ≤ ((100 : ℝ) : WithTop ℝ) := by
      exact_mod_cast (by norm_num : (5 : ℝ) ≤ 100)
    exact not_lt.mpr this
  have hA : etaEngine.P_init trackA = some (9 / 10) := by
    rw [P_init_eq etaEngine trackA obsA 100 rfl hdA]
    have c1 : ¬ ((obsA.t : ℝ) < (etaEngine.m_frame_range.1 : ℝ)
        + etaEngine.m_params.theta_time) := by
      show ¬ (((10 : Int) : ℝ) < ((0 : Nat) : ℝ) + 5)
      norm_num
    have c2 : ¬ ((100 : WithTop ℝ) < (etaEngine.m_params.theta_dist : WithTop ℝ) ∨
        etaEngine.m_params.relax = true) := by
      intro h
      rcases h with h | h
      · exact hfar h
      · exact absurd h (by decide)
    rw [if_neg (not_or.mpr ⟨c1, c2⟩)]
    rfl
  have hS : etaEngine.P_init trackS = some (Real.exp (-1 / 5)) := by
    rw [P_init_eq etaEngine trackS
      { ID := 21, x := 0, y := 0, z := 0, t := 0, dummy := false, label := 0 } 100 rfl hdS]
    have c1 : (((0 : Int) : ℝ) < (etaEngine.m_frame_range.1 : ℝ)
        + etaEngine.m_params.theta_time) := by
      show (((0 : Int) : ℝ) < ((0 : Nat) : ℝ) + 5)
      norm_num
    have c2 : ¬ ((100 : WithTop ℝ) < (etaEngine.m_params.theta_dist : WithTop ℝ) ∨
        etaEngine.m_params.relax = true) := by
      intro h
      rcases h with h | h
      · exact hfar h
      · exact absurd h (by decide)
    rw [if_pos (Or.inl c1), if_pos c1, if_neg c2]
    have hval : Real.exp (-(((0 : Int) : ℝ) - (etaEngine.m_frame_range.1 : ℝ) + 1)
        / etaEngine.m_params.lambda_time) = Real.exp (-1 / 5) := by
      show Real.exp (-(((0 : Int) : ℝ) - ((0 : Nat) : ℝ) + 1) / 5) = Real.exp (-1 / 5)
      norm_num
    rw [hval, max_eq_left (le_of_lt (Real.exp_pos _))]
  refine ⟨?_, ?_, ?_, ?_, hdA, hdS, _, _, hA, hS, rfl, rfl, exp_neg_fifth_lt⟩
  · show (0 : ℝ) < 5
    norm_num
  · show (0 : ℝ) < 5
    norm_num
  · show (0 : ℝ) < 9 / 10
    norm_num
  · show (9 / 10 : ℝ) < 1
    norm_num

/-- C15, amended: with `lambda_time > 0` and `lambda_dist > 0`, `P_init` does
not decrease when the first frame moves towards `start` and the border
distance `d_start` moves towards zero (either one with the other held fixed, or
both), provided `P_init` does not fall back to `eta` at the farther point, that
is, its first frame is within `theta_time` of `start`, or its `d_start` is below
`theta_dist`, or `relax` is set. -/
theorem P_init_monotone (e : HypothesisEngine M C) (trk trk1 : Tracklet ℝ M)
    (front front1 : TrackObject ℝ) (d d1 : WithTop ℝ)
    (hf : trk.track.head? = some front) (hf1 : trk1.track.head? = some front1)
    (hd : e.dist_from_border trk true = some d)
    (hd1 : e.dist_from_border trk1 true = some d1)
    (hlt : 0 < e.m_params.lambda_time) (hld : 0 < e.m_params.lambda_dist)
    (hinit : (front.t : ℝ) < (e.m_frame_range.1 : ℝ) + e.m_params.theta_time ∨
      (d < (e.m_params.theta_dist : WithTop ℝ) ∨ e.m_params.relax = true))
    (ht : front1.t ≤ front.t) (hdd : d1 ≤ d) :
    ∃ p p1, e.P_init trk = some p ∧ e.P_init trk1 = some p1 ∧ p ≤ p1 := by
  have htr : (front1.t : ℝ) ≤ (front.t : ℝ) := by exact_mod_cast ht
  have c1imp : (front.t : ℝ) < (e.m_frame_range.1 : ℝ) + e.m_params.theta_time →
      (front1.t : ℝ) < (e.m_frame_range.1 : ℝ) + e.m_params.theta_time :=
    fun h => lt_of_le_of_lt htr h
  have c2imp : (d < (e.m_params.theta_dist : WithTop ℝ) ∨ e.m_params.relax = true) →
      (d1 < (e.m_params.theta_dist : WithTop ℝ) ∨ e.m_params.relax = true) := by
    rintro (h | h)
    · exact Or.inl (lt_of_le_of_lt hdd h)
    · exact Or.inr h
  have hinit1 : (front1.t : ℝ) < (e.m_frame_range.1 : ℝ) + e.m_params.theta_time ∨
      (d1 < (e.m_params.theta_dist : WithTop ℝ) ∨ e.m_params.relax = true) := by
    rcases hinit with h | h
    · exact Or.inl (c1imp h)
    · exact Or.inr (c2imp h)
  refine ⟨_, _, P_init_eq e trk front d hf hd, P_init_eq e trk1 front1 d1 hf1 hd1, ?_⟩
  rw [if_pos hinit, if_pos hinit1]
  apply max_le_max
  · by_cases c1 : (front.t : ℝ) < (e.m_frame_range.1 : ℝ) + e.m_params.theta_time
    · rw [if_pos c1, if_pos (c1imp c1)]
      apply Real.exp_le_exp.mpr
      apply div_le_div_of_nonneg_right _ (le_of_lt hlt)
      linarith
    · rw [if_neg c1]
      split
      · exact le_of_lt (Real.exp_pos _)
      · exact le_refl 0
  · by_cases c2 : (d < (e.m_params.theta_dist : WithTop ℝ) ∨ e.m_params.relax = true)
    · rw [if_pos c2, if_pos (c2imp c2)]
      exact (exp_neg_div_bounds d _).2.2 d1 hld hdd
    · rw [if_neg c2]
      split
      · exact (exp_neg_div_bounds _ _).1
      · exact le_refl 0

theorem P_init_monotone_witness :
    emptyEngine.dist_from_border trackN true = some 100 ∧
    emptyEngine.dist_from_border trackS true = some 100 ∧
    0 < emptyEngine.m_params.lambda_time ∧ 0 < emptyEngine.m_params.lambda_dist ∧
    (((3 : Int) : ℝ) < (emptyEngine.m_frame_range.1 : ℝ) + emptyEngine.m_params.theta_time ∨
      ((100 : WithTop ℝ) < (emptyEngine.m_params.theta_dist : WithTop ℝ) ∨
        emptyEngine.m_params.relax = true)) ∧
    (0 : Int) ≤ 3 ∧ (100 : WithTop ℝ) ≤ 100 ∧
    ∃ p p1, emptyEngine.P_init trackN = some p ∧ emptyEngine.P_init trackS = some p1 ∧
      p ≤ p1 :=
  have hdN : emptyEngine.dist_from_border trackN true = some 100 :=
    dist_origin_demoVolume emptyEngine rfl trackN true
      { ID := 23, x := 0, y := 0, z := 0, t := 3, dummy := false, label := 0 } rfl rfl rfl rfl
  have hdS : emptyEngine.dist_from_border trackS true = some 100 :=
    dist_origin_demoVolume emptyEngine rfl trackS true
      { ID := 21, x := 0, y := 0, z := 0, t := 0, dummy := false, label := 0 } rfl rfl rfl rfl
  have hlam : (0 : ℝ) < 5 := by norm_num
  have hinit : (((3 : Int) : ℝ) < (emptyEngine.m_frame_range.1 : ℝ)
      + emptyEngine.m_params.theta_time) ∨
      ((100 : WithTop ℝ) < (emptyEngine.m_params.theta_dist : WithTop ℝ) ∨
        emptyEngine.m_params.relax = true) :=
    Or.inl (by show (((3 : Int) : ℝ) < ((0 : Nat) : ℝ) + 5); norm_num)
  ⟨hdN, hdS, hlam, hlam, hinit, by decide, le_refl _,
    P_init_monotone emptyEngine trackN trackS
      { ID := 23, x := 0, y := 0, z := 0, t := 3, dummy := false, label := 0 }
      { ID := 21, x := 0, y := 0, z := 0, t := 0, dummy := false, label := 0 }
      100 100 rfl rfl hdN hdS hlam hlam hinit (by decide) (le_refl _)⟩

end InitClaims

end BTrack

namespace BTrack

noncomputable section StartClaims

variable {M C : Type}

theorem P_init_at_start (e : HypothesisEngine M C) (trk : Tracklet ℝ M) (front : TrackObject ℝ)
    (d_start : WithTop ℝ) (hf : trk.track.head? = some front)
    (hd : e.dist_from_border trk true = some d_start)
    (htheta : 0 < e.m_params.theta_time) (hrelax : e.m_params.relax = false)
    (hstart : front.t = (e.m_frame_range.1 : Int))
    (hfar : (e.m_params.theta_dist : WithTop ℝ) ≤ d_start) :
    e.P_init trk = some (Real.exp (-1 / e.m_params.lambda_time)) := by
  rw [P_init_eq e trk front d_start hf hd]
  have hcast : (front.t : ℝ) = (e.m_frame_range.1 : ℝ) := by
    rw [hstart]; simp
  have c1 : (front.t : ℝ) < (e.m_frame_range.1 : ℝ) + e.m_params.theta_time := by
    rw [hcast]; linarith
  have c2 : ¬ (d_start < (e.m_params.theta_dist : WithTop ℝ) ∨ e.m_params.relax = true) := by
    rintro (h | h)
    · exact absurd h (not_lt.mpr hfar)
    · rw [hrelax] at h; exact absurd h (by decide)
  rw [if_pos (Or.inl c1), if_pos c1, if_neg c2, max_eq_left (le_of_lt (Real.exp_pos _)), hcast]
  congr 2
  ring

/-- C17, the code at the failing input `k = 0`: tracklet S starts in the first
frame and tracklet T ends in the last frame of the engine, both 100 units from
the border.  The guards of `create` admit an Initialization hypothesis for S
and a Termination hypothesis for T, but `P_init(S) = exp(-(0+1)/lambda_time)`
while `P_term(T) = exp(-0/lambda_time) = 1`: `P_init` adds one frame to the
distance in time and `P_term` does not. -/
theorem P_term_not_mirror_of_P_init :
    emptyEngine.init_guard trackS ∧ emptyEngine.term_guard trackT ∧
    emptyEngine.dist_from_border trackS true = some 100 ∧
    emptyEngine.dist_from_border trackT false = some 100 ∧
    emptyEngine.P_init trackS = some (Real.exp (-1 / 5)) ∧
    emptyEngine.P_term trackT = some 1 ∧ Real.exp (-1 / 5) < (1 : ℝ) := by
  have hdS : emptyEngine.dist_from_border trackS true = some 100 :=
    dist_origin_demoVolume emptyEngine rfl trackS true
      { ID := 21, x := 0, y := 0, z := 0, t := 0, dummy := false, label := 0 } rfl rfl rfl rfl
  have hdT : emptyEngine.dist_from_border trackT false = some 100 :=
    dist_origin_demoVolume emptyEngine rfl trackT false
      { ID := 22, x := 0, y := 0, z := 0, t := 200, dummy := false, label := 0 }
      rfl rfl rfl rfl
  have hfar : (emptyEngine.m_params.theta_dist : WithTop ℝ) ≤ 100 := by
    show ((5 : ℝ) : WithTop ℝ) ≤ ((100 : ℝ) : WithTop ℝ)
    exact_mod_cast (by norm_num : (5 : ℝ) ≤ 100)
  have hnear : ¬ ((100 : WithTop ℝ) < (emptyEngine.m_params.theta_dist : WithTop ℝ) ∨
      emptyEngine.m_params.relax = true) := by
    rintro (h | h)
    · exact absurd h (not_lt.mpr hfar)
    · exact absurd h (by decide)
  have hS : emptyEngine.P_init trackS = some (Real.exp (-1 / 5)) :=
    P_init_at_start emptyEngine trackS
      { ID := 21, x := 0, y := 0, z := 0, t := 0, dummy := false, label := 0 } 100 rfl hdS
      (by show (0 : ℝ) < 5; norm_num) rfl rfl hfar
  have hc1 : ((unsigned_sub (emptyEngine.m_frame_range.2 : Int) 200 : Int) : ℝ)
      < emptyEngine.m_params.theta_time := by
    have h0 : unsigned_sub (emptyEngine.m_frame_range.2 : Int) 200 = 0 := by decide
    rw [h0]
    show ((0 : Int) : ℝ) < 5
    norm_num
  have hT : emptyEngine.P_term trackT = some 1 := by
    rw [P_term_eq emptyEngine trackT
      { ID := 22, x := 0, y := 0, z := 0, t := 200, dummy := false, label := 0 } 100 rfl hdT]
    rw [if_pos (Or.inl hc1), if_pos hc1, if_neg hnear]
    have hval : Real.exp (-((emptyEngine.m_frame_range.2 : ℝ) - ((200 : Int) : ℝ))
        / emptyEngine.m_params.lambda_time) = 1 := by
      show Real.exp (-(((200 : Nat) : ℝ) - ((200 : Int) : ℝ)) / 5) = 1
      norm_num
    rw [hval, max_eq_left (by norm_num : (0 : ℝ) ≤ 1)]
  refine ⟨?_, ?_, hdS, hdT, hS, hT, ?_⟩
  · refine ⟨_, _, rfl, hdS, Or.inr (Or.inl ?_)⟩
    show ((0 : Int) : ℝ) < ((0 : Nat) : ℝ) + 5
    norm_num
  · refine ⟨_, _, rfl, hdT, Or.inr (Or.inl ?_)⟩
    show ((200 : Int) : ℝ) > ((200 : Nat) : ℝ) - 5
    norm_num
  · calc Real.exp (-1 / 5) < 9 / 10 := exp_neg_fifth_lt
      _ < 1 := by norm_num

end StartClaims

end BTrack

namespace BTrack

noncomputable section BranchClaims

variable {M C : Type}

theorem normalized_dot (a b : Vec3 ℝ) (ha : 0 < a.dot a) (hb : 0 < b.dot b) :
    a.normalized.dot b.normalized = a.dot b / (Real.sqrt (a.dot a) * Real.sqrt (b.dot b)) := by
  have hsa : Real.sqrt (a.dot a) ≠ 0 := ne_of_gt (Real.sqrt_pos.mpr ha)
  have hsb : Real.sqrt (b.dot b) ≠ 0 := ne_of_gt (Real.sqrt_pos.mpr hb)
  simp only [Vec3.normalized, ha, hb, if_true]
  simp only [Vec3.dot]
  field_simp

theorem P_branch_eq (e : HypothesisEngine M C) (trk c0 c1 : Tracklet ℝ M)
    (back f0 f1 : TrackObject ℝ) (p0 p1 : ℝ)
    (hb : trk.track.getLast? = some back) (hf0 : c0.track.head? = some f0)
    (hf1 : c1.track.head? = some f1) (hp0 : e.P_dead_count c0 = some p0)
    (hp1 : e.P_dead_count c1 = some p1) :
    e.P_branch trk c0 c1 = some (Real.exp (-(
      (if back.label = STATE_metaphase then
        if f0.label = STATE_anaphase ∧ f1.label = STATE_anaphase then (0.01 : ℝ)
        else if f0.label = STATE_anaphase ∨ f1.label = STATE_anaphase then 0.1
        else 2
      else
        if f0.label = STATE_anaphase ∧ f1.label = STATE_anaphase then 1
        else if f0.label = STATE_anaphase ∨ f1.label = STATE_anaphase then 2
        else 5 + 10 * p0 + 10 * p1)
      * ((1 - erf ((f0.position.sub back.position).normalized.dot
            (f1.position.sub back.position).normalized / (3 * Real.sqrt 2))) / 2))
      / (2 * e.m_params.lambda_branch))) := by
  simp only [HypothesisEngine.P_branch, hb, hf0, hf1, hp0, hp1, Option.bind_eq_bind,
    Option.some_bind, kRootTwo, WEIGHT_METAPHASE_ANAPHASE_ANAPHASE, WEIGHT_METAPHASE_ANAPHASE,
    WEIGHT_METAPHASE, WEIGHT_ANAPHASE_ANAPHASE, WEIGHT_ANAPHASE, WEIGHT_OTHER]
  split_ifs <;> simp only [Option.some_bind, Option.some.injEq] <;> norm_num

/-- C18: `P_branch(trk, c0, c1) = exp(-dG/(2*lambda_branch))` with
`dG = weight*(1 - erf(dp/(3*sqrt 2)))/2`, where `dp` is the dot product of the
unit vectors from the last position of `trk` to the first position of each
child, and `weight` follows the label table: for a metaphase parent 0.01 if
both children start in anaphase, 0.1 if exactly one does, 2.0 if neither; for
another parent 1.0 if both, 2.0 if exactly one, and
`5.0 + 10*P_dead(c0) + 10*P_dead(c1)` if neither. -/
theorem P_branch_value (e : HypothesisEngine M C) (trk c0 c1 : Tracklet ℝ M)
    (back f0 f1 : TrackObject ℝ)
    (hb : trk.track.getLast? = some back) (hf0 : c0.track.head? = some f0)
    (hf1 : c1.track.head? = some f1)
    (hn0 : 0 < (f0.position.sub back.position).dot (f0.position.sub back.position))
    (hn1 : 0 < (f1.position.sub back.position).dot (f1.position.sub back.position)) :
    ∃ weight dp p0 p1,
      e.P_branch trk c0 c1 = some (Real.exp (-(weight
        * ((1 - erf (dp / (3 * Real.sqrt 2))) / 2)) / (2 * e.m_params.lambda_branch))) ∧
      dp = (f0.position.sub back.position).dot (f1.position.sub back.position)
        / (Real.sqrt ((f0.position.sub back.position).dot (f0.position.sub back.position))
          * Real.sqrt ((f1.position.sub back.position).dot (f1.position.sub back.position))) ∧
      e.P_dead_count c0 = some p0 ∧ e.P_dead_count c1 = some p1 ∧
      (back.label = STATE_metaphase →
        (f0.label = STATE_anaphase ∧ f1.label = STATE_anaphase → weight = 0.01) ∧
        ((f0.label = STATE_anaphase ∧ f1.label ≠ STATE_anaphase) ∨
          (f0.label ≠ STATE_anaphase ∧ f1.label = STATE_anaphase) → weight = 0.1) ∧
        (f0.label ≠ STATE_anaphase ∧ f1.label ≠ STATE_anaphase → weight = 2.0)) ∧
      (back.label ≠ STATE_metaphase →
        (f0.label = STATE_anaphase ∧ f1.label = STATE_anaphase → weight = 1.0) ∧
        ((f0.label = STATE_anaphase ∧ f1.label ≠ STATE_anaphase) ∨
          (f0.label ≠ STATE_anaphase ∧ f1.label = STATE_anaphase) → weight = 2.0) ∧
        (f0.label ≠ STATE_anaphase ∧ f1.label ≠ STATE_anaphase →
          weight = 5.0 + 10 * p0 + 10 * p1)) := by
  have hc0 : c0.track ≠ [] := by
    intro h; rw [h] at hf0; simp at hf0
  have hc1 : c1.track ≠ [] := by
    intro h; rw [h] at hf1; simp at hf1
  obtain ⟨p0, hp0⟩ := (P_total e c0 hc0).2.2.2.2.2
  obtain ⟨p1, hp1⟩ := (P_total e c1 hc1).2.2.2.2.2
  refine ⟨(if back.label = STATE_metaphase then
        if f0.label = STATE_anaphase ∧ f1.label = STATE_anaphase then (0.01 : ℝ)
        else if f0.label = STATE_anaphase ∨ f1.label = STATE_anaphase then 0.1
        else 2
      else
        if f0.label = STATE_anaphase ∧ f1.label = STATE_anaphase then 1
        else if f0.label = STATE_anaphase ∨ f1.label = STATE_anaphase then 2
        else 5 + 10 * p0 + 10 * p1), _, p0, p1, ?_, rfl, hp0, hp1, ?_, ?_⟩
  · rw [P_branch_eq e trk c0 c1 back f0 f1 p0 p1 hb hf0 hf1 hp0 hp1,
      normalized_dot _ _ hn0 hn1]
  · intro hm
    refine ⟨?_, ?_, ?_⟩
    · intro h
      rw [if_pos hm, if_pos h]
    · rintro (h | h)
      · rw [if_pos hm, if_neg (fun hx => h.2 hx.2), if_pos (Or.inl h.1)]
      · rw [if_pos hm, if_neg (fun hx => h.1 hx.1), if_pos (Or.inr h.2)]
    · intro h
      rw [if_pos hm, if_neg (fun hx => h.1 hx.1),
        if_neg (fun hx => hx.elim h.1 h.2)]
      norm_num
  · intro hm
    refine ⟨?_, ?_, ?_⟩
    · intro h
      rw [if_neg hm, if_pos h]
      norm_num
    · rintro (h | h)
      · rw [if_neg hm, if_neg (fun hx => h.2 hx.2), if_pos (Or.inl h.1)]
        norm_num
      · rw [if_neg hm, if_neg (fun hx => h.1 hx.1), if_pos (Or.inr h.2)]
        norm_num
    · intro h
      rw [if_neg hm, if_neg (fun hx => h.1 hx.1),
        if_neg (fun hx => hx.elim h.1 h.2)]
      norm_num

theorem P_branch_value_witness :
    trackP.track.getLast?
      = some { ID := 10, x := 0, y := 0, z := 0, t := 10, dummy := false, label := 2 } ∧
    trackC0.track.head?
      = some { ID := 11, x := 1, y := 0, z := 0, t := 11, dummy := false, label := 3 } ∧
    trackC1.track.head?
      = some { ID := 12, x := -1, y := 0, z := 0, t := 11, dummy := false, label := 3 } ∧
    ∃ weight dp, engineDiv.P_branch trackP trackC0 trackC1
        = some (Real.exp (-(weight * ((1 - erf (dp / (3 * Real.sqrt 2))) / 2))
            / (2 * engineDiv.m_params.lambda_branch))) ∧
      weight = 0.01 ∧ dp = -1 := by
  have hn0 : (0 : ℝ) < (Vec3.sub (TrackObject.position
        ({ ID := 11, x := 1, y := 0, z := 0, t := 11, dummy := false, label := 3 }
          : TrackObject ℝ))
      (TrackObject.position
        ({ ID := 10, x := 0, y := 0, z := 0, t := 10, dummy := false, label := 2 }
          : TrackObject ℝ))).dot
      (Vec3.sub (TrackObject.position
        ({ ID := 11, x := 1, y := 0, z := 0, t := 11, dummy := false, label := 3 }
          : TrackObject ℝ))
      (TrackObject.position
        ({ ID := 10, x := 0, y := 0, z := 0, t := 10, dummy := false, label := 2 }
          : TrackObject ℝ))) := by
    simp [Vec3.dot, Vec3.sub, TrackObject.position]
  have hn1 : (0 : ℝ) < (Vec3.sub (TrackObject.position
        ({ ID := 12, x := -1, y := 0, z := 0, t := 11, dummy := false, label := 3 }
          : TrackObject ℝ))
      (TrackObject.position
        ({ ID := 10, x := 0, y := 0, z := 0, t := 10, dummy := false, label := 2 }
          : TrackObject ℝ))).dot
      (Vec3.sub (TrackObject.position
        ({ ID := 12, x := -1, y := 0, z := 0, t := 11, dummy := false, label := 3 }
          : TrackObject ℝ))
      (TrackObject.position
        ({ ID := 10, x := 0, y := 0, z := 0, t := 10, dummy := false, label := 2 }
          : TrackObject ℝ))) := by
    simp [Vec3.dot, Vec3.sub, TrackObject.position]
  obtain ⟨weight, dp, p0, p1, hP, hdp, _, _, hmeta, _⟩ :=
    P_branch_value engineDiv trackP trackC0 trackC1 _ _ _ rfl rfl rfl hn0 hn1
  refine ⟨rfl, rfl, rfl, weight, dp, hP, (hmeta rfl).1 ⟨rfl, rfl⟩, ?_⟩
  rw [hdp]
  simp [Vec3.dot, Vec3.sub, TrackObject.position]

end BranchClaims

end BTrack

namespace BTrack

noncomputable section EtaClaims

variable {M C : Type}

theorem forall2_append {α β : Type} (R : α → β → Prop) {l1 l2 : List α} {m1 m2 : List β}
    (h1 : List.Forall₂ R l1 m1) (h2 : List.Forall₂ R l2 m2) :
    List.Forall₂ R (l1 ++ l2) (m1 ++ m2) := by
  induction h1 with
  | nil => exact h2
  | cons hab _ ih => exact List.Forall₂.cons hab ih

theorem forall2_ite_singleton {α β : Type} (R : α → β → Prop) (c : Prop) [Decidable c]
    (a : α) (b : β) (h : c → R a b) :
    List.Forall₂ R (if c then [a] else []) (if c then [b] else []) := by
  by_cases hc : c
  · rw [if_pos hc, if_pos hc]
    exact List.Forall₂.cons (h hc) List.Forall₂.nil
  · rw [if_neg hc, if_neg hc]
    exact List.Forall₂.nil

theorem forall2_map_same {α β γ : Type} (R : β → γ → Prop) (l : List α) (f : α → β)
    (g : α → γ) (h : ∀ x ∈ l, R (f x) (g x)) : List.Forall₂ R (l.map f) (l.map g) := by
  induction l with
  | nil => exact List.Forall₂.nil
  | cons a l ih =>
    exact List.Forall₂.cons (h a (List.mem_cons_self _ _))
      (ih (fun x hx => h x (List.mem_cons_of_mem _ hx)))

theorem forall2_ite_map {α β γ : Type} (R : β → γ → Prop) (c : Prop) [Decidable c]
    (l : List α) (f : α → β) (g : α → γ) (h : ∀ x ∈ l, R (f x) (g x)) :
    List.Forall₂ R (if c then l.map f else []) (if c then l.map g else []) := by
  by_cases hc : c
  · rw [if_pos hc, if_pos hc]
    exact forall2_map_same R l f g h
  · rw [if_neg hc, if_neg hc]
    exact List.Forall₂.nil

theorem forall2_flatten_map {α β γ : Type} (R : β → γ → Prop) (l : List α)
    (f : α → List β) (g : α → List γ) (h : ∀ x ∈ l, List.Forall₂ R (f x) (g x)) :
    List.Forall₂ R (l.map f).flatten (l.map g).flatten := by
  induction l with
  | nil => exact List.Forall₂.nil
  | cons a l ih =>
    simp only [List.map_cons, List.flatten_cons]
    exact forall2_append R (h a (List.mem_cons_self _ _))
      (ih (fun x hx => h x (List.mem_cons_of_mem _ hx)))

theorem P_init_of_guard (e : HypothesisEngine M C) (trk : Tracklet ℝ M)
    (front : TrackObject ℝ) (dist : WithTop ℝ) (hf : trk.track.head? = some front)
    (hd : e.dist_from_border trk true = some dist)
    (hg : e.m_params.relax = true ∨
      (front.t : ℝ) < (e.m_frame_range.1 : ℝ) + e.m_params.theta_time ∨
      dist < (e.m_params.theta_dist : WithTop ℝ)) :
    e.P_init trk = some
      (max (if (front.t : ℝ) < (e.m_frame_range.1 : ℝ) + e.m_params.theta_time then
              Real.exp (-((front.t : ℝ) - (e.m_frame_range.1 : ℝ) + 1) / e.m_params.lambda_time)
            else 0)
          (if dist < (e.m_params.theta_dist : WithTop ℝ) ∨ e.m_params.relax = true then
              exp_neg_div dist e.m_params.lambda_dist
            else 0)) := by
  rw [P_init_eq e trk front dist hf hd]
  have hflag : (front.t : ℝ) < (e.m_frame_range.1 : ℝ) + e.m_params.theta_time ∨
      (dist < (e.m_params.theta_dist : WithTop ℝ) ∨ e.m_params.relax = true) := by
    rcases hg with h | h | h
    · exact Or.inr (Or.inr h)
    · exact Or.inl h
    · exact Or.inr (Or.inl h)
  rw [if_pos hflag]

theorem unsigned_sub_eq (a b : Int) (h0 : b ≤ a) (h1 : a - b < 2 ^ 32) :
    unsigned_sub a b = a - b :=
  Int.emod_eq_of_lt (by omega) h1

theorem P_term_of_guard (e : HypothesisEngine M C) (trk : Tracklet ℝ M)
    (back : TrackObject ℝ) (dist : WithTop ℝ) (hb : trk.track.getLast? = some back)
    (hd : e.dist_from_border trk false = some dist)
    (hstop : e.m_frame_range.2 < 2 ^ 32) (hlo : 0 ≤ back.t)
    (hhi : back.t ≤ (e.m_frame_range.2 : Int))
    (hg : e.m_params.relax = true ∨
      (back.t : ℝ) > (e.m_frame_range.2 : ℝ) - e.m_params.theta_time ∨
      dist < (e.m_params.theta_dist : WithTop ℝ)) :
    e.P_term trk = some
      (max (if (e.m_frame_range.2 : ℝ) - (back.t : ℝ) < e.m_params.theta_time then
              Real.exp (-((e.m_frame_range.2 : ℝ) - (back.t : ℝ)) / e.m_params.lambda_time)
            else 0)
          (if dist < (e.m_params.theta_dist : WithTop ℝ) ∨ e.m_params.relax = true then
              exp_neg_div dist e.m_params.lambda_dist
            else 0)) := by
  have hstop1 : ((e.m_frame_range.2 : Nat) : Int) < 2 ^ 32 := by exact_mod_cast hstop
  have hsub : ((unsigned_sub (e.m_frame_range.2 : Int) back.t : Int) : ℝ)
      = (e.m_frame_range.2 : ℝ) - (back.t : ℝ) := by
    rw [unsigned_sub_eq _ _ hhi (by omega)]
    push_cast
    rfl
  rw [P_term_eq e trk back dist hb hd, hsub]
  have hflag : (e.m_frame_range.2 : ℝ) - (back.t : ℝ) < e.m_params.theta_time ∨
      (dist < (e.m_params.theta_dist : WithTop ℝ) ∨ e.m_params.relax = true) := by
    rcases hg with h | h | h
    · exact Or.inr (Or.inr h)
    · left
      have : (back.t : ℝ) > (e.m_frame_range.2 : ℝ) - e.m_params.theta_time := h
      linarith
    · exact Or.inr (Or.inl h)
  rw [if_pos hflag]

theorem P_init_with_eta (e : HypothesisEngine M C) (eta : ℝ) (trk : Tracklet ℝ M)
    (hg : e.init_guard trk) : (e.with_eta eta).P_init trk = e.P_init trk := by
  obtain ⟨front, dist, hf, hd, h⟩ := hg
  rw [P_init_of_guard e trk front dist hf hd h,
    P_init_of_guard (e.with_eta eta) trk front dist hf hd h]
  rfl

theorem P_term_with_eta (e : HypothesisEngine M C) (eta : ℝ) (trk : Tracklet ℝ M)
    (hstop : e.m_frame_range.2 < 2 ^ 32)
    (hrange : ∀ o ∈ trk.track, (e.m_frame_range.1 : Int) ≤ o.t ∧ o.t ≤ (e.m_frame_range.2 : Int))
    (hg : e.term_guard trk) : (e.with_eta eta).P_term trk = e.P_term trk := by
  obtain ⟨back, dist, hb, hd, h⟩ := hg
  have hmem : back ∈ trk.track := List.mem_of_getLast?_eq_some hb
  have hlo : (0 : Int) ≤ back.t :=
    le_trans (Int.ofNat_nonneg _) (hrange back hmem).1
  rw [P_term_of_guard e trk back dist hb hd hstop hlo (hrange back hmem).2 h,
    P_term_of_guard (e.with_eta eta) trk back dist hb hd hstop hlo (hrange back hmem).2 h]
  rfl

/-- Beyond the last frame the fallback is reached: tracklet U ends in frame
201 of an engine on frames 0 to 200, 100 units from the border.  The guard of
`create` admits a Termination hypothesis (`201 > 200 - 5`), the unsigned
difference `200 - 201` is `2^32 - 1`, not below `theta_time`, and `P_term`
returns `eta`. -/
theorem P_term_eta_beyond_stop :
    emptyEngine.term_guard trackU ∧
    unsigned_sub (emptyEngine.m_frame_range.2 : Int) 201 = 4294967295 ∧
    emptyEngine.P_term trackU = some emptyEngine.m_params.eta := by
  have hdU : emptyEngine.dist_from_border trackU false = some 100 :=
    dist_origin_demoVolume emptyEngine rfl trackU false
      { ID := 24, x := 0, y := 0, z := 0, t := 201, dummy := false, label := 0 }
      rfl rfl rfl rfl
  have hsub : unsigned_sub (emptyEngine.m_frame_range.2 : Int) 201 = 4294967295 := by decide
  refine ⟨⟨_, _, rfl, hdU, Or.inr (Or.inl ?_)⟩, hsub, ?_⟩
  · show ((201 : Int) : ℝ) > ((200 : Nat) : ℝ) - 5
    norm_num
  · rw [P_term_eq emptyEngine trackU
      { ID := 24, x := 0, y := 0, z := 0, t := 201, dummy := false, label := 0 } 100 rfl hdU]
    have hfar : (emptyEngine.m_params.theta_dist : WithTop ℝ) ≤ 100 := by
      show ((5 : ℝ) : WithTop ℝ) ≤ ((100 : ℝ) : WithTop ℝ)
      exact_mod_cast (by norm_num : (5 : ℝ) ≤ 100)
    have hno : ¬ (((unsigned_sub (emptyEngine.m_frame_range.2 : Int) 201 : Int) : ℝ)
          < emptyEngine.m_params.theta_time ∨
        ((100 : WithTop ℝ) < (emptyEngine.m_params.theta_dist : WithTop ℝ) ∨
          emptyEngine.m_params.relax = true)) := by
      rintro (h | h | h)
      · rw [hsub] at h
        have h5 : ((4294967295 : Int) : ℝ) < 5 := h
        norm_num at h5
      · exact absurd h (not_lt.mpr hfar)
      · exact absurd h (by decide)
    rw [if_neg hno]

theorem P_link_auto_with_eta (e : HypothesisEngine M C) (eta : ℝ) (trk c : Tracklet ℝ M)
    (back front : TrackObject ℝ) (hb : trk.track.getLast? = some back)
    (hf : c.track.head? = some front)
    (hlab : ¬ (back.label = STATE_metaphase ∧ front.label = STATE_anaphase)) :
    (e.with_eta eta).P_link_auto trk c = e.P_link_auto trk c := by
  have h : ∀ d dt : ℝ, (e.with_eta eta).P_link trk c d dt = e.P_link trk c d dt := by
    intro d dt
    simp only [HypothesisEngine.P_link, hb, hf, Option.bind_eq_bind, Option.some_bind, hlab,
      if_false]
    rfl
  simp only [HypothesisEngine.P_link_auto, h]

open Classical in
theorem track_hypotheses_with_eta (e : HypothesisEngine M C) (eta : ℝ) (trk : Tracklet ℝ M)
    (cands : List (Tracklet ℝ M)) (htrk : trk.track ≠ []) (hc : ∀ c ∈ cands, c.track ≠ [])
    (hstop : e.m_frame_range.2 < 2 ^ 32)
    (hrange : ∀ o ∈ trk.track,
      (e.m_frame_range.1 : Int) ≤ o.t ∧ o.t ≤ (e.m_frame_range.2 : Int)) :
    List.Forall₂ same_up_to_forbidden_link (e.track_hypotheses trk cands)
      ((e.with_eta eta).track_hypotheses trk cands) := by
  have hshape : (e.with_eta eta).track_hypotheses trk cands =
      (e.with_eta eta).h_fp trk ::
        ((if e.hypothesis_allowed TYPE_Pinit = true ∧ e.init_guard trk then
            [(e.with_eta eta).h_init trk] else [])
          ++ (if e.hypothesis_allowed TYPE_Pterm = true ∧ e.term_guard trk then
              [(e.with_eta eta).h_term trk] else [])
          ++ (if e.hypothesis_allowed TYPE_Papop = true ∧
                trailing_apoptosis trk.track > e.m_params.apop_thresh then
              [(e.with_eta eta).h_apoptosis trk] else [])
          ++ (if e.hypothesis_allowed TYPE_Plink = true then
                (cands.filter (e.accepts trk)).map ((e.with_eta eta).h_link trk)
              else [])
          ++ (if e.hypothesis_allowed TYPE_Pdivn = true then
                (ordered_pairs (cands.filter (e.accepts trk))).map
                  (fun p => (e.with_eta eta).h_divn trk p.1 p.2)
              else [])) := rfl
  obtain ⟨back, hb⟩ := exists_getLast_of_ne_nil htrk
  rw [hshape]
  unfold HypothesisEngine.track_hypotheses
  refine List.Forall₂.cons ⟨rfl, rfl, rfl, rfl, rfl, Or.inl rfl⟩ ?_
  refine forall2_append _ (forall2_append _ (forall2_append _ (forall2_append _ ?_ ?_) ?_) ?_) ?_
  · apply forall2_ite_singleton
    intro hcond
    refine ⟨rfl, rfl, rfl, rfl, rfl, Or.inl ?_⟩
    show safe_log (((e.with_eta eta).P_init trk).getD 0)
        + 0.5 * safe_log (((e.with_eta eta).P_TP trk).getD 0)
      = safe_log ((e.P_init trk).getD 0) + 0.5 * safe_log ((e.P_TP trk).getD 0)
    rw [P_init_with_eta e eta trk hcond.2]
    rfl
  · apply forall2_ite_singleton
    intro hcond
    refine ⟨rfl, rfl, rfl, rfl, rfl, Or.inl ?_⟩
    show safe_log (((e.with_eta eta).P_term trk).getD 0)
        + 0.5 * safe_log (((e.with_eta eta).P_TP trk).getD 0)
      = safe_log ((e.P_term trk).getD 0) + 0.5 * safe_log ((e.P_TP trk).getD 0)
    rw [P_term_with_eta e eta trk hstop hrange hcond.2]
    rfl
  · apply forall2_ite_singleton
    intro _
    exact ⟨rfl, rfl, rfl, rfl, rfl, Or.inl rfl⟩
  · apply forall2_ite_map
    intro c hcm
    have hcne : c.track ≠ [] := hc c (List.mem_of_mem_filter hcm)
    obtain ⟨front, hf⟩ := exists_head_of_ne_nil hcne
    refine ⟨rfl, rfl, rfl, rfl, rfl, ?_⟩
    by_cases hlab : back.label = STATE_metaphase ∧ front.label = STATE_anaphase
    · exact Or.inr ⟨rfl, c, back, front, rfl, hb, hf, hlab.1, hlab.2⟩
    · left
      show safe_log (((e.with_eta eta).P_link_auto trk c).getD 0)
          + 0.5 * safe_log (((e.with_eta eta).P_TP trk).getD 0)
          + 0.5 * safe_log (((e.with_eta eta).P_TP c).getD 0)
        = safe_log ((e.P_link_auto trk c).getD 0) + 0.5 * safe_log ((e.P_TP trk).getD 0)
          + 0.5 * safe_log ((e.P_TP c).getD 0)
      rw [P_link_auto_with_eta e eta trk c back front hb hf hlab]
      rfl
  · apply forall2_ite_map
    intro p _
    exact ⟨rfl, rfl, rfl, rfl, rfl, Or.inl rfl⟩

/-- C20: inside `create` the `eta` fallback of `P_init` and `P_term` is not
reached for tracklets whose observations lie in the frame range `[start,
stop]` (the last frame being an `unsigned int`, below `2^32`).  For every such
tracklet, when the guard of `create` admits an Initialization (resp.
Termination) hypothesis, `P_init` (resp. `P_term`) returns
`max(prob[0], prob[1])`; and when all the tracklets of the engine are such,
replacing `eta` by any other value leaves every pushed hypothesis as it is,
except for the score of Link hypotheses from a tracklet ending in metaphase to
one starting in anaphase. -/
theorem eta_fallback_unreachable (cube : HypercubeOps M C) (e : HypothesisEngine M C)
    (hwf : e.WellFormed cube) (eta1 : ℝ) (hstop : e.m_frame_range.2 < 2 ^ 32)
    (hrange : ∀ trk ∈ e.m_tracks, ∀ o ∈ trk.track,
      (e.m_frame_range.1 : Int) ≤ o.t ∧ o.t ≤ (e.m_frame_range.2 : Int)) :
    (∀ (trk : Tracklet ℝ M) (front back : TrackObject ℝ) (d_start d_stop : WithTop ℝ),
      trk.track.head? = some front → trk.track.getLast? = some back →
      e.dist_from_border trk true = some d_start →
      e.dist_from_border trk false = some d_stop →
      (∀ o ∈ trk.track, (e.m_frame_range.1 : Int) ≤ o.t ∧ o.t ≤ (e.m_frame_range.2 : Int)) →
      ((e.m_params.relax = true ∨
          (front.t : ℝ) < (e.m_frame_range.1 : ℝ) + e.m_params.theta_time ∨
          d_start < (e.m_params.theta_dist : WithTop ℝ)) →
        e.P_init trk = some
          (max (if (front.t : ℝ) < (e.m_frame_range.1 : ℝ) + e.m_params.theta_time then
                  Real.exp (-((front.t : ℝ) - (e.m_frame_range.1 : ℝ) + 1)
                    / e.m_params.lambda_time)
                else 0)
              (if d_start < (e.m_params.theta_dist : WithTop ℝ) ∨ e.m_params.relax = true then
                  exp_neg_div d_start e.m_params.lambda_dist
                else 0))) ∧
      ((e.m_params.relax = true ∨
          (back.t : ℝ) > (e.m_frame_range.2 : ℝ) - e.m_params.theta_time ∨
          d_stop < (e.m_params.theta_dist : WithTop ℝ)) →
        e.P_term trk = some
          (max (if (e.m_frame_range.2 : ℝ) - (back.t : ℝ) < e.m_params.theta_time then
                  Real.exp (-((e.m_frame_range.2 : ℝ) - (back.t : ℝ))
                    / e.m_params.lambda_time)
                else 0)
              (if d_stop < (e.m_params.theta_dist : WithTop ℝ) ∨ e.m_params.relax = true then
                  exp_neg_div d_stop e.m_params.lambda_dist
                else 0)))) ∧
    ∃ e1 e2 pushed pushed1, e.create cube = some e1 ∧
      (e.with_eta eta1).create cube = some e2 ∧
      e1.m_hypotheses = e.m_hypotheses ++ pushed ∧
      e2.m_hypotheses = e.m_hypotheses ++ pushed1 ∧
      List.Forall₂ same_up_to_forbidden_link pushed pushed1 := by
  refine ⟨?_, ?_⟩
  · intro trk front back d_start d_stop hf hb hds hdp hr
    have hmem : back ∈ trk.track := List.mem_of_getLast?_eq_some hb
    have hlo : (0 : Int) ≤ back.t := le_trans (Int.ofNat_nonneg _) (hr back hmem).1
    exact ⟨fun hg => P_init_of_guard e trk front d_start hf hds hg,
      fun hg => P_term_of_guard e trk back d_stop hb hdp hstop hlo (hr back hmem).2 hg⟩
  · have hwf1 : (e.with_eta eta1).WellFormed cube := hwf
    obtain ⟨e1, hcreate, hhyp, _⟩ := create_eq cube e hwf
    obtain ⟨e2, hcreate1, hhyp1, _⟩ := create_eq cube (e.with_eta eta1) hwf1
    refine ⟨e1, e2, (e.rounds cube).flatten, ((e.with_eta eta1).rounds cube).flatten, hcreate,
      hcreate1, hhyp, hhyp1, ?_⟩
    have hr : (e.with_eta eta1).rounds cube
        = e.m_tracks.map (fun trk =>
            (e.with_eta eta1).track_hypotheses trk (e.candidates cube trk)) := rfl
    rw [hr]
    unfold HypothesisEngine.rounds
    apply forall2_flatten_map
    intro trk htrk
    obtain ⟨hne, cands, hget, hc⟩ := hwf trk htrk
    have hcands : e.candidates cube trk = cands := by
      simp [HypothesisEngine.candidates, hget]
    rw [hcands]
    exact track_hypotheses_with_eta e eta1 trk cands hne hc hstop (hrange trk htrk)

theorem engineDiv_in_range : ∀ trk ∈ engineDiv.m_tracks, ∀ o ∈ trk.track,
    (engineDiv.m_frame_range.1 : Int) ≤ o.t ∧ o.t ≤ (engineDiv.m_frame_range.2 : Int) := by
  intro trk htrk o ho
  have h3 : trk = trackP ∨ trk = trackC0 ∨ trk = trackC1 := by
    simpa [engineDiv] using htrk
  rcases h3 with h | h | h <;> subst h <;>
    simp only [trackP, trackC0, trackC1, trackOf, List.mem_singleton] at ho <;>
    subst ho <;> exact ⟨by decide, by decide⟩

theorem eta_fallback_unreachable_witness :
    engineDiv.WellFormed specCube ∧ engineDiv.m_frame_range.2 < 2 ^ 32 ∧
    (∀ trk ∈ engineDiv.m_tracks, ∀ o ∈ trk.track,
      (engineDiv.m_frame_range.1 : Int) ≤ o.t ∧ o.t ≤ (engineDiv.m_frame_range.2 : Int)) ∧
    ((∀ (trk : Tracklet ℝ Unit) (front back : TrackObject ℝ) (d_start d_stop : WithTop ℝ),
      trk.track.head? = some front → trk.track.getLast? = some back →
      engineDiv.dist_from_border trk true = some d_start →
      engineDiv.dist_from_border trk false = some d_stop →
      (∀ o ∈ trk.track,
        (engineDiv.m_frame_range.1 : Int) ≤ o.t ∧ o.t ≤ (engineDiv.m_frame_range.2 : Int)) →
      ((engineDiv.m_params.relax = true ∨
          (front.t : ℝ) < (engineDiv.m_frame_range.1 : ℝ) + engineDiv.m_params.theta_time ∨
          d_start < (engineDiv.m_params.theta_dist : WithTop ℝ)) →
        engineDiv.P_init trk = some
          (max (if (front.t : ℝ)
                    < (engineDiv.m_frame_range.1 : ℝ) + engineDiv.m_params.theta_time then
                  Real.exp (-((front.t : ℝ) - (engineDiv.m_frame_range.1 : ℝ) + 1)
                    / engineDiv.m_params.lambda_time)
                else 0)
              (if d_start < (engineDiv.m_params.theta_dist : WithTop ℝ) ∨
                    engineDiv.m_params.relax = true then
                  exp_neg_div d_start engineDiv.m_params.lambda_dist
                else 0))) ∧
      ((engineDiv.m_params.relax = true ∨
          (back.t : ℝ) > (engineDiv.m_frame_range.2 : ℝ) - engineDiv.m_params.theta_time ∨
          d_stop < (engineDiv.m_params.theta_dist : WithTop ℝ)) →
        engineDiv.P_term trk = some
          (max (if (engineDiv.m_frame_range.2 : ℝ) - (back.t : ℝ)
                    < engineDiv.m_params.theta_time then
                  Real.exp (-((engineDiv.m_frame_range.2 : ℝ) - (back.t : ℝ))
                    / engineDiv.m_params.lambda_time)
                else 0)
              (if d_stop < (engineDiv.m_params.theta_dist : WithTop ℝ) ∨
                    engineDiv.m_params.relax = true then
                  exp_neg_div d_stop engineDiv.m_params.lambda_dist
                else 0)))) ∧
    ∃ e1 e2 pushed pushed1, engineDiv.create specCube = some e1 ∧
      (engineDiv.with_eta (1 / 2)).create specCube = some e2 ∧
      e1.m_hypotheses = engineDiv.m_hypotheses ++ pushed ∧
      e2.m_hypotheses = engineDiv.m_hypotheses ++ pushed1 ∧
      List.Forall₂ same_up_to_forbidden_link pushed pushed1) :=
  ⟨demo_wellFormed.2.2.2.1, by decide, engineDiv_in_range,
    eta_fallback_unreachable specCube engineDiv demo_wellFormed.2.2.2.1 (1 / 2) (by decide)
      engineDiv_in_range⟩

end EtaClaims

end BTrack

namespace BTrack

noncomputable section RepeatClaims

variable {M C : Type}

/-- C21: `create` appends to the hypothesis buffer without clearing it.  With
the tracks and the index as the first call left them (it changes neither), a
second call of `create` right after the first pushes the same list `pushed`
again: the buffer is the old one followed by `pushed` after the first call and
by `pushed ++ pushed` after the second.  On a buffer that was empty before the
first call the result is the list of the first call followed by an identical
copy, of twice the length; with at least one track the second call changes the
buffer, so `create` is not idempotent; and with zero tracks `create` leaves the
engine, hence the buffer, as it was. -/
theorem create_twice_appends (cube : HypercubeOps M C) (e : HypothesisEngine M C)
    (hwf : e.WellFormed cube) :
    ∃ e1 e2 pushed, e.create cube = some e1 ∧ e1.create cube = some e2 ∧
      e.create_twice cube = some e2 ∧
      e1.m_tracks = e.m_tracks ∧ e1.m_cube = e.m_cube ∧
      e2.m_tracks = e.m_tracks ∧ e2.m_cube = e.m_cube ∧
      e1.m_hypotheses = e.m_hypotheses ++ pushed ∧
      e2.m_hypotheses = e.m_hypotheses ++ pushed ++ pushed ∧
      (e.m_hypotheses = [] →
        e2.m_hypotheses = e1.m_hypotheses ++ e1.m_hypotheses ∧
        e2.m_hypotheses.length = 2 * e1.m_hypotheses.length) ∧
      (e.m_tracks ≠ [] →
        e2.m_hypotheses ≠ e1.m_hypotheses ∧
        e1.m_hypotheses.length < e2.m_hypotheses.length) ∧
      (e.m_tracks = [] → e1 = e ∧ e2 = e ∧ pushed = []) := by
  have key : ∀ e0 : HypothesisEngine M C, e0.WellFormed cube → e0.m_tracks ≠ [] →
      e0.create cube = some { e0 with m_num_tracks := e0.m_tracks.length,
                                      m_hypotheses :=
                                        e0.m_hypotheses ++ (e0.rounds cube).flatten } := by
    intro e0 hwf0 hne0
    obtain ⟨e1, hc, hh, ht, hcu, hp, hv, hf⟩ := create_eq cube e0 hwf0
    have hlen : ¬ e0.m_tracks.length < 1 := by
      have := List.length_pos.mpr hne0
      omega
    have hc0 := hc
    simp only [HypothesisEngine.create, hlen, if_false, Option.bind_eq_bind,
      Option.bind_eq_some] at hc0
    obtain ⟨pushed, _, hp1⟩ := hc0
    have he1 : e1 = { e0 with m_num_tracks := e0.m_tracks.length,
                              m_hypotheses := e0.m_hypotheses ++ pushed } :=
      (Option.some.inj hp1).symm
    have hpu : pushed = (e0.rounds cube).flatten := by
      rw [he1] at hh
      exact List.append_cancel_left hh
    rw [hc, he1, hpu]
  by_cases hne : e.m_tracks = []
  · have h1 : e.create cube = some e := by simp [HypothesisEngine.create, hne]
    refine ⟨e, e, [], h1, h1, by simp [HypothesisEngine.create_twice, h1], rfl, rfl, rfl, rfl,
      by simp, by simp, ?_, fun h => absurd hne h, fun _ => ⟨rfl, rfl, rfl⟩⟩
    intro h0
    simp [h0]
  · have h1 := key e hwf hne
    have h2 := key
      { e with m_num_tracks := e.m_tracks.length,
               m_hypotheses := e.m_hypotheses ++ (e.rounds cube).flatten } hwf hne
    have hr : ({ e with m_num_tracks := e.m_tracks.length,
                        m_hypotheses := e.m_hypotheses ++ (e.rounds cube).flatten }
        : HypothesisEngine M C).rounds cube = e.rounds cube := rfl
    rw [hr] at h2
    have hnil : (e.rounds cube).flatten ≠ [] := by
      obtain ⟨trk, htrk⟩ := List.exists_mem_of_ne_nil _ hne
      have hmem : e.h_fp trk ∈ (e.rounds cube).flatten :=
        (mem_rounds_flatten cube e _).mpr
          ⟨trk, htrk, (mem_track_hypotheses e trk _ _).mpr (Or.inl rfl)⟩
      exact List.ne_nil_of_mem hmem
    have hpos : 0 < ((e.rounds cube).flatten).length := List.length_pos.mpr hnil
    refine ⟨_, _, (e.rounds cube).flatten, h1, h2,
      by simp only [HypothesisEngine.create_twice, h1, Option.some_bind]; exact h2,
      rfl, rfl, rfl, rfl, rfl, rfl, ?_, ?_, fun h => absurd h hne⟩
    · intro h0
      simp only [h0, List.nil_append, List.length_append]
      exact ⟨trivial, by omega⟩
    · intro _
      have hlt : (e.m_hypotheses ++ (e.rounds cube).flatten).length
          < (e.m_hypotheses ++ (e.rounds cube).flatten ++ (e.rounds cube).flatten).length := by
        simp only [List.length_append]
        omega
      refine ⟨fun heq => ?_, hlt⟩
      have hl := congrArg List.length heq
      exact absurd hl (Nat.ne_of_gt hlt)

theorem create_twice_appends_witness :
    engineAB.WellFormed specCube ∧
    ∃ e1 e2 pushed, engineAB.create specCube = some e1 ∧ e1.create specCube = some e2 ∧
      engineAB.create_twice specCube = some e2 ∧
      e1.m_tracks = engineAB.m_tracks ∧ e1.m_cube = engineAB.m_cube ∧
      e2.m_tracks = engineAB.m_tracks ∧ e2.m_cube = engineAB.m_cube ∧
      e1.m_hypotheses = engineAB.m_hypotheses ++ pushed ∧
      e2.m_hypotheses = engineAB.m_hypotheses ++ pushed ++ pushed ∧
      (engineAB.m_hypotheses = [] →
        e2.m_hypotheses = e1.m_hypotheses ++ e1.m_hypotheses ∧
        e2.m_hypotheses.length = 2 * e1.m_hypotheses.length) ∧
      (engineAB.m_tracks ≠ [] →
        e2.m_hypotheses ≠ e1.m_hypotheses ∧
        e1.m_hypotheses.length < e2.m_hypotheses.length) ∧
      (engineAB.m_tracks = [] → e1 = engineAB ∧ e2 = engineAB ∧ pushed = []) :=
  ⟨demo_wellFormed.1, create_twice_appends specCube engineAB demo_wellFormed.1⟩

/-- C22: for every engine on which `create` is defined, whatever its tracks
and whatever the value of `hypotheses_to_generate`, `create` returns, and every
hypothesis it pushes has one of the types `TYPE_Pfalse`, `TYPE_Pinit`,
`TYPE_Pterm`, `TYPE_Plink`, `TYPE_Pdivn`, `TYPE_Papop`; none has the type
`TYPE_Pmrge` (6), `TYPE_Pdead` (666) or `TYPE_undef` (999). -/
theorem emitted_types_known (cube : HypercubeOps M C) (e : HypothesisEngine M C)
    (hwf : e.WellFormed cube) :
    ∃ e1 pushed, e.create cube = some e1 ∧ e1.m_hypotheses = e.m_hypotheses ++ pushed ∧
      ∀ h ∈ pushed,
        h.hypothesis ∈ [TYPE_Pfalse, TYPE_Pinit, TYPE_Pterm, TYPE_Plink, TYPE_Pdivn, TYPE_Papop] ∧
        h.hypothesis ≠ TYPE_Pmrge ∧ h.hypothesis ≠ TYPE_Pdead ∧ h.hypothesis ≠ TYPE_undef := by
  obtain ⟨e1, hcreate, hhyp, _⟩ := create_eq cube e hwf
  refine ⟨e1, (e.rounds cube).flatten, hcreate, hhyp, ?_⟩
  intro h hmem
  obtain ⟨trk, _, hin⟩ := (mem_rounds_flatten cube e h).mp hmem
  have hty : h.hypothesis
      ∈ [TYPE_Pfalse, TYPE_Pinit, TYPE_Pterm, TYPE_Plink, TYPE_Pdivn, TYPE_Papop] := by
    rcases (mem_track_hypotheses e trk _ h).mp hin with h1 | ⟨_, _, h1⟩ | ⟨_, _, h1⟩ |
      ⟨_, _, h1⟩ | ⟨_, c, _, _, h1⟩ | ⟨_, p, _, h1⟩
    · rw [h1]; show TYPE_Pfalse ∈ _; decide
    · rw [h1]; show TYPE_Pinit ∈ _; decide
    · rw [h1]; show TYPE_Pterm ∈ _; decide
    · rw [h1]; show TYPE_Papop ∈ _; decide
    · rw [h1]; show TYPE_Plink ∈ _; decide
    · rw [h1]; show TYPE_Pdivn ∈ _; decide
  refine ⟨hty, ?_, ?_, ?_⟩ <;>
  · intro heq
    rw [heq] at hty
    revert hty
    decide

theorem emitted_types_known_witness :
    engineMerge.WellFormed specCube ∧
    engineMerge.hypothesis_allowed TYPE_Pmrge = true ∧
    ∃ e1 pushed, engineMerge.create specCube = some e1 ∧
      e1.m_hypotheses = engineMerge.m_hypotheses ++ pushed ∧
      ∀ h ∈ pushed,
        h.hypothesis ∈ [TYPE_Pfalse, TYPE_Pinit, TYPE_Pterm, TYPE_Plink, TYPE_Pdivn, TYPE_Papop] ∧
        h.hypothesis ≠ TYPE_Pmrge ∧ h.hypothesis ≠ TYPE_Pdead ∧ h.hypothesis ≠ TYPE_undef :=
  ⟨demo_wellFormed.1, by decide,
    emitted_types_known specCube engineMerge demo_wellFormed.1⟩

end RepeatClaims

end BTrack
